import Mathlib

/-!
Verification of the SomalifuscatorV2 deobfuscator (`src/deobfuscator.py`).

This file gives a shallow embedding of the deobfuscation engine: the
character-resolver regexes and substitution loops, the restricted
`set /a` expression evaluator, the scramble reverser, the junk-line
filter and the final cleanup, together with theorems settling the
frozen claims about that engine.

Python regular expressions used by the source are embedded as abstract
syntax trees over a small backtracking matcher (`Somali.mat`).  The
patterns of the source only ever apply `*`, `+` and `?` quantifiers to
single-character classes, so the matcher recurses structurally and
needs no fuel.  All text is ASCII; Python's `\s`, `\w`, `\d` classes
and `str.strip`/`str.lower` are modelled for that range.
-/

namespace Somali

/-- Python's whitespace set `\s` restricted to ASCII. -/
def pyIsSpace (c : Char) : Bool :=
  c = ' ' || c = '\t' || c = '\n' || c = '\r' || c = '\x0b' || c = '\x0c'

/-- ASCII decimal digit, Python's `\d`. -/
def pyIsDigit (c : Char) : Bool :=
  '0' ≤ c && c ≤ '9'

/-- ASCII word character, Python's `\w`. -/
def pyIsWord (c : Char) : Bool :=
  c.isAlpha || pyIsDigit c || c = '_'

/-- ASCII letter (the `[a-z]` class under `re.IGNORECASE`). -/
def pyIsAlpha (c : Char) : Bool :=
  ('a' ≤ c && c ≤ 'z') || ('A' ≤ c && c ≤ 'Z')

/-- The `[a-zA-Z0-9]` class. -/
def pyIsAlnum (c : Char) : Bool :=
  pyIsAlpha c || pyIsDigit c

/-- Python `str.strip()` (ASCII whitespace). -/
def pyStripL (l : List Char) : List Char :=
  (l.dropWhile pyIsSpace).reverse.dropWhile pyIsSpace |>.reverse

/-- Python `str.strip()` on `String`. -/
def pyStrip (s : String) : String :=
  ⟨pyStripL s.data⟩

/-- Python `str.lower()` (ASCII). -/
def pyLower (s : String) : String :=
  ⟨s.data.map Char.toLower⟩

/-- Python `str.upper()` (ASCII). -/
def pyUpper (s : String) : String :=
  ⟨s.data.map Char.toUpper⟩

/-- Python `str.splitlines()` for text whose only line break is `\n`:
an empty string gives no lines and a trailing `\n` adds no empty line. -/
def splitNL : List Char → List (List Char)
  | [] => []
  | c :: rest =>
    if c = '\n' then [] :: splitNL rest
    else match splitNL rest with
      | [] => [[c]]
      | l :: ls => (c :: l) :: ls

/-- String wrapper for `splitNL`. -/
def pySplitlines (s : String) : List String :=
  (splitNL s.data).map (⟨·⟩)

/-- Python `str.split()` with no separator: split on whitespace runs,
dropping empty fields. -/
def pySplitWsAux : List Char → List Char → List (List Char)
  | [], acc => if acc = [] then [] else [acc.reverse]
  | c :: rest, acc =>
    if pyIsSpace c then
      if acc = [] then pySplitWsAux rest []
      else acc.reverse :: pySplitWsAux rest []
    else pySplitWsAux rest (c :: acc)

/-- Python `str.split()` on `String`. -/
def pySplitWs (s : String) : List String :=
  (pySplitWsAux s.data []).map (⟨·⟩)

/-- Does `pat` occur at the head of `l`? -/
def headIs : List Char → List Char → Bool
  | [], _ => true
  | _ :: _, [] => false
  | p :: ps, c :: cs => p = c && headIs ps cs

/-- Python `pat in s` substring containment. -/
def containsSub (l pat : List Char) : Bool :=
  headIs pat l ||
    match l with
    | [] => false
    | _ :: rest => containsSub rest pat

/-- String wrapper for substring containment. -/
def strContains (s pat : String) : Bool :=
  containsSub s.data pat.data

/-- Python `str.replace(pat, rep)` (all occurrences, left to right),
for a nonempty pattern.  `fuel` bounds the number of replacement
steps; initialising it with the text length is always sufficient
because each step consumes at least one character. -/
def pyReplaceL (pat rep : List Char) : Nat → List Char → List Char
  | _, [] => []
  | 0, l => l
  | fuel + 1, c :: rest =>
    if headIs pat (c :: rest) && pat ≠ [] then
      rep ++ pyReplaceL pat rep fuel (List.drop (pat.length - 1) rest)
    else
      c :: pyReplaceL pat rep fuel rest

/-- Python `str.replace` on `String`. -/
def pyReplace (s pat rep : String) : String :=
  ⟨pyReplaceL pat.data rep.data s.data.length s.data⟩

/-- Python `str.lstrip(':')`: drop all leading colons. -/
def lstripColon (s : String) : String :=
  ⟨s.data.dropWhile (· = ':')⟩

/-- Value of a run of decimal digit characters. -/
def decDigitsVal (l : List Char) : Nat :=
  l.foldl (fun a c => 10 * a + (c.toNat - 48)) 0

/-- Python `int(str)` restricted to the shapes the source feeds it
(regex-delimited `-?\d+` text). -/
def pyToInt? (s : String) : Option Int :=
  match s.data with
  | [] => none
  | '-' :: ds =>
    if ds ≠ [] && ds.all pyIsDigit then some (-(decDigitsVal ds : Int)) else none
  | ds => if ds.all pyIsDigit then some ((decDigitsVal ds : Nat) : Int) else none

/-! ## A small backtracking regex matcher

Character classes are the only things quantified in the source's
patterns, so `star` and `rep1` take a class, not a regex; this keeps
the matcher structurally recursive.  `bol`/`eol` implement Python's
`^`/`$` in `re.MULTILINE` mode (for patterns used without that flag the
source only ever matches single lines, where the two modes agree). -/

/-- Character classes appearing in the source's patterns. -/
inductive CClass where
  | ws        -- `\s`
  | word      -- `\w`
  | digit     -- `\d`
  | alpha     -- `[a-z]` under IGNORECASE
  | alnum     -- `[a-zA-Z0-9]`
  | dot       -- `.` (anything but a newline)
  | anyc      -- `[\s\S]`
  | exact (c : Char)    -- a literal character, case-sensitive
  | exactCI (c : Char)  -- a literal character under IGNORECASE
  deriving DecidableEq, Repr

/-- Whether a class accepts a character. -/
def CClass.accepts : CClass → Char → Bool
  | .ws, c => pyIsSpace c
  | .word, c => pyIsWord c
  | .digit, c => pyIsDigit c
  | .alpha, c => pyIsAlpha c
  | .alnum, c => pyIsAlnum c
  | .dot, c => c ≠ '\n'
  | .anyc, _ => true
  | .exact a, c => a = c
  | .exactCI a, c => a.toLower = c.toLower

/-- Regex abstract syntax: quantifiers only over character classes. -/
inductive Regex where
  | eps
  | one (p : CClass)
  | star (p : CClass) (greedy : Bool)
  | rep1 (p : CClass) (greedy : Bool)
  | cat (a b : Regex)
  | alt (a b : Regex)
  | opt (a : Regex)
  | grp (n : Nat) (a : Regex)
  | bol
  | eol
  deriving DecidableEq, Repr

/-- Captured groups: group number paired with captured text. -/
abbrev Caps := List (Nat × String)

/-- Look up a capture group (first record wins; each group is recorded
at most once by the patterns in this file). -/
def capGet (cs : Caps) (n : Nat) : Option String :=
  (cs.find? (·.1 = n)).map (·.2)

/-- Python truthiness of `match.group(n)`: the group participated in
the match and captured nonempty text. -/
def capTruthy (cs : Caps) (n : Nat) : Bool :=
  match capGet cs n with
  | some s => s ≠ ""
  | none => false

/-- Matcher continuation: previous character (`none` at start of
input), remaining input, captures so far. -/
abbrev MatchK := Option Char → List Char → Caps → Option (Caps × List Char)

/-- Backtracking loop for a quantified character class.  `greedy` tries
the longest extension first, a lazy quantifier the shortest. -/
def starLoop (p : CClass) (greedy : Bool) : Option Char → List Char → Caps → MatchK →
    Option (Caps × List Char)
  | prev, [], cs, k => k prev [] cs
  | prev, c :: rest, cs, k =>
    if greedy then
      (if p.accepts c then starLoop p greedy (some c) rest cs k else none) <|>
        k prev (c :: rest) cs
    else
      k prev (c :: rest) cs <|>
        (if p.accepts c then starLoop p greedy (some c) rest cs k else none)

/-- The backtracking matcher in continuation-passing style.  The first
success in backtracking order is returned, mirroring Python `re`:
alternatives left to right, greedy/lazy quantifier preference. -/
def mat : Regex → Option Char → List Char → Caps → MatchK → Option (Caps × List Char)
  | .eps, prev, s, cs, k => k prev s cs
  | .one p, _, s, cs, k =>
    (match s with
      | c :: rest => if p.accepts c then k (some c) rest cs else none
      | [] => none)
  | .star p g, prev, s, cs, k => starLoop p g prev s cs k
  | .rep1 p g, _, s, cs, k =>
    (match s with
      | c :: rest => if p.accepts c then starLoop p g (some c) rest cs k else none
      | [] => none)
  | .cat a b, prev, s, cs, k => mat a prev s cs (fun p' s' cs' => mat b p' s' cs' k)
  | .alt a b, prev, s, cs, k => mat a prev s cs k <|> mat b prev s cs k
  | .opt a, prev, s, cs, k => mat a prev s cs k <|> k prev s cs
  | .grp n a, prev, s, cs, k =>
    mat a prev s cs (fun p' s' cs' =>
      k p' s' ((n, ⟨s.take (s.length - s'.length)⟩) :: cs'))
  | .bol, prev, s, cs, k =>
    if prev = none || prev = some '\n' then k prev s cs else none
  | .eol, prev, s, cs, k =>
    if s = [] || s.head? = some '\n' then k prev s cs else none

/-- Try to match `r` at the current position; on success return the
captures and the text after the match. -/
def matchAt (r : Regex) (prev : Option Char) (s : List Char) : Option (Caps × List Char) :=
  mat r prev s [] (fun _ rest cs => some (cs, rest))

/-- Find the leftmost match of `r`: returns the text before the match,
the captures, and the text after the match.  This is the engine behind
`re.search`, `re.sub` and `re.finditer`. -/
def findSplit (r : Regex) : Option Char → List Char → Option (List Char × Caps × List Char)
  | prev, s =>
    match matchAt r prev s with
    | some (cs, rest) => some ([], cs, rest)
    | none =>
      match s with
      | [] => none
      | c :: rest =>
        (findSplit r (some c) rest).map (fun x => (c :: x.1, x.2.1, x.2.2))

/-- Python `re.search` as a Boolean (`pattern.search(line)` used by the
junk filter). -/
def reSearch (r : Regex) (s : String) : Bool :=
  (findSplit r none s.data).isSome

/-- Python `re.match` (anchored at the start of the string): returns
the captures and the text of the whole match on success. -/
def reMatch (r : Regex) (s : String) : Option (Caps × String) :=
  (matchAt r none s.data).map fun x =>
    (x.1, ⟨s.data.take (s.data.length - x.2.length)⟩)

/-- Python `pattern.sub(callback, text)`: repeatedly replace the
leftmost match, continuing after it.  The callback receives the
captures and the whole matched text.  `fuel` bounds the number of
matches; it is initialised with the text length, which suffices because
every pattern this file applies `sub` to only produces nonempty
matches. -/
def subCallAux (r : Regex) (f : Caps → String → String) :
    Nat → Option Char → List Char → List Char
  | 0, _, s => s
  | fuel + 1, prev, s =>
    match findSplit r prev s with
    | none => s
    | some (gap, cs, rest) =>
      let consumedLen := s.length - gap.length - rest.length
      let whole : List Char := (s.drop gap.length).take consumedLen
      let prev' : Option Char :=
        if whole = [] then (gap.getLast?).orElse (fun _ => prev)
        else whole.getLast?
      gap ++ (f cs ⟨whole⟩).data ++
        (if consumedLen = 0 then
          match rest with
          | [] => []
          | c :: rest' => c :: subCallAux r f fuel (some c) rest'
        else subCallAux r f fuel prev' rest)

/-- Python `pattern.sub(callback, s)` on `String`. -/
def subCall (r : Regex) (f : Caps → String → String) (s : String) : String :=
  ⟨subCallAux r f (s.data.length + 1) none s.data⟩

/-- Sequence a list of regexes. -/
def rcat (l : List Regex) : Regex :=
  match l with
  | [] => .eps
  | [r] => r
  | r :: rest => .cat r (rcat rest)

/-- A case-insensitive literal string (each pattern below that uses it
is compiled with `re.IGNORECASE`). -/
def litCI (s : String) : Regex :=
  rcat (s.data.map (fun c => Regex.one (.exactCI c)))

/-- A case-sensitive literal string. -/
def lit (s : String) : Regex :=
  rcat (s.data.map (fun c => Regex.one (.exact c)))

/-! ## The known-environment table and character-cipher patterns

These mirror `ENV_VAR_VALUES` and the `RE_*` constants of
`src/deobfuscator.py`.  Entries that the source reads from the
executing environment (`os.environ.get(..., default)`) are modelled by
their documented fallback defaults. -/

/-- The `ENV_VAR_VALUES` table. -/
def ENV_VAR_VALUES : List (String × String) :=
  [("PUBLIC", "C:\\Users\\Public"),
   ("COMMONPROGRAMFILES(X86)", "C:\\Program Files (x86)\\Common Files"),
   ("PROGRAMFILES", "C:\\Program Files"),
   ("PROGRAMFILES(X86)", "C:\\Program Files (x86)"),
   ("DRIVERDATA", "C:\\Windows\\System32\\Drivers\\DriverData"),
   ("COMMONPROGRAMFILES", "C:\\Program Files\\Common Files"),
   ("COMMONPROGRAMW6432", "C:\\Program Files\\Common Files"),
   ("USERPROFILE", "C:\\Users\\Default"),
   ("TEMP", "C:\\Users\\Default\\AppData\\Local\\Temp"),
   ("TMP", "C:\\Users\\Default\\AppData\\Local\\Temp"),
   ("LOCALAPPDATA", "C:\\Users\\Default\\AppData\\Local"),
   ("APPDATA", "C:\\Users\\Default\\AppData\\Roaming"),
   ("OS", "Windows_NT"),
   ("SYSTEMDRIVE", "C:"),
   ("SESSIONNAME", "Console")]

/-- Association-list lookup used for the tables in this file. -/
def alistGet (m : List (String × String)) (k : String) : Option String :=
  (m.find? (·.1 = k)).map (·.2)

/-- The pattern `(-?\d+)` wrapped in group `g`. -/
def signedInt (g : Nat) : Regex :=
  .grp g (.cat (.opt (.one (.exact '-'))) (.rep1 .digit true))

/-- Core of `RE_ENV_SLICE`, `%(\w+):~(-?\d+),(?:\s*)1%`, with the name
group numbered `g1` and the index group `g2` (the numbering differs
between the standalone pattern and `RE_COMBINED_SPECIFIC_CHAR_OBF`). -/
def envSliceCore (g1 g2 : Nat) : Regex :=
  rcat [.one (.exact '%'), .grp g1 (.rep1 .word true), lit ":~",
        signedInt g2, .one (.exact ','), .star .ws true, lit "1%"]

/-- Core of `RE_KDOT_SLICE`, `%KDOT:~(-?\d+),(?:\s*)1%`. -/
def kdotSliceCore (g : Nat) : Regex :=
  rcat [.one (.exact '%'), litCI "KDOT", lit ":~",
        signedInt g, .one (.exact ','), .star .ws true, lit "1%"]

/-- Core of `RE_CAESAR_JUNK`, `%([a-z])(1?)%(?:%[a-zA-Z0-9]+%)?` under
`re.IGNORECASE`. -/
def caesarJunkCore (g1 g2 : Nat) : Regex :=
  rcat [.one (.exact '%'), .grp g1 (.one .alpha), .grp g2 (.opt (.one (.exact '1'))),
        .one (.exact '%'),
        .opt (rcat [.one (.exact '%'), .rep1 .alnum true, .one (.exact '%')])]

/-- `RE_ENV_SLICE`. -/
def RE_ENV_SLICE : Regex := envSliceCore 1 2

/-- `RE_KDOT_SLICE`. -/
def RE_KDOT_SLICE : Regex := kdotSliceCore 1

/-- `RE_CAESAR_JUNK`. -/
def RE_CAESAR_JUNK : Regex := caesarJunkCore 1 2

/-- `RE_SIMPLE_JUNK`, `%[a-zA-Z0-9]+%(.)%[a-zA-Z0-9]+%` (compiled
without `re.IGNORECASE`). -/
def RE_SIMPLE_JUNK : Regex :=
  rcat [.one (.exact '%'), .rep1 .alnum true, .one (.exact '%'),
        .grp 1 (.one .dot), .one (.exact '%'), .rep1 .alnum true, .one (.exact '%')]

/-- `RE_COMBINED_SPECIFIC_CHAR_OBF`: the alternation
`(env-slice)|(kdot-slice)|(caesar-junk)` with Python's group numbering
(whole alternatives are groups 1, 4 and 6; their inner groups are
2-3, 5 and 7-8). -/
def RE_COMBINED_SPECIFIC_CHAR_OBF : Regex :=
  .alt (.grp 1 (envSliceCore 2 3))
    (.alt (.grp 4 (kdotSliceCore 5)) (.grp 6 (caesarJunkCore 7 8)))

/-- `RE_KDOT`, `^\s*set\s+KDOT=([a-zA-Z0-9]+)` under `re.IGNORECASE`. -/
def RE_KDOT : Regex :=
  rcat [.bol, .star .ws true, litCI "set", .rep1 .ws true, litCI "KDOT",
        .one (.exact '='), .grp 1 (.rep1 .alnum true)]

/-- `RE_CAESAR_DEF`, `^\s*set\s+([a-z])=([a-z])` under `re.IGNORECASE`. -/
def RE_CAESAR_DEF : Regex :=
  rcat [.bol, .star .ws true, litCI "set", .rep1 .ws true,
        .grp 1 (.one .alpha), .one (.exact '='), .grp 2 (.one .alpha)]

/-! ## Settings extraction (`extract_initial_settings`) -/

/-- The settings extracted from the script: the KDOT auxiliary value
and the reverse Caesar map (obfuscated character, original character),
first definition per obfuscated character wins. -/
structure Settings where
  kdot_value : Option String
  reverse_caesar_map : List (Char × Char)
  deriving DecidableEq, Repr

/-- Association lookup on the reverse Caesar map. -/
def cmapGet (m : List (Char × Char)) (k : Char) : Option Char :=
  (m.find? (·.1 = k)).map (·.2)

/-- One step of `extract_initial_settings`: process one line. -/
def settingsStep (st : Settings) (line : String) : Settings :=
  let st1 :=
    if st.kdot_value = none then
      match reMatch RE_KDOT line with
      | some (caps, _) =>
        { st with kdot_value := capGet caps 1 }
      | none => st
    else st
  match reMatch RE_CAESAR_DEF line with
  | some (caps, _) =>
    let original := ((capGet caps 1).getD "").data.headD ' ' |>.toLower
    let obfuscated := ((capGet caps 2).getD "").data.headD ' ' |>.toLower
    if cmapGet st1.reverse_caesar_map obfuscated = none then
      { st1 with reverse_caesar_map := st1.reverse_caesar_map ++ [(obfuscated, original)] }
    else st1
  | none => st1

/-- `extract_initial_settings`: scan all lines once. -/
def extract_initial_settings (lines : List String) : Settings :=
  lines.foldl settingsStep { kdot_value := none, reverse_caesar_map := [] }

/-! ## Character-resolution helpers -/

/-- Slice a string by a (possibly negative, Python-style) index; `none`
when out of bounds. -/
def sliceIndex (value : String) (idx : Int) : Option Char :=
  let n : Int := value.data.length
  let actual : Int := if idx < 0 then n + idx else idx
  if 0 ≤ actual ∧ actual < n then value.data.get? actual.toNat else none

/-- `get_char_from_env_slice`: `whole` is `match.group(0)`, `name` and
`idxStr` are groups 1 and 2 of `RE_ENV_SLICE`.  An unknown variable
returns the whole token unchanged; a known variable with an
out-of-range index returns the empty string. -/
def get_char_from_env_slice (whole name idxStr : String) : String :=
  match pyToInt? idxStr with
  | none => whole
  | some idx =>
    match alistGet ENV_VAR_VALUES (pyUpper name) with
    | some value =>
      match sliceIndex value idx with
      | some c => ⟨[c]⟩
      | none => ""
    | none => whole

/-- `get_char_from_kdot`: `whole` is `match.group(0)`, `idxStr` is
group 1 of `RE_KDOT_SLICE`.  A missing KDOT value returns the token
unchanged; an out-of-range index returns the empty string. -/
def get_char_from_kdot (whole idxStr : String) (kdot_value : Option String) : String :=
  match kdot_value with
  | none => whole
  | some kv =>
    if kv = "" then whole
    else
      match pyToInt? idxStr with
      | none => whole
      | some idx =>
        if 0 ≤ idx ∧ idx < (kv.data.length : Int) then ⟨[kv.data.getD idx.toNat ' ']⟩
        else ""

/-- `get_char_from_caesar`: `whole` is `match.group(0)`, `chStr` and
`marker` are groups 1 and 2 of `RE_CAESAR_JUNK`.  A character absent
from the reverse map returns the token unchanged. -/
def get_char_from_caesar (whole chStr marker : String) (rmap : List (Char × Char)) : String :=
  let obfuscated := chStr.data.headD ' ' |>.toLower
  match cmapGet rmap obfuscated with
  | some original => if marker ≠ "" then ⟨[original.toUpper]⟩ else ⟨[original]⟩
  | none => whole

/-- The `replace_callback` of `deobfuscate_line_characters`: dispatch
on which alternative of the combined pattern matched (by truthiness of
groups 2, 5, 7), re-match the standalone pattern against the whole
alternative's text, and resolve. -/
def replace_callback (settings : Settings) (caps : Caps) (whole : String) : String :=
  if capTruthy caps 2 then
    match reMatch RE_ENV_SLICE ((capGet caps 1).getD "") with
    | some (ecaps, ewhole) =>
      get_char_from_env_slice ewhole ((capGet ecaps 1).getD "") ((capGet ecaps 2).getD "")
    | none => whole
  else if capTruthy caps 5 then
    match reMatch RE_KDOT_SLICE ((capGet caps 4).getD "") with
    | some (kcaps, kwhole) =>
      get_char_from_kdot kwhole ((capGet kcaps 1).getD "") settings.kdot_value
    | none => whole
  else if capTruthy caps 7 then
    match reMatch RE_CAESAR_JUNK ((capGet caps 6).getD "") with
    | some (ccaps, cwhole) =>
      get_char_from_caesar cwhole ((capGet ccaps 1).getD "") ((capGet ccaps 2).getD "")
        settings.reverse_caesar_map
    | none => whole
  else whole

/-! ## The bounded fixed-point substitution loop -/

/-- The source's `while processed != last and passes < max:` loop.
Returns the final text, the number of passes executed, and whether the
loop exited because the text converged (as opposed to hitting the
bound with the text still changing). -/
def iterFix (f : String → String) : Nat → String → String × Nat × Bool
  | 0, s => (s, 0, true)
  | fuel + 1, s =>
    let t := f s
    if t = s then (t, 1, true)
    else
      match fuel with
      | 0 => (t, 1, false)
      | _ + 1 =>
        let (r, k, c) := iterFix f fuel t
        (r, k + 1, c)

/-- Statistics of one `deobfuscate_line_characters` run: pass counts of
the two substitution loops and the number of "max substitution passes
reached" warnings each printed (the source prints such a warning
exactly when a loop exits at its bound without converging). -/
structure LineStats where
  passes1 : Nat
  warn1 : Nat
  passes2 : Nat
  warn2 : Nat
  deriving DecidableEq, Repr

/-- The commands whose leading word pass 4 lower-cases. -/
def known_commands : List String :=
  ["echo", "set", "goto", "if", "for", "call", "exit", "chcp", "cls", "rem",
   "pause", "del", "copy", "move", "ren", "md", "rd", "dir", "find", "findstr",
   "type", "sort", "start", "assoc", "ftype", "pushd", "popd", "setlocal", "endlocal",
   "verify", "vol", "label", "path", "prompt", "title", "color", "mode", "net", "sc",
   "taskkill", "tasklist", "wmic", "powershell", "cscript"]

/-- Pass 4 of `deobfuscate_line_characters`: split on whitespace; if
the first word (leading colons stripped) is a known command, lower-case
it; re-join with single spaces.  A line with no words is unchanged. -/
def normalize_case_words (s : String) : String :=
  match pySplitWs s with
  | [] => s
  | w :: ws =>
    let wl := pyLower w
    let words := if (lstripColon wl) ∈ known_commands then wl :: ws else w :: ws
    " ".intercalate words

/-- Pass 1 substitution: one application of the combined pattern. -/
def pass1Sub (settings : Settings) (s : String) : String :=
  subCall RE_COMBINED_SPECIFIC_CHAR_OBF (replace_callback settings) s

/-- Pass 2 substitution: one application of `RE_SIMPLE_JUNK` with
replacement `\1`. -/
def pass2Sub (s : String) : String :=
  subCall RE_SIMPLE_JUNK (fun caps _ => (capGet caps 1).getD "") s

/-- Gate for pass 1: the source only iterates the combined pattern when
there is a KDOT value, a nonempty Caesar map, or some `%VAR:~` text for
a known environment variable in the line. -/
def pass1Gate (settings : Settings) (line : String) : Bool :=
  (match settings.kdot_value with | some v => v ≠ "" | none => false) ||
  settings.reverse_caesar_map ≠ [] ||
  ENV_VAR_VALUES.any (fun kv => strContains line ("%" ++ kv.1 ++ ":~"))

/-- `deobfuscate_line_characters` with its warning/pass statistics. -/
def deobfuscate_line_characters_stats (line : String) (settings : Settings) :
    String × LineStats :=
  let (p1, n1, c1) :=
    if pass1Gate settings line then iterFix (pass1Sub settings) 15 line
    else (line, 0, true)
  let (p2, n2, c2) := iterFix pass2Sub 5 p1
  let p3 := pyReplace (pyReplace p2 "%escape%" "") "%STOP_OBF_HERE%" ""
  let p4 := normalize_case_words p3
  (p4, { passes1 := n1, warn1 := if c1 then 0 else 1,
         passes2 := n2, warn2 := if c2 then 0 else 1 })

/-- `deobfuscate_line_characters`. -/
def deobfuscate_line_characters (line : String) (settings : Settings) : String :=
  (deobfuscate_line_characters_stats line settings).1

/-! ## The expression evaluator (`safe_eval_batch_math`)

The source first rewrites Batch operator spellings into Python ones
with a chain of `re.sub` calls, then hands the text to Python's `eval`
in a context with no names.  The evaluator below models the fragment of
Python expression syntax reachable that way: integer literals
(decimal, and `0x`/`0o`/`0b` prefixed), float literals (fraction and
scientific-exponent forms), the boolean constants `True` and `False`
(which Python arithmetic promotes to the integers one and zero), the
binary operators `+ - * / // % << >> & | ^ **`, the unary operators
`+ - ~`, and parentheses.  Integers carry Python's arbitrary-precision
semantics (floor division and floor modulo); floats are modelled as
exact rationals, taking the double-precision rounding of the source's
host arithmetic as exact, and the final `int(...)` conversion
truncates them toward zero.  Any name evaluates to an error
(`NameError`: the context exposes no bindings), bitwise and shift
operators reject float operands (`TypeError`), a power with a
non-integral exponent denotes an irrational real number and is outside
the modelled fragment, comparison operators are errors, and Python 3's
rejection of leading-zero decimal literals such as `017` is modelled
faithfully. -/

/-- One `re.sub(r'\s*LIT\s*', rep, s)` step of the operator rewriting. -/
def opSub (l : String) (rep : String) (s : String) : String :=
  subCall (rcat [.star .ws true, lit l, .star .ws true]) (fun _ _ => rep) s

/-- The full preprocessing chain of `safe_eval_batch_math`, in source
order: `^^`→`^`, then whitespace stripping around `- + *`, `/`→`//`,
and whitespace stripping around `% << >> & |`. -/
def preprocess (s : String) : String :=
  opSub "|" "|" (opSub "&" "&" (opSub ">>" ">>" (opSub "<<" "<<"
    (opSub "%" "%" (opSub "/" "//" (opSub "*" "*" (opSub "+" "+"
      (opSub "-" "-" (opSub "^^" "^" s)))))))))

/-- Tokens of the modelled Python expression fragment. -/
inductive Tok where
  | num (n : Nat)
  | flt (q : Rat)
  | add | sub | mul | fdiv | tdiv | mod | shl | shr
  | band | bor | bxor | binv | pow | lp | rp
  | ident
  deriving DecidableEq, Repr

/-- Longest prefix satisfying `p` together with the remaining suffix. -/
def lexRun (p : Char → Bool) : List Char → List Char × List Char
  | [] => ([], [])
  | c :: rest =>
    if p c then
      let r := lexRun p rest
      (c :: r.1, r.2)
    else ([], c :: rest)

/-- ASCII hex digit. -/
def isHexDig (c : Char) : Bool :=
  pyIsDigit c || ('a' ≤ c && c ≤ 'f') || ('A' ≤ c && c ≤ 'F')

/-- ASCII octal digit. -/
def isOctDig (c : Char) : Bool :=
  '0' ≤ c && c ≤ '7'

/-- ASCII binary digit. -/
def isBinDig (c : Char) : Bool :=
  c = '0' || c = '1'

/-- Numeric value of a hex digit. -/
def hexVal (c : Char) : Nat :=
  if pyIsDigit c then c.toNat - 48
  else if 'a' ≤ c && c ≤ 'f' then c.toNat - 87
  else if 'A' ≤ c && c ≤ 'F' then c.toNat - 55
  else 0

/-- Value of a digit run in a given base. -/
def digitsVal (base : Nat) (l : List Char) : Nat :=
  l.foldl (fun a c => base * a + hexVal c) 0

/-- Does the text continue with a word character (which Python's
tokenizer rejects directly after a numeric literal)? -/
def wordFollows : List Char → Bool
  | [] => false
  | c :: _ => pyIsWord c

/-- The `[+-]?digits` exponent part of a float literal; the text begins
right after the `e`/`E`. -/
def lexExponent (s : List Char) : Option (Int × List Char) :=
  match s with
  | '+' :: rest =>
    let r := lexRun pyIsDigit rest
    if r.1 = [] then none else some ((digitsVal 10 r.1 : Int), r.2)
  | '-' :: rest =>
    let r := lexRun pyIsDigit rest
    if r.1 = [] then none else some (-(digitsVal 10 r.1 : Int), r.2)
  | _ =>
    let r := lexRun pyIsDigit s
    if r.1 = [] then none else some ((digitsVal 10 r.1 : Int), r.2)

/-- Rational addition, written out on numerators and denominators over
the normalising constructor `Rat.divInt`. -/
def qAdd (a b : Rat) : Rat :=
  Rat.divInt (a.num * (b.den : Int) + b.num * (a.den : Int)) ((a.den : Int) * (b.den : Int))

/-- Rational subtraction over `Rat.divInt`. -/
def qSub (a b : Rat) : Rat :=
  Rat.divInt (a.num * (b.den : Int) - b.num * (a.den : Int)) ((a.den : Int) * (b.den : Int))

/-- Rational multiplication over `Rat.divInt`. -/
def qMul (a b : Rat) : Rat :=
  Rat.divInt (a.num * b.num) ((a.den : Int) * (b.den : Int))

/-- Rational division over `Rat.divInt`. -/
def qDiv (a b : Rat) : Rat :=
  Rat.divInt (a.num * (b.den : Int)) ((a.den : Int) * b.num)

/-- Rational negation over `Rat.divInt`. -/
def qNeg (a : Rat) : Rat :=
  Rat.divInt (-a.num) (a.den : Int)

/-- Rational power over `Rat.divInt`. -/
def qPow (a : Rat) (n : Nat) : Rat :=
  Rat.divInt (a.num ^ n) ((a.den : Int) ^ n)

/-- Rational reciprocal over `Rat.divInt`. -/
def qInv (a : Rat) : Rat :=
  Rat.divInt (a.den : Int) a.num

/-- Scale a rational by a signed power of ten. -/
def scale10 (q : Rat) (e : Int) : Rat :=
  if 0 ≤ e then Rat.divInt (q.num * (10 : Int) ^ e.toNat) (q.den : Int)
  else Rat.divInt q.num ((q.den : Int) * (10 : Int) ^ (-e).toNat)

/-- The float continuation of a decimal literal after its integer-part
digits `ip`: a fraction introduced by `.`, an exponent introduced by
`e`/`E`, or both.  `none` means the literal does not continue as a
float; a `some` result carries the float's exact value and the
remaining text, or a lexing error. -/
def lexFloatTail (ip : List Char) (s : List Char) :
    Option (Except String (Rat × List Char)) :=
  match s with
  | '.' :: rest =>
    let fr := lexRun pyIsDigit rest
    let base : Rat := Rat.divInt (digitsVal 10 (ip ++ fr.1) : Int) ((10 : Int) ^ fr.1.length)
    match fr.2 with
    | 'e' :: rest2 =>
      match lexExponent rest2 with
      | some er => some (.ok (scale10 base er.1, er.2))
      | none => some (.error "invalid decimal literal")
    | 'E' :: rest2 =>
      match lexExponent rest2 with
      | some er => some (.ok (scale10 base er.1, er.2))
      | none => some (.error "invalid decimal literal")
    | _ => some (.ok (base, fr.2))
  | 'e' :: rest =>
    match lexExponent rest with
    | some er => some (.ok (scale10 (digitsVal 10 ip : Rat) er.1, er.2))
    | none => some (.error "invalid decimal literal")
  | 'E' :: rest =>
    match lexExponent rest with
    | some er => some (.ok (scale10 (digitsVal 10 ip : Rat) er.1, er.2))
    | none => some (.error "invalid decimal literal")
  | _ => none

/-- One dispatch step of the tokenizer on a head character and the
remaining text; `go` tokenizes the rest. -/
def tokenizeStep (go : List Char → Except String (List Tok)) (c : Char)
    (s : List Char) : Except String (List Tok) :=
  if pyIsSpace c then go s
  else if c = '(' then (go s).map (Tok.lp :: ·)
  else if c = ')' then (go s).map (Tok.rp :: ·)
  else if c = '+' then (go s).map (Tok.add :: ·)
  else if c = '-' then (go s).map (Tok.sub :: ·)
  else if c = '~' then (go s).map (Tok.binv :: ·)
  else if c = '^' then (go s).map (Tok.bxor :: ·)
  else if c = '&' then (go s).map (Tok.band :: ·)
  else if c = '|' then (go s).map (Tok.bor :: ·)
  else if c = '*' then
    if s.head? = some '*' then (go s.tail).map (Tok.pow :: ·)
    else (go s).map (Tok.mul :: ·)
  else if c = '/' then
    if s.head? = some '/' then (go s.tail).map (Tok.fdiv :: ·)
    else (go s).map (Tok.tdiv :: ·)
  else if c = '%' then (go s).map (Tok.mod :: ·)
  else if c = '<' then
    if s.head? = some '<' then (go s.tail).map (Tok.shl :: ·)
    else .error "comparison"
  else if c = '>' then
    if s.head? = some '>' then (go s.tail).map (Tok.shr :: ·)
    else .error "comparison"
  else if c = '.' then
    if (match s.head? with | some d => pyIsDigit d | none => false) then
      match lexFloatTail ['0'] ('.' :: s) with
      | some (.ok qr) =>
        if wordFollows qr.2 then .error "bad float literal"
        else (go qr.2).map (Tok.flt qr.1 :: ·)
      | some (.error m) => .error m
      | none => .error "bad float literal"
    else .error "unsupported character"
  else if c = '0' then
    match s with
    | x :: s' =>
      if x = 'x' || x = 'X' then
        let r := lexRun isHexDig s'
        if r.1 = [] || wordFollows r.2 then .error "bad hex literal"
        else (go r.2).map (Tok.num (digitsVal 16 r.1) :: ·)
      else if x = 'o' || x = 'O' then
        let r := lexRun isOctDig s'
        if r.1 = [] || wordFollows r.2 then .error "bad octal literal"
        else (go r.2).map (Tok.num (digitsVal 8 r.1) :: ·)
      else if x = 'b' || x = 'B' then
        let r := lexRun isBinDig s'
        if r.1 = [] || wordFollows r.2 then .error "bad binary literal"
        else (go r.2).map (Tok.num (digitsVal 2 r.1) :: ·)
      else
        let r := lexRun pyIsDigit (x :: s')
        match lexFloatTail ('0' :: r.1) r.2 with
        | some (.ok qr) =>
          if wordFollows qr.2 then .error "bad float literal"
          else (go qr.2).map (Tok.flt qr.1 :: ·)
        | some (.error m) => .error m
        | none =>
          if ¬ r.1.all (· = '0') then .error "leading zero in decimal literal"
          else if wordFollows r.2 then .error "bad literal"
          else (go r.2).map (Tok.num 0 :: ·)
    | [] => .ok [Tok.num 0]
  else if pyIsDigit c then
    let r := lexRun pyIsDigit s
    match lexFloatTail (c :: r.1) r.2 with
    | some (.ok qr) =>
      if wordFollows qr.2 then .error "bad float literal"
      else (go qr.2).map (Tok.flt qr.1 :: ·)
    | some (.error m) => .error m
    | none =>
      if wordFollows r.2 then .error "bad literal"
      else (go r.2).map (Tok.num (digitsVal 10 (c :: r.1)) :: ·)
  else if pyIsWord c then
    let r := lexRun pyIsWord s
    if c :: r.1 = ['T', 'r', 'u', 'e'] then (go r.2).map (Tok.num 1 :: ·)
    else if c :: r.1 = ['F', 'a', 'l', 's', 'e'] then (go r.2).map (Tok.num 0 :: ·)
    else (go r.2).map (fun ts => Tok.ident :: ts)
  else .error "unsupported character"

/-- Tokenizer for the modelled fragment.  `fuel` bounds the number of
steps; initialising it with the text length plus one is always
sufficient because every step consumes at least one character. -/
def tokenizeF : Nat → List Char → Except String (List Tok)
  | _, [] => .ok []
  | 0, _ :: _ => .error "out of fuel"
  | fuel + 1, c :: s => tokenizeStep (tokenizeF fuel) c s

/-- The tokenizer at its canonical fuel. -/
def tokenize (s : List Char) : Except String (List Tok) :=
  tokenizeF (s.length + 1) s


/-- Python `x >> n` for `n ≥ 0`: floor division by a power of two. -/
def pyShr (a : Int) (n : Nat) : Int :=
  Int.fdiv a ((2 : Int) ^ n)

/-- Python `x << n` for `n ≥ 0`. -/
def pyShl (a : Int) (n : Nat) : Int :=
  a * (2 : Int) ^ n

/-- A Python value of the modelled fragment: an integer or a float.
Floats are exact rationals here; the double-precision rounding of the
source's host arithmetic is taken as exact. -/
inductive PyVal where
  | int (n : Int)
  | float (q : Rat)
  deriving DecidableEq, Repr

/-- The rational content of a value. -/
def PyVal.toQ : PyVal → Rat
  | .int n => (n : Rat)
  | .float q => q

/-- Floor of a rational as an integer. -/
def ratFloor (q : Rat) : Int :=
  Int.fdiv q.num (q.den : Int)

/-- Python `int(...)` on a number: floats truncate toward zero. -/
def pyIntOf : PyVal → Int
  | .int n => n
  | .float q => Int.tdiv q.num (q.den : Int)

/-- Addition with Python's int/float promotion. -/
def pvAdd : PyVal → PyVal → PyVal
  | .int a, .int b => .int (a + b)
  | a, b => .float (qAdd a.toQ b.toQ)

/-- Subtraction with promotion. -/
def pvSub : PyVal → PyVal → PyVal
  | .int a, .int b => .int (a - b)
  | a, b => .float (qSub a.toQ b.toQ)

/-- Multiplication with promotion. -/
def pvMul : PyVal → PyVal → PyVal
  | .int a, .int b => .int (a * b)
  | a, b => .float (qMul a.toQ b.toQ)

/-- Unary minus. -/
def pvNeg : PyVal → PyVal
  | .int n => .int (-n)
  | .float q => .float (qNeg q)

/-- Python `//`: floor division, an integer on two integers and a
float otherwise; division by zero is an error. -/
def pvFloorDiv : PyVal → PyVal → Except String PyVal
  | .int a, .int b =>
    if b = 0 then .error "integer division or modulo by zero"
    else .ok (.int (Int.fdiv a b))
  | a, b =>
    if b.toQ.num = 0 then .error "float floor division by zero"
    else .ok (.float ((ratFloor (qDiv a.toQ b.toQ) : Int) : Rat))

/-- Python `%`: floor modulo, promoted like division. -/
def pvMod : PyVal → PyVal → Except String PyVal
  | .int a, .int b =>
    if b = 0 then .error "integer division or modulo by zero"
    else .ok (.int (Int.fmod a b))
  | a, b =>
    if b.toQ.num = 0 then .error "float modulo by zero"
    else .ok (.float (qSub a.toQ (qMul b.toQ ((ratFloor (qDiv a.toQ b.toQ) : Int) : Rat))))

/-- Python `/`: true division, always a float. -/
def pvTrueDiv (a b : PyVal) : Except String PyVal :=
  if b.toQ.num = 0 then .error "division by zero"
  else .ok (.float (qDiv a.toQ b.toQ))

/-- Python `**`: an integer for an integer base and nonnegative integer
exponent; a float for a float operand or a negative exponent; a
non-integral exponent denotes an irrational real power, outside the
modelled fragment. -/
def pvPow (a b : PyVal) : Except String PyVal :=
  match b with
  | .int e =>
    if 0 ≤ e then
      match a with
      | .int n => .ok (.int (n ^ e.toNat))
      | .float q => .ok (.float (qPow q e.toNat))
    else
      if a.toQ.num = 0 then .error "zero to a negative power"
      else .ok (.float (qInv (qPow a.toQ (-e).toNat)))
  | .float q =>
    if q.den = 1 then
      if 0 ≤ q.num then .ok (.float (qPow a.toQ q.num.toNat))
      else if a.toQ.num = 0 then .error "zero to a negative power"
      else .ok (.float (qInv (qPow a.toQ (-q.num).toNat)))
    else .error "non-integral exponent"

/-! Mutual recursive-descent evaluation over the token list.
Precedence levels follow Python: 0 `|`, 1 `^`, 2 `&`, 3 shifts,
4 additive, 5 multiplicative, 6 unary, 7 power, 8 atoms.  Fuel
decreases on every call; any fuel at least `8 * (length + 2)` is more
than sufficient. -/

mutual

/-- Parse and evaluate one precedence level. -/
def parseLvl : Nat → Nat → List Tok → Except String (PyVal × List Tok)
  | 0, _, _ => .error "expression too deep"
  | fuel + 1, lvl, ts =>
    if lvl = 6 then
      match ts with
      | .sub :: rest => (parseLvl fuel 6 rest).map (fun vr => (pvNeg vr.1, vr.2))
      | .add :: rest => parseLvl fuel 6 rest
      | .binv :: rest =>
        (parseLvl fuel 6 rest).bind fun vr =>
          match vr.1 with
          | .int n => .ok (.int (-n - 1), vr.2)
          | .float _ => .error "bad operand type for unary invert"
      | _ => parseLvl fuel 7 ts
    else if lvl = 7 then
      (parseLvl fuel 8 ts).bind fun vr =>
        match vr.2 with
        | .pow :: rest =>
          (parseLvl fuel 6 rest).bind fun er =>
            (pvPow vr.1 er.1).map (fun v => (v, er.2))
        | _ => .ok vr
    else if lvl = 8 then
      match ts with
      | .num n :: rest => .ok (.int (n : Int), rest)
      | .flt q :: rest => .ok (.float q, rest)
      | .lp :: rest =>
        (parseLvl fuel 0 rest).bind fun vr =>
          match vr.2 with
          | .rp :: rest' => .ok (vr.1, rest')
          | _ => .error "expected closing parenthesis"
      | .ident :: _ => .error "NameError"
      | _ => .error "invalid syntax"
    else
      (parseLvl fuel (lvl + 1) ts).bind fun vr => binLoop fuel lvl vr.1 vr.2

/-- Left-associative loop over one binary-operator level; the bitwise
and shift operators require integer operands. -/
def binLoop : Nat → Nat → PyVal → List Tok → Except String (PyVal × List Tok)
  | 0, _, _, _ => .error "expression too deep"
  | fuel + 1, lvl, acc, ts =>
    match lvl, ts with
    | 0, .bor :: rest =>
      (parseLvl fuel 1 rest).bind fun vr =>
        match acc, vr.1 with
        | .int a, .int b => binLoop fuel 0 (.int (Int.lor a b)) vr.2
        | _, _ => .error "unsupported operand type for a bitwise operator"
    | 1, .bxor :: rest =>
      (parseLvl fuel 2 rest).bind fun vr =>
        match acc, vr.1 with
        | .int a, .int b => binLoop fuel 1 (.int (Int.xor a b)) vr.2
        | _, _ => .error "unsupported operand type for a bitwise operator"
    | 2, .band :: rest =>
      (parseLvl fuel 3 rest).bind fun vr =>
        match acc, vr.1 with
        | .int a, .int b => binLoop fuel 2 (.int (Int.land a b)) vr.2
        | _, _ => .error "unsupported operand type for a bitwise operator"
    | 3, .shl :: rest =>
      (parseLvl fuel 4 rest).bind fun vr =>
        match acc, vr.1 with
        | .int a, .int b =>
          if b < 0 then .error "negative shift count"
          else binLoop fuel 3 (.int (pyShl a b.toNat)) vr.2
        | _, _ => .error "unsupported operand type for a shift"
    | 3, .shr :: rest =>
      (parseLvl fuel 4 rest).bind fun vr =>
        match acc, vr.1 with
        | .int a, .int b =>
          if b < 0 then .error "negative shift count"
          else binLoop fuel 3 (.int (pyShr a b.toNat)) vr.2
        | _, _ => .error "unsupported operand type for a shift"
    | 4, .add :: rest =>
      (parseLvl fuel 5 rest).bind fun vr => binLoop fuel 4 (pvAdd acc vr.1) vr.2
    | 4, .sub :: rest =>
      (parseLvl fuel 5 rest).bind fun vr => binLoop fuel 4 (pvSub acc vr.1) vr.2
    | 5, .mul :: rest =>
      (parseLvl fuel 6 rest).bind fun vr => binLoop fuel 5 (pvMul acc vr.1) vr.2
    | 5, .fdiv :: rest =>
      (parseLvl fuel 6 rest).bind fun vr =>
        (pvFloorDiv acc vr.1).bind fun v => binLoop fuel 5 v vr.2
    | 5, .mod :: rest =>
      (parseLvl fuel 6 rest).bind fun vr =>
        (pvMod acc vr.1).bind fun v => binLoop fuel 5 v vr.2
    | 5, .tdiv :: rest =>
      (parseLvl fuel 6 rest).bind fun vr =>
        (pvTrueDiv acc vr.1).bind fun v => binLoop fuel 5 v vr.2
    | _, _ => .ok (acc, ts)

end

/-- Evaluate a whole token list (Python `eval` requires the expression
to consume every token) and convert the value with `int(...)`. -/
def pyEvalTokens (ts : List Tok) : Except String Int :=
  (parseLvl (8 * (ts.length + 2)) 0 ts).bind fun vr =>
    if vr.2 = [] then .ok (pyIntOf vr.1) else .error "invalid syntax"

/-- The modelled `eval` of the preprocessed expression text. -/
def pyEval (s : String) : Except String Int :=
  (tokenize s.data).bind pyEvalTokens

/-- `safe_eval_batch_math`: strip, reject empty, preprocess operators,
evaluate; every evaluation error is converted to "no result". -/
def safe_eval_batch_math (expression : String) : Option Int :=
  let e := pyStrip expression
  if e = "" then none
  else
    match pyEval (preprocess e) with
    | .ok n => some n
    | .error _ => none

/-! ## The scramble reverser (`reverse_scrambling`) -/

/-- `RE_SCRAMBLE_JUMP`:
`^\s*set\s+/a\s+ans\s*=\s*(.*?)\s*\n\s*goto\s+%ans%\s*\n\s*:(\d+)\s*$`
under `re.IGNORECASE | re.MULTILINE`. -/
def RE_SCRAMBLE_JUMP : Regex :=
  rcat [.bol, .star .ws true, litCI "set", .rep1 .ws true, litCI "/a",
        .rep1 .ws true, litCI "ans", .star .ws true, .one (.exact '='),
        .star .ws true, .grp 1 (.star .dot false), .star .ws true, .one (.exact '\n'),
        .star .ws true, litCI "goto", .rep1 .ws true, litCI "%ans%",
        .star .ws true, .one (.exact '\n'),
        .star .ws true, .one (.exact ':'), .grp 2 (.rep1 .digit true),
        .star .ws true, .eol]

/-- `RE_SCRAMBLED_BLOCK`:
`^:(\d+)\s*\n([\s\S]*?)\n\s*set\s+/a\s+ans=[\s\S]*?\n\s*goto\s+%ans%\s*$`
under `re.IGNORECASE | re.MULTILINE`. -/
def RE_SCRAMBLED_BLOCK : Regex :=
  rcat [.bol, .one (.exact ':'), .grp 1 (.rep1 .digit true),
        .star .ws true, .one (.exact '\n'),
        .grp 2 (.star .anyc false), .one (.exact '\n'),
        .star .ws true, litCI "set", .rep1 .ws true, litCI "/a",
        .rep1 .ws true, litCI "ans", .one (.exact '='),
        .star .anyc false, .one (.exact '\n'),
        .star .ws true, litCI "goto", .rep1 .ws true, litCI "%ans%",
        .star .ws true, .eol]

/-- Python `"\n".join(...)` on the character level. -/
def joinNL : List String → List Char
  | [] => []
  | [l] => l.data
  | l :: rest => l.data ++ '\n' :: joinNL rest

/-- The character for a decimal digit. -/
def digitChar10 : Nat → Char
  | 0 => '0'
  | 1 => '1'
  | 2 => '2'
  | 3 => '3'
  | 4 => '4'
  | 5 => '5'
  | 6 => '6'
  | 7 => '7'
  | 8 => '8'
  | _ => '9'

/-- Little-endian decimal digits of a natural number, with a fuel
bound (`fuel ≥ n` is always sufficient). -/
def renderNatAux : Nat → Nat → List Char
  | 0, _ => []
  | fuel + 1, n =>
    if n = 0 then []
    else digitChar10 (n % 10) :: renderNatAux fuel (n / 10)

/-- Decimal rendering of a natural number (Python `str` on a
nonnegative integer). -/
def renderNat (n : Nat) : String :=
  if n = 0 then "0" else ⟨(renderNatAux (n + 1) n).reverse⟩

/-- Python `str` on an integer. -/
def strOfInt (n : Int) : String :=
  if n < 0 then "-" ++ renderNat n.natAbs else renderNat n.toNat

/-- Scan for the scrambler EOF marker: the first line equal (stripped,
case-insensitively) to `goto :eof` or `exit /b 0` whose previous line
is `goto %ans%`. -/
def findEofAux : List String → Option String → Nat → Option Nat
  | [], _, _ => none
  | l :: rest, prevLine, i =>
    let sl := pyLower (pyStrip l)
    if (sl = "goto :eof" || sl = "exit /b 0") &&
        (match prevLine with
         | some p => pyLower (pyStrip p) = "goto %ans%"
         | none => false) then
      some i
    else findEofAux rest (some l) (i + 1)

/-- Python-dict insertion: a duplicate key overwrites in place, a new
key is appended. -/
def dinsert (m : List (String × String)) (k v : String) : List (String × String) :=
  if (m.find? (·.1 = k)).isSome then
    m.map (fun p => if p.1 = k then (k, v) else p)
  else m ++ [(k, v)]

/-- The character just before the remaining suffix after a match,
needed to decide `^` at the continuation position of `finditer`. -/
def prevOfMatch (prev : Option Char) (s gap rest : List Char) : Option Char :=
  let consumed := (s.drop gap.length).take (s.length - gap.length - rest.length)
  consumed.getLast? |>.orElse (fun _ => gap.getLast? |>.orElse (fun _ => prev))

/-- The block-parsing loop of `reverse_scrambling`: iterate
`RE_SCRAMBLED_BLOCK` over the text after the EOF marker, recording for
each label the first nonblank line of the block body (stripped);
blocks with no nonblank body line are skipped, duplicate labels
overwrite. -/
def collectBlocksAux : Nat → Option Char → List Char →
    List (String × String) → List (String × String)
  | 0, _, _, m => m
  | fuel + 1, prev, s, m =>
    match findSplit RE_SCRAMBLED_BLOCK prev s with
    | none => m
    | some (gap, caps, rest) =>
      let label := (capGet caps 1).getD ""
      let body := (capGet caps 2).getD ""
      let codeLines := (pySplitlines (pyStrip body)).filter (fun ln => pyStrip ln ≠ "")
      let m' :=
        match codeLines with
        | [] => m
        | ln :: _ => dinsert m label (pyStrip ln)
      collectBlocksAux fuel (prevOfMatch prev s gap rest) rest m'

/-- The jump-rewriting loop of `reverse_scrambling`: iterate
`RE_SCRAMBLE_JUMP` over the main text, emitting for each match the text
before it and, when the evaluated target has a block, the recovered
statement; the final piece is the text after the last match.  The
pieces are later joined with a newline, exactly as the source's
`reconstructed_code` list is. -/
def rebuildJumps (lmap : List (String × String)) :
    Nat → Option Char → List Char → List String
  | 0, _, s => [⟨s⟩]
  | fuel + 1, prev, s =>
    match findSplit RE_SCRAMBLE_JUMP prev s with
    | none => [⟨s⟩]
    | some (gap, caps, rest) =>
      let mathExpr := pyStrip ((capGet caps 1).getD "")
      let pieces := rebuildJumps lmap fuel (prevOfMatch prev s gap rest) rest
      match (safe_eval_batch_math mathExpr).map strOfInt with
      | some t =>
        match alistGet lmap t with
        | some code => (⟨gap⟩ : String) :: code :: pieces
        | none => (⟨gap⟩ : String) :: pieces
      | none => (⟨gap⟩ : String) :: pieces

/-- `reverse_scrambling`. -/
def reverse_scrambling (lines : List String) : List String :=
  match findEofAux lines none 0 with
  | none => lines
  | some i =>
    let main_code_lines := lines.take i
    let scrambled_text := joinNL (lines.drop (i + 1))
    let lmap := collectBlocksAux (scrambled_text.length + 1) none scrambled_text []
    if lmap = [] then main_code_lines
    else
      let main_text := joinNL main_code_lines
      let pieces := rebuildJumps lmap (main_text.length + 1) none main_text
      (splitNL (joinNL pieces)).map (⟨·⟩)

/-! ## The junk filter (`remove_inserted_code` and `RE_JUNK_TO_REMOVE`)

Each entry mirrors one compiled pattern of the source's
`RE_JUNK_TO_REMOVE` list (all compiled with `re.IGNORECASE` and applied
with `pattern.search(line)`); every pattern is anchored with `^\s*`. -/

/-- A junk rule `^\s*<body>`. -/
def junkLine (body : List Regex) : Regex :=
  rcat ([.bol, .star .ws true] ++ body)

/-- The tail `\(.*\) else \(.*\)` shared by the dead-`if` rules,
including the space before the first parenthesis. -/
def elseArms : List Regex :=
  [litCI " (", .star .dot true, litCI ") else (", .star .dot true, .one (.exact ')')]

/-- The `RE_JUNK_TO_REMOVE` catalog, in source order. -/
def RE_JUNK_TO_REMOVE : List Regex :=
  [ -- ::Made by K.Dot using SomalifuscatorV2
   junkLine [litCI "::Made by K.Dot using SomalifuscatorV2"],
   -- chcp 65001 > nul
   junkLine [litCI "chcp 65001 > nul"],
   -- set\s+[a-z]=[a-z]
   junkLine [litCI "set", .rep1 .ws true, .one .alpha, .one (.exact '='), .one .alpha],
   -- >nul 2>&1 && exit >nul 2>&1 || cls
   junkLine [litCI ">nul 2>&1 && exit >nul 2>&1 || cls"],
   -- (goto\s+:eof|exit\s*/b\s*0)\s*$
   junkLine [.grp 1 (.alt (rcat [litCI "goto", .rep1 .ws true, litCI ":eof"])
                          (rcat [litCI "exit", .star .ws true, litCI "/b", .star .ws true,
                                 .one (.exact '0')])),
             .star .ws true, .eol],
   -- if defined redo goto :KDOTUP
   junkLine [litCI "if defined redo goto :KDOTUP"],
   -- set "redo=1"
   junkLine [litCI "set \"redo=1\""],
   -- echo CreateObject("Wscript.Shell").Run "%~f0", 0, True > temp.vbs
   junkLine [litCI "echo CreateObject(\"Wscript.Shell\").Run \"%~f0\", 0, True > temp.vbs"],
   -- cscript //nologo temp.vbs
   junkLine [litCI "cscript //nologo temp.vbs"],
   -- del temp.vbs
   junkLine [litCI "del temp.vbs"],
   -- :KDOTUP
   junkLine [litCI ":KDOTUP"],
   -- echo @echo off >> kdot\w+\.bat
   junkLine [litCI "echo @echo off >> kdot", .rep1 .word true, litCI ".bat"],
   -- call kdot\w+\.bat
   junkLine [litCI "call kdot", .rep1 .word true, litCI ".bat"],
   -- echo %cmdcmdline% | find /i "%~f0">nul || exit /b 1
   junkLine [litCI "echo %cmdcmdline% | find /i \"%~f0\">nul || exit /b 1"],
   -- echo %logonserver% | findstr /i "DADDYSERVER" >nul && exit
   junkLine [litCI "echo %logonserver% | findstr /i \"DADDYSERVER\" >nul && exit"],
   -- ping .* www\.google\.com .* || exit
   junkLine [litCI "ping ", .star .dot true, litCI " www.google.com ", .star .dot true,
             litCI " || exit"],
   -- for /f "tokens=2 delims==" %%a in ('wmic computersystem get manufacturer /value')
   --   do set manufacturer=%%a
   junkLine [litCI "for /f \"tokens=2 delims==\" %%a in (\x27wmic computersystem get manufacturer /value\x27) do set manufacturer=%%a"],
   -- if "%manufacturer%"=="Microsoft Corporation" if "%model%"=="Virtual Machine" exit
   junkLine [litCI "if \"%manufacturer%\"==\"Microsoft Corporation\" if \"%model%\"==\"Virtual Machine\" exit"],
   -- if "%manufacturer%"=="VMware, Inc." exit
   junkLine [litCI "if \"%manufacturer%\"==\"VMware, Inc.\" exit"],
   -- if "%model%"=="VirtualBox" exit
   junkLine [litCI "if \"%model%\"==\"VirtualBox\" exit"],
   -- powershell.*Get-WmiObject Win32_ComputerSystem.*Virtual.*taskkill
   junkLine [litCI "powershell", .star .dot true, litCI "Get-WmiObject Win32_ComputerSystem",
             .star .dot true, litCI "Virtual", .star .dot true, litCI "taskkill"],
   -- powershell.*gcim Win32_PhysicalMemory.*sum /1gb -lt 4.*taskkill
   junkLine [litCI "powershell", .star .dot true, litCI "gcim Win32_PhysicalMemory",
             .star .dot true, litCI "sum /1gb -lt 4", .star .dot true, litCI "taskkill"],
   -- powershell(\.exe)?\s+(-NoLogo|-NoP|-NonI|-W Hidden|-EP Bypass|-EncodedCommand|-Command)\s+
   junkLine [litCI "powershell", .opt (.grp 1 (litCI ".exe")), .rep1 .ws true,
             .grp 2 (.alt (litCI "-NoLogo") (.alt (litCI "-NoP") (.alt (litCI "-NonI")
               (.alt (litCI "-W Hidden") (.alt (litCI "-EP Bypass")
                 (.alt (litCI "-EncodedCommand") (litCI "-Command"))))))),
             .rep1 .ws true],
   -- wmic\s+
   junkLine [litCI "wmic", .rep1 .ws true],
   -- doskey\s+\w+=.*
   junkLine [litCI "doskey", .rep1 .ws true, .rep1 .word true, .one (.exact '='),
             .star .dot true],
   -- mshta\s*$
   junkLine [litCI "mshta", .star .ws true, .eol],
   -- timeout \d+ >nul\s*$
   junkLine [litCI "timeout ", .rep1 .digit true, litCI " >nul", .star .ws true, .eol],
   -- echo %random% >nul\s*$
   junkLine [litCI "echo %random% >nul", .star .ws true, .eol],
   -- rundll32\s*$
   junkLine [litCI "rundll32", .star .ws true, .eol],
   -- cd %cd%\s*$
   junkLine [litCI "cd %cd%", .star .ws true, .eol],
   -- wscript /b\s*$
   junkLine [litCI "wscript /b", .star .ws true, .eol],
   -- doskey /listsize=0\s*$
   junkLine [litCI "doskey /listsize=0", .star .ws true, .eol],
   -- powershell(\.exe)?\s+(-nop)?\s+(-c)?\s+"Write-Host -NoNewLine \$null"\s*$
   junkLine [litCI "powershell", .opt (.grp 1 (litCI ".exe")), .rep1 .ws true,
             .opt (.grp 2 (litCI "-nop")), .rep1 .ws true, .opt (.grp 3 (litCI "-c")),
             .rep1 .ws true, litCI "\"Write-Host -NoNewLine $null\"", .star .ws true, .eol],
   -- for /l %%\w in \(\d+, \d+, \d+\) do \(.*\)
   junkLine [litCI "for /l %%", .one .word, litCI " in (", .rep1 .digit true, litCI ", ",
             .rep1 .digit true, litCI ", ", .rep1 .digit true, litCI ") do (",
             .star .dot true, .one (.exact ')')],
   -- if %random% equ \d+ \(.*\) else \(.*\)
   junkLine ([litCI "if %random% equ ", .rep1 .digit true] ++ elseArms),
   -- if not 0 neq 0 \(.*\) else \(.*\)
   junkLine ([litCI "if not 0 neq 0"] ++ elseArms),
   -- if exist C:\Windows\System32 \(.*\) else \(.*\)
   junkLine ([litCI "if exist C:\\Windows\\System32"] ++ elseArms),
   -- if not %cd% == %cd% \(.*\) else \(.*\)
   junkLine ([litCI "if not %cd% == %cd%"] ++ elseArms),
   -- if 0 equ 0 \(.*\) else \(.*\)
   junkLine ([litCI "if 0 equ 0"] ++ elseArms),
   -- if exist C:\Windows\System3\s*\(.*\) else \(.*\)
   junkLine [litCI "if exist C:\\Windows\\System3", .star .ws true, litCI "(",
             .star .dot true, litCI ") else (", .star .dot true, .one (.exact ')')],
   -- if %cd% == %cd% \(.*\) else \(.*\)
   junkLine ([litCI "if %cd% == %cd%"] ++ elseArms),
   -- if chcp leq 1 \(.*\) else \(.*\)
   junkLine ([litCI "if chcp leq 1"] ++ elseArms),
   -- if %CD% == %__CD__% \(.*\) else \(.*\)
   junkLine ([litCI "if %CD% == %__CD__%"] ++ elseArms),
   -- call \w+\.(exe|dll)\s*(>nul)?\s*(2>nul)?
   junkLine [litCI "call ", .rep1 .word true, .one (.exact '.'),
             .grp 1 (.alt (litCI "exe") (litCI "dll")), .star .ws true,
             .opt (.grp 2 (litCI ">nul")), .star .ws true, .opt (.grp 3 (litCI "2>nul"))],
   -- echo \w+\.(exe|dll)\s*(>nul)?\s*(2>nul)?
   junkLine [litCI "echo ", .rep1 .word true, .one (.exact '.'),
             .grp 1 (.alt (litCI "exe") (litCI "dll")), .star .ws true,
             .opt (.grp 2 (litCI ">nul")), .star .ws true, .opt (.grp 3 (litCI "2>nul"))],
   -- forfiles /p %cd% /m \w+\.(exe|dll) /c 'cmd /c start @file'\s*(>nul)?\s*(2>nul)?
   junkLine [litCI "forfiles /p %cd% /m ", .rep1 .word true, .one (.exact '.'),
             .grp 1 (.alt (litCI "exe") (litCI "dll")),
             litCI " /c \x27cmd /c start @file\x27", .star .ws true,
             .opt (.grp 2 (litCI ">nul")), .star .ws true, .opt (.grp 3 (litCI "2>nul"))],
   -- rem ANTICHANGES MARKER
   junkLine [litCI "rem ANTICHANGES MARKER"],
   -- rem DEADCODE MARKER
   junkLine [litCI "rem DEADCODE MARKER"]]

/-- The junk filter with an explicit rule list. -/
def removeWithRules (rules : List Regex) (lines : List String) : List String :=
  lines.filter (fun line => !(rules.any (fun p => reSearch p line)))

/-- `remove_inserted_code`. -/
def remove_inserted_code (lines : List String) : List String :=
  removeWithRules RE_JUNK_TO_REMOVE lines

/-! ## Final cleanup and output serialization -/

/-- The loop of `final_cleanup`: strip each line; keep nonblank lines;
keep a blank line only when the previously kept line was not blank.
The flag starts `true`, so a leading run of blank lines is dropped
entirely. -/
def finalCleanupAux : List String → Bool → List String
  | [], _ => []
  | l :: rest, lastEmpty =>
    let stripped := pyStrip l
    if stripped ≠ "" then stripped :: finalCleanupAux rest false
    else if ¬ lastEmpty then "" :: finalCleanupAux rest true
    else finalCleanupAux rest lastEmpty

/-- `final_cleanup`: the loop above, then drop one trailing blank. -/
def final_cleanup (lines : List String) : List String :=
  let cleaned := finalCleanupAux lines true
  if cleaned.getLast? = some "" then cleaned.dropLast else cleaned

/-- Serialization in `deobfuscate_file`: join with the line terminator
and append one trailing terminator (the source then writes with
`newline='\r\n'`, which maps each `\n` to the fixed CRLF terminator). -/
def serialize_output (lines : List String) : String :=
  ⟨joinNL lines⟩ ++ "\n"

/-! ## Synthetic scramble inputs

The scramble round-trip claims are about synthetic inputs: a main
section made of three-line dispatch sites and a tail section made of
well-formed relocated blocks (spec section 8).  The builders below
produce exactly those inputs. -/

/-- A synthetic dispatch site: the dispatch expression text and the
numeric return label. -/
structure SiteSpec where
  expr : String
  ret : Nat
  deriving DecidableEq, Repr

/-- The three lines of a dispatch site. -/
def siteLines (s : SiteSpec) : List String :=
  ["set /a ans=" ++ s.expr, "goto %ans%", ":" ++ renderNat s.ret]

/-- The four lines of a well-formed relocated block: label, statement,
dispatcher epilogue. -/
def blockLines (b : Nat × String) : List String :=
  [":" ++ renderNat b.1, b.2, "set /a ans=1", "goto %ans%"]

/-- A synthetic scrambled input: the dispatch sites, the scrambler EOF
marker preceded by its `goto %ans%` epilogue, and the relocated-block
table. -/
def synthInput (sites : List SiteSpec) (blocks : List (Nat × String)) : List String :=
  (sites.map siteLines).flatten ++ ["goto %ans%", "goto :eof"] ++ (blocks.map blockLines).flatten

/-- Well-formedness of a dispatch expression in a synthetic site:
nonempty, no newline, no leading or trailing whitespace (its own
stripping is the identity). -/
def WfExpr (e : String) : Prop :=
  e ≠ "" ∧ pyStrip e = e ∧ '\n' ∉ e.data

/-- Well-formedness of a relocated statement: nonempty, no newline,
stripped. -/
def WfStmt (st : String) : Prop :=
  st ≠ "" ∧ pyStrip st = st ∧ '\n' ∉ st.data

instance (e : String) : Decidable (WfExpr e) := by
  unfold WfExpr
  infer_instance

instance (st : String) : Decidable (WfStmt st) := by
  unfold WfStmt
  infer_instance

/-- The label-to-statement map that the block table of a synthetic
input denotes. -/
def blockMapOf (blocks : List (Nat × String)) : List (String × String) :=
  blocks.map (fun b => (renderNat b.1, b.2))

/-- What the scramble reverser contributes to the output for one
dispatch site under a given label map: the recovered statement when the
evaluated target label has an entry, nothing when evaluation fails or
the label is absent. -/
def siteOut (lmap : List (String × String)) (s : SiteSpec) : List String :=
  match (safe_eval_batch_math s.expr).map strOfInt with
  | some t =>
    match alistGet lmap t with
    | some code => [code]
    | none => []
  | none => []

/-- The reassembled piece list for the main section of a synthetic
input: per site the text gap before its match (empty for the first
site, one newline for the later ones) followed by its contribution,
and finally the text after the last site. -/
def sitePieces (lmap : List (String × String)) : List SiteSpec → Bool → List String
  | [], first => [(if first then "" else "\n") ++ "goto %ans%"]
  | s :: rest, first =>
    ((if first then "" else "\n") :: siteOut lmap s) ++ sitePieces lmap rest false

/-- The output lines of the reconstructed main section: per site a
blank line where its gap text was (two blank lines between consecutive
sites), the site's recovered statement when its label resolves, and at
the end the trailing dispatcher line. -/
def siteLinesOut (lmap : List (String × String)) : List SiteSpec → Bool → List String
  | [], true => ["goto %ans%"]
  | [], false => ["", "goto %ans%"]
  | s :: ss, true => "" :: (siteOut lmap s ++ siteLinesOut lmap ss false)
  | s :: ss, false => "" :: "" :: (siteOut lmap s ++ siteLinesOut lmap ss false)

/-- The character text of one relocated block (its four lines joined
with newlines). -/
def blockText (b : Nat × String) : List Char :=
  ':' :: ((renderNat b.1).data ++ '\n' ::
    (b.2.data ++ '\n' :: 's' :: 'e' :: 't' :: ' ' :: '/' :: 'a' :: ' ' :: 'a' :: 'n' :: 's' :: '=' :: '1' :: '\n' ::
      'g' :: 'o' :: 't' :: 'o' :: ' ' :: '%' :: 'a' :: 'n' :: 's' :: '%' ::[]))

/-- The joined text of the relocated-block table (the text after the
scrambler EOF marker). -/
def TB (blocks : List (Nat × String)) : List Char :=
  joinNL ((blocks.map blockLines).flatten)

/-- The block text with the separating newline of the preceding
`finditer` step. -/
def leadNL (blocks : List (Nat × String)) : List Char :=
  if blocks = [] then [] else '\n' :: TB blocks

/-- The character text of one dispatch site (its three lines joined
with newlines). -/
def siteText (s : SiteSpec) : List Char :=
  's' :: 'e' :: 't' :: ' ' :: '/' :: 'a' :: ' ' :: 'a' :: 'n' :: 's' :: '=' ::
    (s.expr.data ++ '\n' :: 'g' :: 'o' :: 't' :: 'o' :: ' ' :: '%' :: 'a' :: 'n' :: 's' :: '%' :: '\n' :: ':' ::
      (renderNat s.ret).data)

/-- The joined text of the main section: the dispatch sites and the
trailing dispatcher line. -/
def MT (sites : List SiteSpec) : List Char :=
  joinNL ((sites.map siteLines).flatten ++ ["goto %ans%"])

/-! ## Claim-side specification functions

The following definitions are written from the words of the spec and
claims (not from the source); they exist to be compared against the
source-derived functions above. -/

/-- Modelled from the claim text of the Finalizer (C10): trim each
line, collapse every run of blank lines (a leading run included) to
exactly one blank line, drop a trailing blank line. -/
def collapseRunsAux : List String → Bool → List String
  | [], _ => []
  | l :: rest, prevBlank =>
    if l = "" then
      if prevBlank then collapseRunsAux rest true
      else "" :: collapseRunsAux rest true
    else l :: collapseRunsAux rest false

/-- Drop one trailing blank line. -/
def dropTrailingBlank (l : List String) : List String :=
  if l.getLast? = some "" then l.dropLast else l

/-- The Finalizer as claim C10 describes it. -/
def final_cleanup_claimed (lines : List String) : List String :=
  dropTrailingBlank (collapseRunsAux (lines.map pyStrip) false)

/-- The Finalizer as the code actually behaves (the amended claim):
identical except that a leading run of blank lines is dropped
entirely, not collapsed to one blank line. -/
def final_cleanup_amended (lines : List String) : List String :=
  dropTrailingBlank (collapseRunsAux (lines.map pyStrip) true)

/-- The anywhere-substring reading of junk rule
`^\s*chcp 65001 > nul` that claim C8 asserts: the rule body with its
start anchor dropped. -/
def chcpRuleUnanchored : Regex :=
  rcat [.star .ws true, litCI "chcp 65001 > nul"]

/-- The previous-character value after consuming `l` (the last
character of `l`, or the old value when `l` is empty). -/
def lastOr (prev : Option Char) (l : List Char) : Option Char :=
  match l.getLast? with
  | some c => some c
  | none => prev

/-- The line text after the first (cipher-token) substitution loop of
`deobfuscate_line_characters`. -/
def resolverPass1Result (line : String) (settings : Settings) : String :=
  if pass1Gate settings line then (iterFix (pass1Sub settings) 15 line).1 else line

/-! # Theorems -/

/-- Claim C1 (code_bug).  On the input lines `set KDOT=abc`,
`set a=x` and `echo %a%%KDOT:~0,1%`, the claim expects the Character
Resolver to produce `echo xa`.  The code does neither replacement: the
settings extractor stores the reverse map keyed by the *value* of the
assignment (`x ↦ a`), so `%a%` is not in the map and is kept; and the
`%KDOT:~0,1%` token is captured by the env-slice alternative of the
combined pattern (its `\w+` matches `KDOT` first), whose handler finds
no `KDOT` entry in the environment table and returns the token
unchanged, so the dedicated KDOT branch is unreachable.  The line
passes through the resolver byte-identical. -/
theorem c1_resolver_leaves_tokens :
    extract_initial_settings ["set KDOT=abc", "set a=x", "echo %a%%KDOT:~0,1%"] =
      { kdot_value := some "abc", reverse_caesar_map := [('x', 'a')] } ∧
    deobfuscate_line_characters "echo %a%%KDOT:~0,1%"
      (extract_initial_settings ["set KDOT=abc", "set a=x", "echo %a%%KDOT:~0,1%"]) =
      "echo %a%%KDOT:~0,1%" ∧
    "echo %a%%KDOT:~0,1%" ≠ "echo xa" := by
  refine ⟨by decide, by decide, by decide⟩

/-- Claim C5 (code_bug).  The evaluator maps Batch `/` to Python `//`,
which is floor division: `-7/2` evaluates to `-4`, while truncation
toward zero (Batch `set /a` semantics, and what the claim states)
gives `-3`.  And a Batch octal literal `017` is a syntax error for
Python 3's `eval`, so it yields "no result" instead of 15. -/
theorem c5_division_floors_and_octal_rejected :
    safe_eval_batch_math "-7/2" = some (-4) ∧
    Int.tdiv (-7) 2 = -3 ∧
    safe_eval_batch_math "017" = none ∧
    safe_eval_batch_math "0o17" = some 15 := by
  refine ⟨by decide, by decide, by decide, by decide⟩

/-- A line on which every substitution pass is the identity passes
through the Character Resolver unchanged, for every settings value. -/
theorem resolver_fixed_of_passes (line : String)
    (hp1 : ∀ settings : Settings, pass1Sub settings line = line)
    (hrest : iterFix pass2Sub 5 line = (line, 1, true) ∧
      normalize_case_words
        (pyReplace (pyReplace line "%escape%" "") "%STOP_OBF_HERE%" "") = line) :
    ∀ settings : Settings, deobfuscate_line_characters line settings = line := by
  intro settings
  show (deobfuscate_line_characters_stats line settings).1 = line
  unfold deobfuscate_line_characters_stats
  have h15 : iterFix (pass1Sub settings) 15 line = (line, 1, true) := by
    show iterFix (pass1Sub settings) (14 + 1) line = (line, 1, true)
    simp [iterFix, hp1 settings]
  cases hg : pass1Gate settings line
  · rw [if_neg (fun h => Bool.noConfusion h)]
    simp only [hrest.1]
    exact hrest.2
  · rw [if_pos rfl]
    rw [h15]
    simp only [hrest.1]
    exact hrest.2

/-- Claim C6 (corrected).  An environment-slice token with an unknown
variable name is preserved, and a known variable with an out-of-bounds
index is deleted (the counterexample); an auxiliary `%KDOT:~N,1%`
token is always preserved at line level, whatever the index or the
auxiliary value: the combined pattern's environment alternative
captures it first (its name pattern matches `KDOT`), and the
environment handler returns the token unchanged because `KDOT` names
no known environment variable, so the auxiliary helper — which would
delete an out-of-bounds auxiliary slice — is unreachable from the
combined pass.  The conjuncts: the two environment-helper universals;
`KDOT` is not a known environment variable; every combined match whose
environment alternative captured an unknown-name token is replaced by
that token's own text, for every settings value; what the unreachable
auxiliary helper would do on a missing value and on an out-of-bounds
index; and line-level preservation of auxiliary tokens with a valid,
an out-of-bounds and a negative index, and of an unknown-variable
environment token, for every settings value. -/
theorem c6_slice_amended :
    (∀ whole name idxStr : String,
      alistGet ENV_VAR_VALUES (pyUpper name) = none →
      get_char_from_env_slice whole name idxStr = whole) ∧
    (∀ (whole name idxStr value : String) (idx : Int),
      pyToInt? idxStr = some idx →
      alistGet ENV_VAR_VALUES (pyUpper name) = some value →
      sliceIndex value idx = none →
      get_char_from_env_slice whole name idxStr = "") ∧
    alistGet ENV_VAR_VALUES "KDOT" = none ∧
    (∀ (settings : Settings) (caps ecaps : Caps) (whole ewhole : String),
      capTruthy caps 2 = true →
      reMatch RE_ENV_SLICE ((capGet caps 1).getD "") = some (ecaps, ewhole) →
      alistGet ENV_VAR_VALUES (pyUpper ((capGet ecaps 1).getD "")) = none →
      replace_callback settings caps whole = ewhole) ∧
    (∀ whole idxStr : String, get_char_from_kdot whole idxStr none = whole) ∧
    (∀ (whole idxStr kv : String) (idx : Int),
      kv ≠ "" → pyToInt? idxStr = some idx →
      ¬(0 ≤ idx ∧ idx < (kv.data.length : Int)) →
      get_char_from_kdot whole idxStr (some kv) = "") ∧
    (∀ settings : Settings,
      deobfuscate_line_characters "echo %KDOT:~1,1%" settings = "echo %KDOT:~1,1%") ∧
    (∀ settings : Settings,
      deobfuscate_line_characters "echo %KDOT:~99,1%" settings = "echo %KDOT:~99,1%") ∧
    (∀ settings : Settings,
      deobfuscate_line_characters "echo %KDOT:~-1,1%" settings = "echo %KDOT:~-1,1%") ∧
    (∀ settings : Settings,
      deobfuscate_line_characters "echo %FOO:~0,1%" settings = "echo %FOO:~0,1%") := by
  refine ⟨?_, ?_, by decide, ?_, ?_, ?_, ?_, ?_, ?_, ?_⟩
  · intro whole name idxStr h
    cases hti : pyToInt? idxStr with
    | none => simp [get_char_from_env_slice, hti]
    | some idx => simp [get_char_from_env_slice, hti, h]
  · intro whole name idxStr value idx hti hv hs
    simp [get_char_from_env_slice, hti, hv, hs]
  · intro settings caps ecaps whole ewhole ht hre hun
    simp only [replace_callback, ht, if_true]
    rw [hre]
    cases hti : pyToInt? ((capGet ecaps 2).getD "") with
    | none => simp [get_char_from_env_slice, hti]
    | some idx => simp [get_char_from_env_slice, hti, hun]
  · intro whole idxStr
    simp [get_char_from_kdot]
  · intro whole idxStr kv idx hkv hti hidx
    simp only [get_char_from_kdot, hti]
    rw [if_neg hkv, if_neg hidx]
  · exact resolver_fixed_of_passes "echo %KDOT:~1,1%" (fun _ => rfl) (by decide)
  · exact resolver_fixed_of_passes "echo %KDOT:~99,1%" (fun _ => rfl) (by decide)
  · exact resolver_fixed_of_passes "echo %KDOT:~-1,1%" (fun _ => rfl) (by decide)
  · exact resolver_fixed_of_passes "echo %FOO:~0,1%" (fun _ => rfl) (by decide)

/-- Witness for `c6_slice_amended` at concrete inputs: the unknown
variable `FOO` keeps its token, the known variable `OS` (value
`Windows_NT`, length 10) with index 99 yields the empty string, a
combined match that captured `%KDOT:~0,1%` through the environment
alternative is replaced by its own text (the token survives) even
though the auxiliary value `abc` is present and the index 0 is valid
for it, the unreachable auxiliary helper would keep the token on a
missing value and delete it on an out-of-bounds index, and a line
holding an auxiliary token with a valid index passes through the
resolver unchanged. -/
theorem c6_slice_amended_witness :
    get_char_from_env_slice "%FOO:~0,1%" "FOO" "0" = "%FOO:~0,1%" ∧
    get_char_from_env_slice "%OS:~99,1%" "OS" "99" = "" ∧
    replace_callback { kdot_value := some "abc", reverse_caesar_map := [] }
      [(1, "%KDOT:~0,1%"), (2, "KDOT"), (3, "0")] "%KDOT:~0,1%" = "%KDOT:~0,1%" ∧
    get_char_from_kdot "%KDOT:~7,1%" "7" none = "%KDOT:~7,1%" ∧
    get_char_from_kdot "%KDOT:~7,1%" "7" (some "abc") = "" ∧
    deobfuscate_line_characters "echo %KDOT:~1,1%"
      { kdot_value := some "abc", reverse_caesar_map := [] } = "echo %KDOT:~1,1%" :=
  ⟨c6_slice_amended.1 _ _ _ (by decide),
   c6_slice_amended.2.1 "%OS:~99,1%" "OS" "99" "Windows_NT" 99 (by decide) (by decide)
     (by decide),
   c6_slice_amended.2.2.2.1 { kdot_value := some "abc", reverse_caesar_map := [] }
     [(1, "%KDOT:~0,1%"), (2, "KDOT"), (3, "0")] [(2, "0"), (1, "KDOT")]
     "%KDOT:~0,1%" "%KDOT:~0,1%" (by decide) (by decide) (by decide),
   c6_slice_amended.2.2.2.2.1 _ _,
   c6_slice_amended.2.2.2.2.2.1 "%KDOT:~7,1%" "7" "abc" 7 (by decide) (by decide)
     (by decide),
   c6_slice_amended.2.2.2.2.2.2.1 { kdot_value := some "abc", reverse_caesar_map := [] }⟩

/-- Claim C6's counterexample: a line containing the known-variable
out-of-bounds slice `%OS:~99,1%` does not keep the token — the
Character Resolver deletes it (the token `%OS:~99,1%` is replaced by
the empty string), so the output differs from the input. -/
theorem c6_oob_token_not_preserved :
    deobfuscate_line_characters "a%OS:~99,1%b"
      { kdot_value := none, reverse_caesar_map := [] } = "ab" ∧
    strContains "a%OS:~99,1%b" "%OS:~99,1%" = true ∧
    "ab" ≠ "a%OS:~99,1%b" := by
  refine ⟨by decide, by decide, by decide⟩

/-- Claim C8's counterexample: the junk rule for `chcp 65001 > nul`
matches the line `echo x & chcp 65001 > nul` when read as an
anywhere-substring rule (anchor dropped), yet the filter keeps the
line — every rule in the catalog is anchored at the start of the line,
so matching is prefix matching (after optional leading whitespace),
not substring-anywhere matching. -/
theorem c8_not_substring_anywhere :
    reSearch chcpRuleUnanchored "echo x & chcp 65001 > nul" = true ∧
    remove_inserted_code ["echo x & chcp 65001 > nul"] =
      ["echo x & chcp 65001 > nul"] := by
  refine ⟨by decide, by decide⟩

/-- Claim C8 (corrected).  The filter drops a line exactly when some
catalog rule matches it (each rule anchored as written, `^\s*...`);
each occurrence of a line is dropped at most once however many rules
match (the count of a matching line in the output is 0, of a
non-matching line unchanged); and the order of the rules in the
catalog does not affect which lines are dropped. -/
theorem c8_filter_amended :
    (∀ (lines : List String) (l : String),
      (remove_inserted_code lines).count l =
        if RE_JUNK_TO_REMOVE.any (fun p => reSearch p l) then 0 else lines.count l) ∧
    (∀ rules : List Regex, rules.Perm RE_JUNK_TO_REMOVE →
      ∀ lines : List String, removeWithRules rules lines = remove_inserted_code lines) := by
  constructor
  · intro lines l
    simp only [remove_inserted_code, removeWithRules]
    by_cases h : RE_JUNK_TO_REMOVE.any (fun p => reSearch p l) = true
    · rw [if_pos h, List.count_eq_zero]
      intro hmem
      rw [List.mem_filter] at hmem
      simp [h] at hmem
    · rw [if_neg h, List.count_filter]
      simp [h]
  · intro rules hperm lines
    have hany : ∀ line : String,
        rules.any (fun p => reSearch p line) =
          RE_JUNK_TO_REMOVE.any (fun p => reSearch p line) := by
      intro line
      by_cases h : RE_JUNK_TO_REMOVE.any (fun p => reSearch p line) = true
      · rw [h]
        rw [List.any_eq_true] at h ⊢
        obtain ⟨p, hp, hm⟩ := h
        exact ⟨p, hperm.mem_iff.mpr hp, hm⟩
      · rw [Bool.not_eq_true] at h
        rw [h]
        rw [Bool.eq_false_iff]
        intro hc
        rw [List.any_eq_true] at hc
        obtain ⟨p, hp, hm⟩ := hc
        rw [Bool.eq_false_iff] at h
        exact h (List.any_eq_true.mpr ⟨p, hperm.mem_iff.mp hp, hm⟩)
    simp only [remove_inserted_code, removeWithRules]
    apply List.filter_congr
    intro line _
    rw [hany line]

/-- Witness for `c8_filter_amended`: a rotation of the rule catalog
filters the concrete lines identically, and the filter's concrete
behaviour on them. -/
theorem c8_filter_amended_witness :
    removeWithRules (RE_JUNK_TO_REMOVE.rotate 1) ["doskey foo=bar", "echo hello"] =
      remove_inserted_code ["doskey foo=bar", "echo hello"] ∧
    remove_inserted_code ["doskey foo=bar", "echo hello"] = ["echo hello"] :=
  ⟨c8_filter_amended.2 (RE_JUNK_TO_REMOVE.rotate 1) (List.rotate_perm _ 1) _, by decide⟩

/-! ## Stripping and cleanup lemmas (claim C10) -/

/-- The head of `dropWhile p` does not satisfy `p`. -/
theorem dropWhile_head?_false {α : Type} (p : α → Bool) :
    ∀ (l : List α) (c : α), (l.dropWhile p).head? = some c → p c = false := by
  intro l
  induction l with
  | nil => intro c h; simp [List.dropWhile] at h
  | cons a rest ih =>
    intro c h
    rw [List.dropWhile_cons] at h
    by_cases hp : p a = true
    · exact ih c (by simpa [hp] using h)
    · rw [if_neg (by simp [hp])] at h
      simp only [List.head?_cons, Option.some.injEq] at h
      subst h
      simpa using hp

/-- When `dropWhile` leaves something, the last element is unchanged. -/
theorem dropWhile_getLast? {α : Type} (p : α → Bool) :
    ∀ l : List α, l.dropWhile p ≠ [] → (l.dropWhile p).getLast? = l.getLast? := by
  intro l
  induction l with
  | nil => intro h; simp [List.dropWhile] at h
  | cons a rest ih =>
    intro h
    rw [List.dropWhile_cons] at h ⊢
    by_cases hp : p a = true
    · rw [if_pos (by simp [hp])] at h ⊢
      rw [ih h]
      cases rest with
      | nil => simp [List.dropWhile] at h
      | cons b t => simp [List.getLast?_cons_cons]
    · rw [if_neg (by simp [hp])]

/-- A list whose head does not satisfy `p` is unchanged by
`dropWhile p`. -/
theorem dropWhile_eq_self_of_head {α : Type} (p : α → Bool) (l : List α)
    (h : ∀ c, l.head? = some c → p c = false) : l.dropWhile p = l := by
  cases l with
  | nil => rfl
  | cons a rest =>
    rw [List.dropWhile_cons, if_neg]
    simp [h a rfl]

/-- The head of a stripped string is not whitespace. -/
theorem pyStripL_head (l : List Char) (c : Char) :
    (pyStripL l).head? = some c → pyIsSpace c = false := by
  intro h
  unfold pyStripL at h
  rw [List.head?_reverse] at h
  by_cases hb : (((l.dropWhile pyIsSpace).reverse).dropWhile pyIsSpace) = []
  · rw [hb] at h; simp at h
  · rw [dropWhile_getLast? pyIsSpace _ hb, List.getLast?_reverse] at h
    exact dropWhile_head?_false pyIsSpace l c h

/-- The last character of a stripped string is not whitespace. -/
theorem pyStripL_last (l : List Char) (c : Char) :
    (pyStripL l).getLast? = some c → pyIsSpace c = false := by
  intro h
  unfold pyStripL at h
  rw [List.getLast?_reverse] at h
  exact dropWhile_head?_false pyIsSpace _ c h

/-- Stripping is idempotent. -/
theorem pyStripL_idem (l : List Char) : pyStripL (pyStripL l) = pyStripL l := by
  have h1 : (pyStripL l).dropWhile pyIsSpace = pyStripL l :=
    dropWhile_eq_self_of_head pyIsSpace _ (pyStripL_head l)
  have h2 : ((pyStripL l).reverse).dropWhile pyIsSpace = (pyStripL l).reverse := by
    apply dropWhile_eq_self_of_head
    intro c hc
    rw [List.head?_reverse] at hc
    exact pyStripL_last l c hc
  show ((((pyStripL l).dropWhile pyIsSpace).reverse).dropWhile pyIsSpace).reverse = pyStripL l
  rw [h1, h2, List.reverse_reverse]

/-- Stripping is idempotent on `String`. -/
theorem pyStrip_idem (s : String) : pyStrip (pyStrip s) = pyStrip s := by
  simp only [pyStrip]
  exact congrArg String.mk (pyStripL_idem s.data)

/-- Stripping keeps only characters of the original string. -/
theorem pyStripL_subset (l : List Char) : ∀ c ∈ pyStripL l, c ∈ l := by
  intro c hc
  unfold pyStripL at hc
  rw [List.mem_reverse] at hc
  have hc2 := (List.dropWhile_sublist (p := pyIsSpace)
    (l := (l.dropWhile pyIsSpace).reverse)).subset hc
  rw [List.mem_reverse] at hc2
  exact (List.dropWhile_sublist (p := pyIsSpace) (l := l)).subset hc2

/-- `final_cleanup`'s accumulation loop equals the collapse loop on the
stripped lines. -/
theorem finalCleanupAux_eq_collapse :
    ∀ (ls : List String) (b : Bool),
      finalCleanupAux ls b = collapseRunsAux (ls.map pyStrip) b := by
  intro ls
  induction ls with
  | nil => intro b; rfl
  | cons l rest ih =>
    intro b
    simp only [finalCleanupAux, collapseRunsAux, List.map_cons]
    by_cases h : pyStrip l = ""
    · rw [if_neg (by simp [h]), if_pos h]
      cases b with
      | true => simp [ih]
      | false => simp [ih]
    · rw [if_pos h, if_neg h, ih]

/-- The claim-C10 amendment at the function level: the code's
`final_cleanup` is the claimed Finalizer except that the collapse loop
starts in the "previous line was blank" state, dropping a leading
blank run entirely. -/
theorem final_cleanup_eq_amended (lines : List String) :
    final_cleanup lines = final_cleanup_amended lines := by
  simp only [final_cleanup, final_cleanup_amended, dropTrailingBlank,
    finalCleanupAux_eq_collapse]

/-- The collapse loop emits no two consecutive blanks, and started in
the blank state it emits no leading blank. -/
theorem collapse_chain (ls : List String) :
    ∀ b : Bool,
      List.Chain' (fun a b => ¬(a = "" ∧ b = "")) (collapseRunsAux ls b) ∧
      (b = true → (collapseRunsAux ls b).head? ≠ some "") := by
  induction ls with
  | nil =>
    intro b
    exact ⟨List.chain'_nil, by intro _; simp [collapseRunsAux]⟩
  | cons l rest ih =>
    intro b
    by_cases hl : l = ""
    · subst hl
      cases b with
      | true =>
        simpa only [collapseRunsAux, if_pos rfl, if_pos] using ih true
      | false =>
        have h2 := ih true
        simp only [collapseRunsAux, if_pos, Bool.false_eq_true, if_neg, if_true,
          not_false_eq_true]
        constructor
        · rw [List.chain'_cons']
          refine ⟨?_, h2.1⟩
          intro y hy
          intro hcon
          exact h2.2 rfl (by rw [hy, hcon.2])
        · intro hb; cases hb
    · have h2 := ih false
      simp only [collapseRunsAux, if_neg hl]
      constructor
      · rw [List.chain'_cons']
        refine ⟨?_, h2.1⟩
        intro y _
        intro hcon
        exact hl hcon.1
      · intro _
        simp [hl]

/-- The elements emitted by the collapse loop are the (blank or
nonblank) input elements or the blank line. -/
theorem collapse_mem (ls : List String) :
    ∀ (b : Bool) (l : String), l ∈ collapseRunsAux ls b → l = "" ∨ l ∈ ls := by
  induction ls with
  | nil => intro b l h; simp [collapseRunsAux] at h
  | cons x rest ih =>
    intro b l h
    by_cases hx : x = ""
    · subst hx
      simp only [collapseRunsAux, if_pos rfl] at h
      cases b with
      | true =>
        rcases ih true l (by simpa using h) with h' | h'
        · exact Or.inl h'
        · exact Or.inr (List.mem_cons_of_mem _ h')
      | false =>
        simp only [Bool.false_eq_true, if_neg] at h
        rcases List.mem_cons.mp h with h' | h'
        · exact Or.inl h'
        · rcases ih true l h' with h'' | h''
          · exact Or.inl h''
          · exact Or.inr (List.mem_cons_of_mem _ h'')
    · simp only [collapseRunsAux, if_neg hx] at h
      rcases List.mem_cons.mp h with h' | h'
      · exact Or.inr (by rw [h']; exact List.mem_cons_self _ _)
      · rcases ih false l h' with h'' | h''
        · exact Or.inl h''
        · exact Or.inr (List.mem_cons_of_mem _ h'')

/-- An element picked out by `getLast?` is in the list. -/
theorem getLast?_mem_self {α : Type} :
    ∀ (l : List α) (c : α), l.getLast? = some c → c ∈ l := by
  intro l
  induction l with
  | nil => intro c h; simp at h
  | cons a rest ih =>
    intro c h
    cases rest with
    | nil =>
      simp only [List.getLast?_singleton, Option.some.injEq] at h
      simp [h]
    | cons b t =>
      rw [List.getLast?_cons_cons] at h
      exact List.mem_cons_of_mem _ (ih c h)

/-- The head of `dropLast` is the head of the list (when present). -/
theorem head?_dropLast {α : Type} (l : List α) (c : α)
    (h : l.dropLast.head? = some c) : l.head? = some c := by
  match l with
  | [] => simp at h
  | [x] => simp [List.dropLast] at h
  | a :: b :: t => simpa using h

/-- Dropping a trailing blank from a list with no two consecutive
blanks leaves no trailing blank. -/
theorem dropTrailingBlank_getLast :
    ∀ l : List String, List.Chain' (fun a b => ¬(a = "" ∧ b = "")) l →
      (dropTrailingBlank l).getLast? ≠ some "" := by
  intro l
  induction l with
  | nil => intro _ h; simp [dropTrailingBlank] at h
  | cons a rest ih =>
    intro hch
    cases rest with
    | nil =>
      by_cases ha : a = ""
      · subst ha; simp [dropTrailingBlank]
      · simp [dropTrailingBlank, ha]
    | cons b t =>
      have hch' : List.Chain' (fun a b => ¬(a = "" ∧ b = "")) (b :: t) :=
        (List.chain'_cons'.mp hch).2
      have hab : ¬(a = "" ∧ b = "") := by
        have := (List.chain'_cons'.mp hch).1
        exact this b rfl
      by_cases hl : (a :: b :: t).getLast? = some ""
      · have hbt : (b :: t).getLast? = some "" := by
          simpa [List.getLast?_cons_cons] using hl
        have ihres := ih hch'
        simp only [dropTrailingBlank, if_pos hbt] at ihres
        simp only [dropTrailingBlank, if_pos hl]
        intro hcon
        rcases ht : (b :: t).dropLast with _ | ⟨y, ys⟩
        · -- b :: t = [b] and b = ""; then a ≠ "" and dropLast (a::b::t) = [a]
          have hb : t = [] := by
            cases t with
            | nil => rfl
            | cons u us => simp [List.dropLast] at ht
          subst hb
          have hbval : b = "" := by simpa using hbt
          have ha : a ≠ "" := fun hc => hab ⟨hc, hbval⟩
          simp only [List.dropLast_cons₂, List.dropLast_single] at hcon
          exact ha (by simpa using hcon)
        · have : (a :: b :: t).dropLast = a :: (b :: t).dropLast := by
            simp [List.dropLast_cons₂]
          rw [this, ht] at hcon
          rw [ht] at ihres
          have : (y :: ys).getLast? = some "" := by
            simpa [List.getLast?_cons_cons] using hcon
          exact ihres this
      · simp only [dropTrailingBlank, if_neg hl]
        exact hl

/-- The last character of the newline-join is the last character of
the last line, when that line is nonblank and no line contains a
newline. -/
theorem joinNL_getLast (out : List String) (hnl : ∀ x ∈ out, '\n' ∉ x.data)
    (hlast : out.getLast? ≠ some "") :
    ∀ c, (joinNL out).getLast? = some c → c ≠ '\n' := by
  induction out with
  | nil => intro c h; simp [joinNL] at h
  | cons x rest ih =>
    intro c h
    cases rest with
    | nil =>
      have hx : x ≠ "" := by
        intro hc; subst hc; exact hlast (by simp)
      simp only [joinNL] at h
      have : c ∈ x.data := getLast?_mem_self x.data c h
      intro hc; subst hc
      exact hnl x (by simp) this
    | cons y t =>
      have hlast' : (y :: t).getLast? ≠ some "" := by
        simpa [List.getLast?_cons_cons] using hlast
      have hnl' : ∀ z ∈ y :: t, '\n' ∉ z.data := fun z hz =>
        hnl z (List.mem_cons_of_mem _ hz)
      have hjoin_ne : joinNL (y :: t) ≠ [] := by
        intro hc
        cases t with
        | nil =>
          simp only [joinNL] at hc
          have : y = "" := by
            cases y with
            | mk d => cases d with
              | nil => rfl
              | cons u us => simp at hc
          exact hlast' (by simp [this])
        | cons z zs =>
          simp only [joinNL] at hc
          simp at hc
      simp only [joinNL] at h
      rw [List.getLast?_append_cons] at h
      rw [List.getLast?_cons] at h
      rcases hg : (joinNL (y :: t)).getLast? with _ | d
      · exact absurd hg (by simpa using hjoin_ne)
      · rw [hg] at h
        simp only [Option.getD_some, Option.some.injEq] at h
        exact h ▸ ih hnl' hlast' d hg

/-- Claim C10's counterexample: a leading blank line is dropped
entirely by the code, while the claim collapses a leading run to
exactly one blank line. -/
theorem c10_leading_blank_dropped :
    final_cleanup ["", "x"] = ["x"] ∧
    final_cleanup_claimed ["", "x"] = ["", "x"] ∧
    (["x"] : List String) ≠ ["", "x"] := by
  refine ⟨by decide, by decide, by decide⟩

/-- Claim C10 (corrected).  The Finalizer trims every output line,
leaves no two consecutive blank lines, drops a leading blank run
entirely (rather than collapsing it to one blank line, the one point
on which the claim fails), leaves no leading or trailing blank line,
and the serialized output ends with exactly one line terminator. -/
theorem c10_finalizer_amended (lines : List String)
    (hnl : ∀ l ∈ lines, '\n' ∉ l.data) :
    final_cleanup lines = final_cleanup_amended lines ∧
    (∀ l ∈ final_cleanup lines, pyStrip l = l) ∧
    List.Chain' (fun a b => ¬(a = "" ∧ b = "")) (final_cleanup lines) ∧
    (final_cleanup lines).head? ≠ some "" ∧
    (final_cleanup lines).getLast? ≠ some "" ∧
    (serialize_output (final_cleanup lines)).data =
      joinNL (final_cleanup lines) ++ ['\n'] ∧
    (∀ c, (joinNL (final_cleanup lines)).getLast? = some c → c ≠ '\n') := by
  have hco := collapse_chain (lines.map pyStrip) true
  have heq : final_cleanup lines =
      dropTrailingBlank (collapseRunsAux (lines.map pyStrip) true) := by
    simp only [final_cleanup, dropTrailingBlank, finalCleanupAux_eq_collapse]
  have hsub : ∀ l ∈ final_cleanup lines,
      l ∈ collapseRunsAux (lines.map pyStrip) true := by
    intro l hm
    rw [heq] at hm
    unfold dropTrailingBlank at hm
    by_cases hc : (collapseRunsAux (lines.map pyStrip) true).getLast? = some ""
    · rw [if_pos hc] at hm
      exact ( List.dropLast_prefix _).subset hm
    · rwa [if_neg hc] at hm
  have hstrip : ∀ l ∈ final_cleanup lines, pyStrip l = l := by
    intro l hm
    rcases collapse_mem (lines.map pyStrip) true l (hsub l hm) with h | h
    · rw [h]; rfl
    · rcases List.mem_map.mp h with ⟨x, _, hx⟩
      rw [← hx]; exact pyStrip_idem x
  have hchain : List.Chain' (fun a b => ¬(a = "" ∧ b = "")) (final_cleanup lines) := by
    rw [heq]
    unfold dropTrailingBlank
    by_cases hc : (collapseRunsAux (lines.map pyStrip) true).getLast? = some ""
    · rw [if_pos hc]
      exact List.Chain'.prefix hco.1 ( List.dropLast_prefix _)
    · rw [if_neg hc]
      exact hco.1
  have hhead : (final_cleanup lines).head? ≠ some "" := by
    rw [heq]
    unfold dropTrailingBlank
    by_cases hc : (collapseRunsAux (lines.map pyStrip) true).getLast? = some ""
    · rw [if_pos hc]
      intro h
      exact hco.2 rfl (head?_dropLast _ _ h)
    · rw [if_neg hc]
      exact hco.2 rfl
  have hlast : (final_cleanup lines).getLast? ≠ some "" := by
    rw [heq]
    exact dropTrailingBlank_getLast _ hco.1
  have hnl' : ∀ l ∈ final_cleanup lines, '\n' ∉ l.data := by
    intro l hm hc
    rcases collapse_mem (lines.map pyStrip) true l (hsub l hm) with h | h
    · subst h; simp at hc
    · rcases List.mem_map.mp h with ⟨x, hx, hxe⟩
      subst hxe
      exact hnl x hx (pyStripL_subset x.data '\n' hc)
  refine ⟨final_cleanup_eq_amended lines, hstrip, hchain, hhead, hlast, ?_, ?_⟩
  · show (⟨joinNL (final_cleanup lines)⟩ ++ ("\n" : String)).data = _
    simp [String.data_append]
  · exact joinNL_getLast _ hnl' hlast

/-- Witness for `c10_finalizer_amended` at a concrete input. -/
theorem c10_finalizer_amended_witness :
    final_cleanup ["  a  ", "", "", "b", ""] =
      final_cleanup_amended ["  a  ", "", "", "b", ""] ∧
    final_cleanup ["  a  ", "", "", "b", ""] = ["a", "", "b"] :=
  ⟨(c10_finalizer_amended ["  a  ", "", "", "b", ""] (by decide)).1, by decide⟩

/-! ## Bounded-iteration lemmas (claim C9) -/

/-- The substitution loop runs at most `fuel` passes. -/
theorem iterFix_passes_le (f : String → String) :
    ∀ (fuel : Nat) (s : String), (iterFix f fuel s).2.1 ≤ fuel := by
  intro fuel
  induction fuel with
  | zero => intro s; simp [iterFix]
  | succ n ih =>
    intro s
    simp only [iterFix]
    by_cases h : f s = s
    · simp [h]
    · rw [if_neg h]
      cases n with
      | zero => simp
      | succ m =>
        have hle := ih (f s)
        rcases hfx : iterFix f (m + 1) (f s) with ⟨r, k, c⟩
        rw [hfx] at hle
        simp only [hfx]
        simpa using Nat.succ_le_succ hle

/-- When the loop exits without converging, it used all its passes. -/
theorem iterFix_notconv_passes (f : String → String) :
    ∀ (fuel : Nat) (s : String),
      (iterFix f fuel s).2.2 = false → (iterFix f fuel s).2.1 = fuel := by
  intro fuel
  induction fuel with
  | zero => intro s h; simp [iterFix] at h
  | succ n ih =>
    intro s
    simp only [iterFix]
    by_cases h : f s = s
    · simp [h]
    · rw [if_neg h]
      cases n with
      | zero => simp
      | succ m =>
        intro hc
        have := ih (f s)
        rcases hfx : iterFix f (m + 1) (f s) with ⟨r, k, c⟩
        rw [hfx] at this
        rw [hfx] at hc
        simp only at hc
        have hk := this hc
        simp only at hk
        show k + 1 = m + 1 + 1
        omega

/-- When the loop converged, the final text is a fixed point of the
substitution. -/
theorem iterFix_conv_fix (f : String → String) :
    ∀ (fuel : Nat) (s : String), 0 < fuel → (iterFix f fuel s).2.2 = true →
      f (iterFix f fuel s).1 = (iterFix f fuel s).1 := by
  intro fuel
  induction fuel with
  | zero => intro s h; omega
  | succ n ih =>
    intro s _
    simp only [iterFix]
    by_cases h : f s = s
    · rw [if_pos h]
      intro _
      simp [h]
    · rw [if_neg h]
      cases n with
      | zero => intro hc; simp at hc
      | succ m =>
        intro hc
        have := ih (f s) (Nat.succ_pos m)
        rcases hfx : iterFix f (m + 1) (f s) with ⟨r, k, c⟩
        rw [hfx] at this
        rw [hfx] at hc
        simp only at hc ⊢
        exact this hc

/-- A fixed point makes the loop converge in one pass. -/
theorem iterFix_fix_start (f : String → String) (fuel : Nat) (s : String)
    (h : f s = s) : iterFix f (fuel + 1) s = (s, 1, true) := by
  simp [iterFix, h]

/-- Claim C9 (confirmed).  For every line and settings, the
cipher-token loop runs at most 15 passes and the junk-wrapping loop at
most 5 (the embedding of the loops is a total function, so the
resolver always terminates); at most one "bound reached" warning is
emitted per pass; a warning is emitted only when the loop used all its
passes; and when no warning is emitted each loop has genuinely
converged (its final text is a fixed point of its substitution). -/
theorem c9_substitution_bounds (line : String) (settings : Settings) :
    (deobfuscate_line_characters_stats line settings).2.passes1 ≤ 15 ∧
    (deobfuscate_line_characters_stats line settings).2.passes2 ≤ 5 ∧
    (deobfuscate_line_characters_stats line settings).2.warn1 ≤ 1 ∧
    (deobfuscate_line_characters_stats line settings).2.warn2 ≤ 1 ∧
    ((deobfuscate_line_characters_stats line settings).2.warn1 = 1 →
      (deobfuscate_line_characters_stats line settings).2.passes1 = 15) ∧
    ((deobfuscate_line_characters_stats line settings).2.warn2 = 1 →
      (deobfuscate_line_characters_stats line settings).2.passes2 = 5) ∧
    ((deobfuscate_line_characters_stats line settings).2.warn1 = 0 →
      pass1Gate settings line = true →
      pass1Sub settings (resolverPass1Result line settings) =
        resolverPass1Result line settings) ∧
    ((deobfuscate_line_characters_stats line settings).2.warn2 = 0 →
      pass2Sub (iterFix pass2Sub 5 (resolverPass1Result line settings)).1 =
        (iterFix pass2Sub 5 (resolverPass1Result line settings)).1) := by
  by_cases hg : pass1Gate settings line = true
  · rcases h1 : iterFix (pass1Sub settings) 15 line with ⟨r1, n1, c1⟩
    rcases h2 : iterFix pass2Sub 5 r1 with ⟨r2, n2, c2⟩
    have hr : resolverPass1Result line settings = r1 := by
      simp [resolverPass1Result, hg, h1]
    have hn1 : n1 ≤ 15 := by have := iterFix_passes_le (pass1Sub settings) 15 line
                             rw [h1] at this; exact this
    have hn2 : n2 ≤ 5 := by have := iterFix_passes_le pass2Sub 5 r1
                            rw [h2] at this; exact this
    simp only [deobfuscate_line_characters_stats, hg, if_true, h1, hr, h2]
    refine ⟨hn1, hn2, ?_, ?_, ?_, ?_, ?_, ?_⟩
    · cases c1 <;> simp
    · cases c2 <;> simp
    · cases c1 with
      | true => intro hc; simp at hc
      | false =>
        intro _
        have := iterFix_notconv_passes (pass1Sub settings) 15 line
        rw [h1] at this
        simpa using this rfl
    · cases c2 with
      | true => intro hc; simp at hc
      | false =>
        intro _
        have := iterFix_notconv_passes pass2Sub 5 r1
        rw [h2] at this
        simpa using this rfl
    · cases c1 with
      | true =>
        intro _ _
        have := iterFix_conv_fix (pass1Sub settings) 15 line (by omega)
        rw [h1] at this
        simpa using this rfl
      | false => intro hc; simp at hc
    · cases c2 with
      | true =>
        intro _
        have := iterFix_conv_fix pass2Sub 5 r1 (by omega)
        rw [h2] at this
        simpa using this rfl
      | false => intro hc; simp at hc
  · rcases h2 : iterFix pass2Sub 5 line with ⟨r2, n2, c2⟩
    have hr : resolverPass1Result line settings = line := by
      simp [resolverPass1Result, hg]
    have hn2 : n2 ≤ 5 := by have := iterFix_passes_le pass2Sub 5 line
                            rw [h2] at this; exact this
    simp only [deobfuscate_line_characters_stats, hg, if_false, hr, h2,
      Bool.false_eq_true]
    refine ⟨by simp, hn2, by simp, ?_, by simp, ?_, ?_, ?_⟩
    · cases c2 <;> simp
    · cases c2 with
      | true => intro hc; simp at hc
      | false =>
        intro _
        have := iterFix_notconv_passes pass2Sub 5 line
        rw [h2] at this
        simpa using this rfl
    · intro _ hcon
      exact hcon.elim
    · cases c2 with
      | true =>
        intro _
        have := iterFix_conv_fix pass2Sub 5 line (by omega)
        rw [h2] at this
        simpa using this rfl
      | false => intro hc; simp at hc

/-- Witness for `c9_substitution_bounds`: a pathological 16-deep
nested cipher chain (with the self-referential map `a ↦ a`) hits the
15-pass bound without converging, and exactly one warning is counted
for the cipher-token pass. -/
theorem c9_substitution_bounds_witness :
    (deobfuscate_line_characters_stats "%%%%%%%%%%%%%%%%a%%%%%%%%%%%%%%%%"
      { kdot_value := none, reverse_caesar_map := [('a', 'a')] }).2.passes1 = 15 ∧
    (deobfuscate_line_characters_stats "%%%%%%%%%%%%%%%%a%%%%%%%%%%%%%%%%"
      { kdot_value := none, reverse_caesar_map := [('a', 'a')] }).2.warn1 = 1 ∧
    (deobfuscate_line_characters_stats "%%%%%%%%%%%%%%%%a%%%%%%%%%%%%%%%%"
      { kdot_value := none, reverse_caesar_map := [('a', 'a')] }).2.passes2 ≤ 5 :=
  ⟨(c9_substitution_bounds _ _).2.2.2.2.1 (by decide), by decide,
   (c9_substitution_bounds _ _).2.1⟩

/-! ## Identity lemmas for token-free lines (claim C7) -/

/-- The combined cipher pattern cannot match at a position whose first
character is not `%` (every alternative starts with a literal `%`). -/
theorem matchAt_combined_nonpct (prev : Option Char) (s : List Char)
    (h : ∀ c, s.head? = some c → c ≠ '%') :
    matchAt RE_COMBINED_SPECIFIC_CHAR_OBF prev s = none := by
  cases s with
  | nil =>
    simp [matchAt, mat, RE_COMBINED_SPECIFIC_CHAR_OBF, envSliceCore, kdotSliceCore,
      caesarJunkCore, rcat, lit, litCI]
  | cons c rest =>
    have hc : ¬(('%' : Char) = c) := fun hcc => (h c rfl) hcc.symm
    simp [matchAt, mat, RE_COMBINED_SPECIFIC_CHAR_OBF, envSliceCore, kdotSliceCore,
      caesarJunkCore, rcat, lit, litCI, CClass.accepts, hc]

/-- The junk-wrapping pattern cannot match at a position whose first
character is not `%`. -/
theorem matchAt_simple_junk_nonpct (prev : Option Char) (s : List Char)
    (h : ∀ c, s.head? = some c → c ≠ '%') :
    matchAt RE_SIMPLE_JUNK prev s = none := by
  cases s with
  | nil => simp [matchAt, mat, RE_SIMPLE_JUNK, rcat]
  | cons c rest =>
    have hc : ¬(('%' : Char) = c) := fun hcc => (h c rfl) hcc.symm
    simp [matchAt, mat, RE_SIMPLE_JUNK, rcat, CClass.accepts, hc]

/-- A pattern that cannot match at any position of text whose
characters all satisfy `P` finds no match in such text. -/
theorem findSplit_none_all (r : Regex) (P : Char → Prop)
    (hr : ∀ (prev : Option Char) (t : List Char),
      (∀ c ∈ t, P c) → matchAt r prev t = none) :
    ∀ (s : List Char) (prev : Option Char), (∀ c ∈ s, P c) →
      findSplit r prev s = none := by
  intro s
  induction s with
  | nil =>
    intro prev h
    simp [findSplit, hr prev [] (by intro c hc; simp at hc)]
  | cons c rest ih =>
    intro prev h
    have hm : matchAt r prev (c :: rest) = none := hr prev (c :: rest) h
    simp only [findSplit, hm]
    rw [ih (some c) (fun d hd => h d (List.mem_cons_of_mem _ hd))]
    rfl

/-- Substitution is the identity when no match exists anywhere. -/
theorem subCall_id_all (r : Regex) (f : Caps → String → String) (s : String)
    (P : Char → Prop)
    (hr : ∀ (prev : Option Char) (t : List Char),
      (∀ c ∈ t, P c) → matchAt r prev t = none)
    (h : ∀ c ∈ s.data, P c) : subCall r f s = s := by
  have hnone := findSplit_none_all r P hr s.data none h
  show String.mk (subCallAux r f (s.data.length + 1) none s.data) = s
  simp only [subCallAux, hnone]

/-- String replacement of a `%`-headed pattern is the identity on
percent-free text. -/
theorem pyReplaceL_id_nopct (pat rep : List Char) (hpat : pat.head? = some '%') :
    ∀ (fuel : Nat) (l : List Char), (∀ c ∈ l, c ≠ '%') →
      pyReplaceL pat rep fuel l = l := by
  intro fuel
  induction fuel with
  | zero => intro l _; cases l <;> rfl
  | succ n ih =>
    intro l h
    cases l with
    | nil => rfl
    | cons c rest =>
      have hcne : c ≠ '%' := h c (by simp)
      have hhead : headIs pat (c :: rest) = false := by
        cases pat with
        | nil => simp at hpat
        | cons p ps =>
          simp only [List.head?_cons, Option.some.injEq] at hpat
          subst hpat
          simp only [headIs]
          have : ¬(('%' : Char) = c) := fun hcc => hcne hcc.symm
          simp [this]
      simp only [pyReplaceL, hhead, Bool.false_and, Bool.and_eq_true, if_neg,
        Bool.false_eq_true, not_false_eq_true]
      rw [ih rest (fun d hd => h d (List.mem_cons_of_mem _ hd))]

/-- Claim C7's counterexample: a line with no cipher-token syntax at
all (it contains no `%`) is not returned byte-identical — pass 4
lower-cases the known command word and collapses the double space. -/
theorem c7_not_byte_identical :
    deobfuscate_line_characters "ECHO  hello"
      { kdot_value := none, reverse_caesar_map := [] } = "echo hello" ∧
    (∀ c ∈ ("ECHO  hello" : String).data, c ≠ '%') ∧
    "echo hello" ≠ "ECHO  hello" := by
  refine ⟨by decide, by decide, by decide⟩

/-- Claim C7 (corrected).  The Character Resolver is a no-op on a line
that contains no `%` (hence no cipher-token syntax) *and* is already
in pass-4 normal form (single spaces between words, no leading or
trailing whitespace, its first word lower-case if it is a known
command).  The substitution passes and sentinel removals are the
identity on such a line. -/
theorem c7_resolver_noop (line : String) (settings : Settings)
    (hp : ∀ c ∈ line.data, c ≠ '%')
    (hn : normalize_case_words line = line) :
    deobfuscate_line_characters line settings = line := by
  have hpass1 : pass1Sub settings line = line :=
    subCall_id_all _ _ _ (· ≠ '%')
      (fun prev t ht => matchAt_combined_nonpct prev t
        (fun c hc => ht c (List.mem_of_mem_head? hc))) hp
  have hpass2 : pass2Sub line = line :=
    subCall_id_all _ _ _ (· ≠ '%')
      (fun prev t ht => matchAt_simple_junk_nonpct prev t
        (fun c hc => ht c (List.mem_of_mem_head? hc))) hp
  have hrep1 : pyReplace line "%escape%" "" = line := by
    show String.mk _ = line
    rw [pyReplaceL_id_nopct _ _ (by decide) _ _ hp]
  have hrep2 : pyReplace line "%STOP_OBF_HERE%" "" = line := by
    show String.mk _ = line
    rw [pyReplaceL_id_nopct _ _ (by decide) _ _ hp]
  unfold deobfuscate_line_characters deobfuscate_line_characters_stats
  by_cases hg : pass1Gate settings line = true
  · simp only [hg, if_true, iterFix_fix_start _ 14 _ hpass1,
      iterFix_fix_start _ 4 _ hpass2, hrep1, hrep2, hn]
  · simp only [hg, if_false, Bool.false_eq_true,
      iterFix_fix_start _ 4 _ hpass2, hrep1, hrep2, hn]

/-- Witness for `c7_resolver_noop` at a concrete line (with nonempty
settings, so the cipher-token loop actually runs). -/
theorem c7_resolver_noop_witness :
    deobfuscate_line_characters "echo hello"
      { kdot_value := some "abc", reverse_caesar_map := [('x', 'a')] } = "echo hello" :=
  c7_resolver_noop _ _ (by decide) (by decide)

/-! ## Decimal rendering lemmas (claims C2 and C3) -/

/-- Digit characters produced by `digitChar10`. -/
theorem digitChar10_mem (d : Nat) : digitChar10 d ∈ ("0123456789" : String).data := by
  match d with
  | 0 => decide
  | 1 => decide
  | 2 => decide
  | 3 => decide
  | 4 => decide
  | 5 => decide
  | 6 => decide
  | 7 => decide
  | 8 => decide
  | n + 9 => show ('9' : Char) ∈ _; decide

/-- Facts about the ten digit characters. -/
theorem digitChars_facts :
    ∀ c ∈ ("0123456789" : String).data,
      pyIsDigit c = true ∧ pyIsSpace c = false ∧ c ≠ '\n' ∧ c ≠ '%' := by decide

/-- Every character of `renderNatAux` is a digit character. -/
theorem renderNatAux_mem :
    ∀ (fuel n : Nat), ∀ c ∈ renderNatAux fuel n, c ∈ ("0123456789" : String).data := by
  intro fuel
  induction fuel with
  | zero => intro n c hc; simp [renderNatAux] at hc
  | succ f ih =>
    intro n c hc
    simp only [renderNatAux] at hc
    by_cases hn : n = 0
    · simp [hn] at hc
    · rw [if_neg hn] at hc
      rcases List.mem_cons.mp hc with h | h
      · exact h ▸ digitChar10_mem (n % 10)
      · exact ih (n / 10) c h

/-- With enough fuel, `renderNatAux` produces exactly the little-endian
decimal digits. -/
theorem renderNatAux_eq_digits :
    ∀ (fuel n : Nat), n ≤ fuel →
      renderNatAux fuel n = (Nat.digits 10 n).map digitChar10 := by
  intro fuel
  induction fuel with
  | zero =>
    intro n hn
    have : n = 0 := by omega
    subst this
    simp [renderNatAux]
  | succ f ih =>
    intro n hn
    by_cases h0 : n = 0
    · subst h0; simp [renderNatAux]
    · have hlt : n / 10 ≤ f := by omega
      rw [Nat.digits_def' (by norm_num : 1 < 10) (Nat.pos_of_ne_zero h0)]
      simp only [renderNatAux, if_neg h0, List.map_cons]
      rw [ih (n / 10) hlt]

/-- The rendered digits of a positive number. -/
theorem renderNat_data (n : Nat) (h : 0 < n) :
    (renderNat n).data = ((Nat.digits 10 n).map digitChar10).reverse := by
  have hne : n ≠ 0 := Nat.pos_iff_ne_zero.mp h
  simp only [renderNat, if_neg hne]
  rw [renderNatAux_eq_digits (n + 1) n (by omega)]

/-- Every character of a rendered number is a digit character. -/
theorem renderNat_mem (n : Nat) : ∀ c ∈ (renderNat n).data, c ∈ ("0123456789" : String).data := by
  intro c hc
  by_cases h0 : n = 0
  · subst h0
    simp only [renderNat, if_pos rfl] at hc
    have : c = '0' := by simpa using hc
    subst this
    decide
  · simp only [renderNat, if_neg h0] at hc
    rw [List.mem_reverse] at hc
    exact renderNatAux_mem (n + 1) n c hc

/-- A rendered number is never the empty string. -/
theorem renderNat_ne_nil (n : Nat) : (renderNat n).data ≠ [] := by
  by_cases h0 : n = 0
  · subst h0; simp [renderNat]
  · simp only [renderNat, if_neg h0]
    simp only [ne_eq, List.reverse_eq_nil_iff]
    rw [renderNatAux_eq_digits (n + 1) n (by omega)]
    simp [Nat.digits_ne_nil_iff_ne_zero, h0]

/-- The numeric value of a digit character. -/
theorem digitChar10_toNat (d : Nat) (h : d < 10) : (digitChar10 d).toNat - 48 = d := by
  interval_cases d <;> decide

/-- The right fold computing a decimal value is `Nat.ofDigits`. -/
theorem foldr_ofDigits :
    ∀ L : List Nat, List.foldr (fun d acc => 10 * acc + d) 0 L = Nat.ofDigits 10 L := by
  intro L
  induction L with
  | nil => simp [Nat.ofDigits]
  | cons d L ih =>
    simp only [List.foldr_cons, ih, Nat.ofDigits_cons]
    omega

/-- Reading back the rendered decimal digits recovers the number. -/
theorem decDigitsVal_renderNat (n : Nat) : decDigitsVal (renderNat n).data = n := by
  by_cases h0 : n = 0
  · subst h0; decide
  · rw [renderNat_data n (Nat.pos_of_ne_zero h0)]
    unfold decDigitsVal
    rw [List.foldl_reverse, List.foldr_map]
    have hcong : ∀ L : List Nat, (∀ d ∈ L, d < 10) →
        List.foldr (fun d acc => 10 * acc + ((digitChar10 d).toNat - 48)) 0 L =
        List.foldr (fun d acc => 10 * acc + d) 0 L := by
      intro L
      induction L with
      | nil => intro _; rfl
      | cons d L ihL =>
        intro hL
        simp only [List.foldr_cons]
        rw [ihL (fun d hd => hL d (List.mem_cons_of_mem _ hd)),
          digitChar10_toNat d (hL d (List.mem_cons_self _ _))]
    rw [show (fun (x : Nat) (y : Nat) => 10 * y + ((digitChar10 x).toNat - 48)) =
        (fun (d : Nat) (acc : Nat) => 10 * acc + ((digitChar10 d).toNat - 48)) from rfl]
    rw [hcong (Nat.digits 10 n)
      (fun d hd => Nat.digits_lt_base (by norm_num : 2 ≤ 10) hd)]
    rw [foldr_ofDigits, Nat.ofDigits_digits]

/-- Decimal rendering is injective. -/
theorem renderNat_inj (a b : Nat) (h : renderNat a = renderNat b) : a = b := by
  have ha := decDigitsVal_renderNat a
  rw [h, decDigitsVal_renderNat b] at ha
  omega

/-- The first character of a positive rendered number is a nonzero
digit. -/
theorem renderNat_head (n : Nat) (h : 0 < n) :
    ∃ c cs, (renderNat n).data = c :: cs ∧ c ≠ '0' ∧ pyIsDigit c = true := by
  rcases hd : (renderNat n).data with _ | ⟨c, cs⟩
  · exact absurd hd (renderNat_ne_nil n)
  · refine ⟨c, cs, rfl, ?_, ?_⟩
    · have hh : (renderNat n).data.head? = some c := by rw [hd]; rfl
      rw [renderNat_data n h, List.head?_reverse, List.getLast?_map] at hh
      have hne : Nat.digits 10 n ≠ [] :=
        Nat.digits_ne_nil_iff_ne_zero.mpr (Nat.pos_iff_ne_zero.mp h)
      rw [List.getLast?_eq_getLast _ hne] at hh
      simp at hh
      have hdnz : (Nat.digits 10 n).getLast hne ≠ 0 :=
        Nat.getLast_digit_ne_zero 10 (Nat.pos_iff_ne_zero.mp h)
      have hdlt : (Nat.digits 10 n).getLast hne < 10 :=
        Nat.digits_lt_base (by norm_num) (List.getLast_mem hne)
      intro hc
      rw [← hh] at hc
      set d := (Nat.digits 10 n).getLast hne with hd'
      have h1 : 1 ≤ d := Nat.pos_of_ne_zero hdnz
      interval_cases d <;> simp_all [digitChar10]
    · have := renderNat_mem n c (by rw [hd]; simp)
      exact (digitChars_facts c this).1

/-! ## Evaluating a rendered label (claims C2 and C3) -/

/-- A digit character is not whitespace and is none of the operator or
bracket characters the tokenizer dispatches on. -/
theorem digit_char_shape :
    ∀ c ∈ ("0123456789" : String).data,
      pyIsSpace c = false ∧ c ≠ '(' ∧ c ≠ ')' ∧ c ≠ '+' ∧ c ≠ '-' ∧ c ≠ '~' ∧
      c ≠ '^' ∧ c ≠ '&' ∧ c ≠ '|' ∧ c ≠ '*' ∧ c ≠ '/' ∧ c ≠ '%' ∧ c ≠ '<' ∧
      c ≠ '>' ∧ c ≠ '.' := by decide

/-- The operator-rewriting literals share no character with the ten
digit characters. -/
theorem ops_ne_digits :
    ∀ a ∈ (['^', '-', '+', '*', '/', '%', '<', '>', '&', '|'] : List Char),
      ∀ b ∈ ("0123456789" : String).data, a ≠ b := by decide

/-- `lexRun` consumes the whole list when every character satisfies the
predicate. -/
theorem lexRun_all (p : Char → Bool) :
    ∀ l : List Char, (∀ c ∈ l, p c = true) → lexRun p l = (l, []) := by
  intro l
  induction l with
  | nil => intro _; rfl
  | cons c rest ih =>
    intro h
    have hc : p c = true := h c (by simp)
    simp [lexRun, hc, ih (fun d hd => h d (List.mem_cons_of_mem _ hd))]

/-- On decimal digit characters the base-10 fold of `digitsVal` agrees
with the fold of `decDigitsVal`. -/
theorem digitsVal10_foldl_eq :
    ∀ (l : List Char) (a : Nat), (∀ c ∈ l, pyIsDigit c = true) →
      l.foldl (fun a c => 10 * a + hexVal c) a =
      l.foldl (fun a c => 10 * a + (c.toNat - 48)) a := by
  intro l
  induction l with
  | nil => intro a _; rfl
  | cons c rest ih =>
    intro a h
    have hc : pyIsDigit c = true := h c (by simp)
    simp only [List.foldl_cons, hexVal, hc, if_true]
    exact ih _ (fun d hd => h d (List.mem_cons_of_mem _ hd))

/-- Tokenizing a rendered positive label yields one numeric token
carrying the label's value. -/
theorem tokenize_renderNat (L : Nat) (h : 0 < L) :
    tokenize (renderNat L).data = .ok [Tok.num L] := by
  obtain ⟨c, cs, hdata, hc0, hcdig⟩ := renderNat_head L h
  have hcmem : c ∈ ("0123456789" : String).data :=
    renderNat_mem L c (by rw [hdata]; exact List.mem_cons_self _ _)
  have hcsall : ∀ x ∈ cs, pyIsDigit x = true := fun x hx =>
    (digitChars_facts x (renderNat_mem L x
      (by rw [hdata]; exact List.mem_cons_of_mem _ hx))).1
  obtain ⟨hsp, hlp, hrp, hadd, hsub, hinv, hxor, hand, hor, hmul, hdiv,
    hmod, hlt, hgt, hdot⟩ := digit_char_shape c hcmem
  have hval : digitsVal 10 (c :: cs) = L := by
    have hdv := decDigitsVal_renderNat L
    rw [hdata] at hdv
    show (c :: cs).foldl (fun a c => 10 * a + hexVal c) 0 = L
    rw [digitsVal10_foldl_eq (c :: cs) 0 (by
      intro x hx
      rcases List.mem_cons.mp hx with h | h
      · exact h ▸ hcdig
      · exact hcsall x h)]
    exact hdv
  rw [hdata]
  show tokenizeF ((c :: cs).length + 1) (c :: cs) = .ok [Tok.num L]
  simp only [List.length_cons]
  rw [tokenizeF]
  unfold tokenizeStep
  rw [if_neg (by simp [hsp]), if_neg hlp, if_neg hrp, if_neg hadd, if_neg hsub,
    if_neg hinv, if_neg hxor, if_neg hand, if_neg hor, if_neg hmul, if_neg hdiv,
    if_neg hmod, if_neg hlt, if_neg hgt, if_neg hdot, if_neg hc0, if_pos hcdig]
  simp only [lexRun_all pyIsDigit cs hcsall]
  simp [wordFollows, lexFloatTail, tokenizeF, hval, Except.map]

/-- Evaluating a single numeric token yields its value. -/
theorem pyEvalTokens_num (n : Nat) : pyEvalTokens [Tok.num n] = .ok (n : Int) := rfl

/-- A single quantified character class fails on a head it does not
accept, whatever the continuation. -/
theorem mat_one_exact_none (c0 : Char) (prev : Option Char) (t : List Char)
    (cs : Caps) (k : MatchK) (ht : ∀ x, t.head? = some x → c0 ≠ x) :
    mat (.one (.exact c0)) prev t cs k = none := by
  cases t with
  | nil => rfl
  | cons c rest =>
    have hc : ¬(c0 = c) := ht c rfl
    simp [mat, CClass.accepts, hc]

/-- A case-sensitive literal fails when the text's head differs from
its first character. -/
theorem mat_lit_head_none (l : String) (c0 : Char) (ltl : List Char)
    (hl : l.data = c0 :: ltl) (prev : Option Char) (t : List Char) (cs : Caps)
    (k : MatchK) (ht : ∀ x, t.head? = some x → c0 ≠ x) :
    mat (lit l) prev t cs k = none := by
  unfold lit
  rw [hl]
  cases ltl with
  | nil =>
    show mat (.one (.exact c0)) prev t cs k = none
    exact mat_one_exact_none c0 prev t cs k ht
  | cons y ys =>
    rw [List.map_cons]
    show mat (.one (.exact c0)) prev t cs
      (fun p' s' cs' =>
        mat (rcat (List.map (fun c => Regex.one (CClass.exact c)) (y :: ys)))
          p' s' cs' k) = none
    exact mat_one_exact_none c0 prev t cs _ ht

/-- A greedy `\s*` stays put when the next character is not
whitespace. -/
theorem starLoop_ws_skip (prev : Option Char) (t : List Char) (cs : Caps)
    (k : MatchK) (ht : ∀ x, t.head? = some x → pyIsSpace x = false) :
    starLoop .ws true prev t cs k = k prev t cs := by
  cases t with
  | nil => rfl
  | cons c rest =>
    have hc : pyIsSpace c = false := ht c rfl
    simp [starLoop, CClass.accepts, hc]

/-- The operator-rewriting pattern `\s*LIT\s*` cannot match in text
that contains no whitespace and no occurrence of the literal's first
character. -/
theorem matchAt_opSub_none (l : String) (c0 : Char) (ltl : List Char)
    (hl : l.data = c0 :: ltl) (prev : Option Char) (t : List Char)
    (ht : ∀ x ∈ t, pyIsSpace x = false ∧ c0 ≠ x) :
    matchAt (rcat [.star .ws true, lit l, .star .ws true]) prev t = none := by
  show starLoop .ws true prev t []
    (fun p' s' cs' => mat (rcat [lit l, Regex.star .ws true]) p' s' cs'
      (fun x rest cs => some (cs, rest))) = none
  rw [starLoop_ws_skip prev t [] _
    (fun x hx => (ht x (List.mem_of_mem_head? hx)).1)]
  show mat (lit l) prev t []
    (fun p' s' cs' => mat (Regex.star CClass.ws true) p' s' cs'
      (fun x rest cs => some (cs, rest))) = none
  exact mat_lit_head_none l c0 ltl hl prev t [] _
    (fun x hx => (ht x (List.mem_of_mem_head? hx)).2)

/-- One operator-rewriting step is the identity on text containing no
whitespace and no occurrence of the literal's first character. -/
theorem opSub_id (l rep s : String) (c0 : Char) (ltl : List Char)
    (hl : l.data = c0 :: ltl)
    (hs : ∀ x ∈ s.data, pyIsSpace x = false ∧ c0 ≠ x) :
    opSub l rep s = s :=
  subCall_id_all _ _ _ (fun x => pyIsSpace x = false ∧ c0 ≠ x)
    (fun prev t ht => matchAt_opSub_none l c0 ltl hl prev t ht) hs

/-- The operator-preprocessing chain is the identity on a digit
string. -/
theorem preprocess_digits_id (s : String)
    (hs : ∀ x ∈ s.data, x ∈ ("0123456789" : String).data) :
    preprocess s = s := by
  have h : ∀ c0 ∈ (['^', '-', '+', '*', '/', '%', '<', '>', '&', '|'] : List Char),
      ∀ x ∈ s.data, pyIsSpace x = false ∧ c0 ≠ x := fun c0 hc0 x hx =>
    ⟨(digitChars_facts x (hs x hx)).2.1, ops_ne_digits c0 hc0 x (hs x hx)⟩
  unfold preprocess
  rw [opSub_id "^^" "^" s '^' ['^'] (by decide) (h '^' (by decide)),
      opSub_id "-" "-" s '-' [] (by decide) (h '-' (by decide)),
      opSub_id "+" "+" s '+' [] (by decide) (h '+' (by decide)),
      opSub_id "*" "*" s '*' [] (by decide) (h '*' (by decide)),
      opSub_id "/" "//" s '/' [] (by decide) (h '/' (by decide)),
      opSub_id "%" "%" s '%' [] (by decide) (h '%' (by decide)),
      opSub_id "<<" "<<" s '<' ['<'] (by decide) (h '<' (by decide)),
      opSub_id ">>" ">>" s '>' ['>'] (by decide) (h '>' (by decide)),
      opSub_id "&" "&" s '&' [] (by decide) (h '&' (by decide)),
      opSub_id "|" "|" s '|' [] (by decide) (h '|' (by decide))]

/-- Stripping is the identity on text with no whitespace. -/
theorem pyStripL_id_of_nonspace (l : List Char)
    (h : ∀ c ∈ l, pyIsSpace c = false) : pyStripL l = l := by
  unfold pyStripL
  rw [dropWhile_eq_self_of_head pyIsSpace l
    (fun c hc => h c (List.mem_of_mem_head? hc))]
  rw [dropWhile_eq_self_of_head pyIsSpace l.reverse
    (fun c hc => h c (List.mem_reverse.mp (List.mem_of_mem_head? hc)))]
  exact l.reverse_reverse

/-- The dispatch evaluator maps a rendered positive label to its
value. -/
theorem safe_eval_renderNat (L : Nat) (h : 0 < L) :
    safe_eval_batch_math (renderNat L) = some (L : Int) := by
  have hmem := renderNat_mem L
  have hstrip : pyStrip (renderNat L) = renderNat L := by
    show String.mk (pyStripL (renderNat L).data) = renderNat L
    rw [pyStripL_id_of_nonspace _
      (fun c hc => (digitChars_facts c (hmem c hc)).2.1)]
  have hne : pyStrip (renderNat L) ≠ "" := by
    rw [hstrip]
    intro hx
    exact renderNat_ne_nil L (congrArg String.data hx)
  unfold safe_eval_batch_math
  rw [if_neg hne, hstrip, preprocess_digits_id (renderNat L) hmem]
  unfold pyEval
  rw [tokenize_renderNat L h]
  simp [Except.bind, pyEvalTokens_num L]

/-- `str` of a nonnegative integer is the decimal rendering of its
absolute value. -/
theorem strOfInt_natCast (L : Nat) : strOfInt (L : Int) = renderNat L := by
  unfold strOfInt
  rw [if_neg (by omega : ¬((L : Int) < 0))]
  simp

/-! ## Backtracking-step lemmas for the scramble patterns -/

/-- The previous character after a cons-segment. -/
theorem lastOr_cons (prev : Option Char) (c : Char) (l : List Char) :
    lastOr prev (c :: l) = lastOr (some c) l := by
  unfold lastOr
  rw [List.getLast?_cons]
  cases h : l.getLast? <;> simp [h]

/-- A greedy `\s*` whose text begins `\n` stays put when its
continuation rejects the state after consuming the newline. -/
theorem starLoop_ws_nl_stay (prev : Option Char) (v : List Char) (cs : Caps) (k : MatchK)
    (hv : ∀ x, v.head? = some x → pyIsSpace x = false)
    (hk : k (some '\n') v cs = none) :
    starLoop .ws true prev ('\n' :: v) cs k = k prev ('\n' :: v) cs := by
  cases v with
  | nil => simp +decide [starLoop, CClass.accepts, hk]
  | cons d v' =>
    have hd : pyIsSpace d = false := hv d rfl
    simp +decide [starLoop, CClass.accepts, hd, hk]

/-- A greedy `\s*` followed by a newline matcher fails on text whose
whitespace run stops strictly before a non-newline character. -/
theorem starLoop_ws_nl_fail_sem (q : List Char) :
    q ≠ [] → '\n' ∉ q →
    (∀ x, q.getLast? = some x → pyIsSpace x = false) →
    ∀ (p : Option Char) (v : List Char) (cs : Caps) (k : MatchK),
      (∀ (pr : Option Char) (t : List Char) (c : Caps),
        (∀ x, t.head? = some x → x ≠ '\n') → k pr t c = none) →
      starLoop .ws true p (q ++ '\n' :: v) cs k = none := by
  induction q with
  | nil => intro h; exact absurd rfl h
  | cons c q' ih =>
    intro _ hnl hlast p v cs k hk
    have hcnl : c ≠ '\n' := fun h => hnl (h ▸ List.mem_cons_self _ _)
    have hkc : k p ((c :: q') ++ '\n' :: v) cs = none := by
      apply hk
      intro x hx
      simp only [List.cons_append, List.head?_cons, Option.some.injEq] at hx
      exact hx ▸ hcnl
    by_cases hc : pyIsSpace c = true
    · have hq' : q' ≠ [] := by
        intro h
        subst h
        exact absurd hc (by simp [hlast c rfl])
      have hnl' : '\n' ∉ q' := fun h => hnl (List.mem_cons_of_mem _ h)
      have hlast' : ∀ x, q'.getLast? = some x → pyIsSpace x = false := by
        intro x hx
        apply hlast
        rw [List.getLast?_cons, hx]
        simp [Option.getD]
      have hrec := ih hq' hnl' hlast' (some c) v cs k hk
      simp only [List.cons_append, starLoop, CClass.accepts, hc, if_true]
      rw [List.cons_append] at hkc
      simp [hrec, hkc]
    · have hc' : pyIsSpace c = false := by simpa using hc
      simp only [List.cons_append, starLoop, CClass.accepts, hc']
      rw [List.cons_append] at hkc
      simp [hkc]

/-- A lazy `.*?` before a `\s*`-newline continuation consumes exactly
the newline-free segment, provided the continuation rejects every
interior stop. -/
theorem starLoop_dot_lazy_sem (e : List Char) :
    '\n' ∉ e →
    ∀ (prev : Option Char) (v : List Char) (cs : Caps) (k : MatchK),
      (∀ (pr : Option Char) (q : List Char), q <:+ e → q ≠ [] →
        k pr (q ++ '\n' :: v) cs = none) →
      starLoop .dot false prev (e ++ '\n' :: v) cs k = k (lastOr prev e) ('\n' :: v) cs := by
  induction e with
  | nil =>
    intro _ prev v cs k _
    simp +decide [starLoop, CClass.accepts, lastOr]
  | cons c e' ih =>
    intro hnl prev v cs k hfail
    have hcnl : c ≠ '\n' := fun h => hnl (h ▸ List.mem_cons_self _ _)
    have hnl' : '\n' ∉ e' := fun h => hnl (List.mem_cons_of_mem _ h)
    have hk0 : k prev ((c :: e') ++ '\n' :: v) cs = none :=
      hfail prev (c :: e') List.suffix_rfl (by simp)
    have hfail' : ∀ (pr : Option Char) (q : List Char), q <:+ e' → q ≠ [] →
        k pr (q ++ '\n' :: v) cs = none := by
      intro pr q hs hq
      exact hfail pr q (hs.trans (List.suffix_cons c e')) hq
    have hrec := ih hnl' (some c) v cs k hfail'
    rw [lastOr_cons]
    simp only [List.cons_append, starLoop, CClass.accepts]
    rw [List.cons_append] at hk0
    simp +decide [hcnl, hk0, hrec]

/-- A lazy `[\s\S]*?` before a newline matcher consumes exactly the
newline-free segment when the continuation accepts the state after the
first newline. -/
theorem starLoop_anyc_lazy_sem (u : List Char) :
    '\n' ∉ u →
    ∀ (prev : Option Char) (v : List Char) (cs : Caps) (k : MatchK)
      (res : Caps × List Char),
      (∀ (pr : Option Char) (t : List Char) (c : Caps),
        (∀ x, t.head? = some x → x ≠ '\n') → k pr t c = none) →
      k (lastOr prev u) ('\n' :: v) cs = some res →
      starLoop .anyc false prev (u ++ '\n' :: v) cs k = some res := by
  induction u with
  | nil =>
    intro _ prev v cs k res _ hsucc
    simp only [List.nil_append, starLoop, CClass.accepts]
    simp [lastOr] at hsucc
    simp [hsucc]
  | cons c u' ih =>
    intro hnl prev v cs k res hk hsucc
    have hcnl : c ≠ '\n' := fun h => hnl (h ▸ List.mem_cons_self _ _)
    have hnl' : '\n' ∉ u' := fun h => hnl (List.mem_cons_of_mem _ h)
    have hk0 : k prev ((c :: u') ++ '\n' :: v) cs = none := by
      apply hk
      intro x hx
      simp only [List.cons_append, List.head?_cons, Option.some.injEq] at hx
      exact hx ▸ hcnl
    rw [lastOr_cons] at hsucc
    have hrec := ih hnl' (some c) v cs k res hk hsucc
    simp only [List.cons_append, starLoop, CClass.accepts]
    rw [List.cons_append] at hk0
    simp [hk0, hrec]

/-- `starLoop_anyc_lazy_sem` with the text shape supplied as an
equation, convenient for `apply`. -/
theorem starLoop_anyc_lazy_eq (u : List Char) (hu : '\n' ∉ u) (w : List Char)
    (prev : Option Char) (v : List Char) (cs : Caps) (k : MatchK)
    (res : Caps × List Char) (hw : w = u ++ '\n' :: v)
    (hk : ∀ (pr : Option Char) (t : List Char) (c : Caps),
      (∀ x, t.head? = some x → x ≠ '\n') → k pr t c = none)
    (hsucc : k (lastOr prev u) ('\n' :: v) cs = some res) :
    starLoop .anyc false prev w cs k = some res := by
  rw [hw]
  exact starLoop_anyc_lazy_sem u hu prev v cs k res hk hsucc

/-- A greedy `\d+`-style loop consumes a whole digit run when the text
after it does not start with a digit and the continuation then
succeeds. -/
theorem starLoop_digit_run_sem (ds : List Char) :
    (∀ x ∈ ds, pyIsDigit x = true) →
    ∀ (prev : Option Char) (t : List Char) (cs : Caps) (k : MatchK)
      (res : Caps × List Char),
      (∀ x, t.head? = some x → pyIsDigit x = false) →
      k (lastOr prev ds) t cs = some res →
      starLoop .digit true prev (ds ++ t) cs k = some res := by
  induction ds with
  | nil =>
    intro _ prev t cs k res hhead hsucc
    simp [lastOr] at hsucc
    cases t with
    | nil => simpa [starLoop] using hsucc
    | cons x t' =>
      have hx : pyIsDigit x = false := hhead x rfl
      simp [starLoop, CClass.accepts, hx, hsucc]
  | cons c ds' ih =>
    intro hds prev t cs k res hhead hsucc
    have hc : pyIsDigit c = true := hds c (by simp)
    rw [lastOr_cons] at hsucc
    have hrec := ih (fun x hx => hds x (List.mem_cons_of_mem _ hx)) (some c) t cs k res hhead hsucc
    simp [starLoop, CClass.accepts, hc, hrec]

/-- The last element of a list with a nonempty suffix appended. -/
theorem getLast?_append_right (l₁ l₂ : List Char) (h : l₂ ≠ []) :
    (l₁ ++ l₂).getLast? = l₂.getLast? := by
  obtain ⟨y, hy⟩ := Option.isSome_iff_exists.mp (List.getLast?_isSome.mpr h)
  induction l₁ with
  | nil => rfl
  | cons a l₁ ih =>
    rw [List.cons_append, List.getLast?_cons, ih, hy]
    rfl

/-- Taking one segment plus its head out of a cons-append text. -/
theorem take_seg {c : Char} {l r : List Char} (n : Nat) (h : n = l.length + 1) :
    List.take n (c :: (l ++ r)) = c :: l := by
  subst h
  simp [List.take_left]

theorem matchAt_jump_site (ec : Char) (e' : List Char) (rc : Char) (rcs : List Char)
    (d : Char) (S : List Char) (prev : Option Char)
    (hprev : prev = none ∨ prev = some '\n')
    (hec : pyIsSpace ec = false)
    (henl : '\n' ∉ ec :: e')
    (helast : ∀ x, (ec :: e').getLast? = some x → pyIsSpace x = false)
    (hrc : pyIsDigit rc = true) (hrcs : ∀ x ∈ rcs, pyIsDigit x = true)
    (hd : pyIsSpace d = false) :
    matchAt RE_SCRAMBLE_JUMP prev
      ('s' :: 'e' :: 't' :: ' ' :: '/' :: 'a' :: ' ' :: 'a' :: 'n' :: 's' :: '=' ::
        ((ec :: e') ++ '\n' :: 'g' :: 'o' :: 't' :: 'o' :: ' ' :: '%' :: 'a' :: 'n' :: 's' :: '%' :: '\n' :: ':' ::
          ((rc :: rcs) ++ '\n' :: d :: S))) =
      some ([(2, String.mk (rc :: rcs)), (1, String.mk (ec :: e'))], '\n' :: d :: S) := by
  have hecnl : ec ≠ '\n' := fun h => henl (h ▸ List.mem_cons_self _ _)
  have hnl' : '\n' ∉ e' := fun h => henl (List.mem_cons_of_mem _ h)
  have hdn : d ≠ '\n' := fun h => by rw [h] at hd; exact absurd hd (by decide)
  rcases hprev with rfl | rfl <;>
  · simp +decide [matchAt, RE_SCRAMBLE_JUMP, mat, starLoop, litCI, rcat, CClass.accepts,
      signedInt, hec, hecnl, Ne.symm hecnl]
    rw [starLoop_dot_lazy_sem e' hnl']
    · simp +decide [mat, starLoop, litCI, rcat, CClass.accepts, signedInt,
        hrc, hd, hdn, Ne.symm hdn]
      apply starLoop_digit_run_sem rcs hrcs
      · intro x hx
        simp only [List.head?_cons, Option.some.injEq] at hx
        subst hx
        decide
      · rw [starLoop_ws_nl_stay]
        · rw [take_seg _ (by first | omega | (simp only [List.length_cons]; omega)),
            take_seg _ (by first | omega | (simp only [List.length_cons]; omega))]
          simp
        · intro x hx
          simp only [List.head?_cons, Option.some.injEq] at hx
          subst hx
          exact hd
        · simp [hdn]
    · intro pr q hsuf hqne
      cases q with
      | nil => exact absurd rfl hqne
      | cons qc q' =>
        have hmem : '\n' ∉ qc :: q' := fun h => hnl' (hsuf.subset h)
        have hlastq : ∀ x, (qc :: q').getLast? = some x → pyIsSpace x = false := by
          intro x hx
          apply helast
          obtain ⟨pre, hpre⟩ := hsuf
          have he'ne : e' ≠ [] := by
            rw [← hpre]
            simp
          rw [show (ec :: e') = [ec] ++ e' from rfl, getLast?_append_right _ _ he'ne, ← hpre,
            getLast?_append_right _ _ (by simp : qc :: q' ≠ [])]
          exact hx
        apply starLoop_ws_nl_fail_sem (qc :: q') (by simp) hmem hlastq
        intro pr2 t c hh
        cases t with
        | nil => rfl
        | cons x xs =>
          have hx : x ≠ '\n' := hh x rfl
          simp [Ne.symm hx]

theorem matchAt_block_site (lc : Char) (lcs : List Char) (sc : Char) (s' : List Char)
    (rest : List Char) (prev : Option Char)
    (hprev : prev = none ∨ prev = some '\n')
    (hlc : pyIsDigit lc = true) (hlcs : ∀ x ∈ lcs, pyIsDigit x = true)
    (hsc : pyIsSpace sc = false)
    (hsnl : '\n' ∉ sc :: s')
    (hrest : rest = [] ∨ ∃ d S, rest = '\n' :: d :: S ∧ pyIsSpace d = false) :
    matchAt RE_SCRAMBLED_BLOCK prev
      (':' :: ((lc :: lcs) ++ '\n' ::
        ((sc :: s') ++ '\n' :: 's' :: 'e' :: 't' :: ' ' :: '/' :: 'a' :: ' ' :: 'a' :: 'n' :: 's' :: '=' :: '1' :: '\n' ::
          'g' :: 'o' :: 't' :: 'o' :: ' ' :: '%' :: 'a' :: 'n' :: 's' :: '%' ::rest))) =
      some ([(2, String.mk (sc :: s')), (1, String.mk (lc :: lcs))], rest) := by
  have hscnl : sc ≠ '\n' := fun h => hsnl (h ▸ List.mem_cons_self _ _)
  have hsnl' : '\n' ∉ s' := fun h => hsnl (List.mem_cons_of_mem _ h)
  rcases hprev with rfl | rfl <;>
  · simp +decide [matchAt, RE_SCRAMBLED_BLOCK, mat, starLoop, litCI, rcat, CClass.accepts,
      hlc, hsc, hscnl, Ne.symm hscnl]
    apply starLoop_digit_run_sem lcs hlcs
    · intro x hx
      simp only [List.head?_cons, Option.some.injEq] at hx
      subst hx
      decide
    · rw [starLoop_ws_nl_stay]
      · simp only []
        apply starLoop_anyc_lazy_eq (sc :: s') hsnl
        · rfl
        · intro pr2 t c hh
          cases t with
          | nil => rfl
          | cons x xs =>
            have hx : x ≠ '\n' := hh x rfl
            simp [Ne.symm hx]
        · rcases hrest with rfl | ⟨d, S, rfl, hd⟩
          · simp +decide [mat, starLoop, litCI, rcat, CClass.accepts]
            rw [take_seg _ (by omega)]
          · have hdn : d ≠ '\n' := fun h => by rw [h] at hd; exact absurd hd (by decide)
            simp +decide [mat, starLoop, litCI, rcat, CClass.accepts, hd, hdn, Ne.symm hdn]
            refine ⟨?_, ?_⟩ <;> rw [take_seg _ (by omega)]
      · intro x hx
        simp only [List.head?_cons, Option.some.injEq] at hx
        subst hx
        exact hsc
      · simp [Ne.symm hscnl]

/-! ## Text-shape lemmas for the synthetic scrambled input -/

/-- `joinNL` over a single line. -/
theorem joinNL_single (l : String) : joinNL [l] = l.data := rfl

/-- `joinNL` over a cons with a nonempty tail. -/
theorem joinNL_cons_ne (l : String) (rest : List String) (h : rest ≠ []) :
    joinNL (l :: rest) = l.data ++ '\n' :: joinNL rest := by
  cases rest with
  | nil => exact absurd rfl h
  | cons a t => rfl

/-- One unfolding step of `splitNL`. -/
theorem splitNL_cons (c : Char) (rest : List Char) :
    splitNL (c :: rest) = if c = '\n' then [] :: splitNL rest else
      match splitNL rest with | [] => [[c]] | l :: ls => (c :: l) :: ls := rfl

/-- `splitNL` peels a newline-free segment before a newline. -/
theorem splitNL_append_nl (x : List Char) (hx : '\n' ∉ x) (y : List Char) :
    splitNL (x ++ '\n' :: y) = x :: splitNL y := by
  induction x with
  | nil => simp [splitNL]
  | cons c x' ih =>
    have hc : c ≠ '\n' := fun h => hx (h ▸ List.mem_cons_self _ _)
    have ih' := ih (fun h => hx (List.mem_cons_of_mem _ h))
    rw [List.cons_append, splitNL_cons, if_neg hc, ih']

/-- `splitNL` of a nonempty newline-free text is that single line. -/
theorem splitNL_single (x : List Char) (hne : x ≠ []) (hx : '\n' ∉ x) :
    splitNL x = [x] := by
  induction x with
  | nil => exact absurd rfl hne
  | cons c x' ih =>
    have hc : c ≠ '\n' := fun h => hx (h ▸ List.mem_cons_self _ _)
    cases x' with
    | nil => simp [splitNL, hc]
    | cons d x'' =>
      have ih' := ih (by simp) (fun h => hx (List.mem_cons_of_mem _ h))
      rw [splitNL_cons, if_neg hc, ih']

/-- The block-table text decomposes block by block. -/
theorem TB_cons (b : Nat × String) (bs : List (Nat × String)) :
    TB (b :: bs) = blockText b ++ leadNL bs := by
  have h1 : ((":" ++ renderNat b.1) : String).data = ':' :: (renderNat b.1).data := by
    rw [String.data_append]; rfl
  cases bs with
  | nil =>
    show joinNL (blockLines b ++ [].flatten) = _
    simp only [List.flatten_nil, List.append_nil, blockLines]
    rw [joinNL_cons_ne _ _ (by simp), joinNL_cons_ne _ _ (by simp),
      joinNL_cons_ne _ _ (by simp), joinNL_single]
    simp [blockText, leadNL, h1]
  | cons b' bs' =>
    show joinNL (blockLines b ++ (blockLines b' ++ (bs'.map blockLines).flatten)) = _
    simp only [blockLines]
    rw [show ([":" ++ renderNat b.1, b.2, "set /a ans=1", "goto %ans%"] ++
        (([":" ++ renderNat b'.1, b'.2, "set /a ans=1", "goto %ans%"] : List String) ++
          (bs'.map blockLines).flatten)) =
      (":" ++ renderNat b.1) :: b.2 :: "set /a ans=1" :: "goto %ans%" ::
        (blockLines b' ++ (bs'.map blockLines).flatten) from by simp [blockLines]]
    rw [joinNL_cons_ne _ _ (by simp), joinNL_cons_ne _ _ (by simp),
      joinNL_cons_ne _ _ (by simp), joinNL_cons_ne _ _ (by simp [blockLines])]
    have : joinNL (blockLines b' ++ (bs'.map blockLines).flatten) = TB (b' :: bs') := by
      simp [TB]
    rw [this]
    simp [blockText, leadNL, h1]

/-- The main-section text is the trailing dispatcher line when there
are no sites. -/
theorem MT_nil : MT [] = ('g' :: 'o' :: 't' :: 'o' :: ' ' :: '%' :: 'a' :: 'n' :: 's' :: '%' ::[]) := rfl

/-- The main-section text decomposes site by site. -/
theorem MT_cons (s : SiteSpec) (ss : List SiteSpec) :
    MT (s :: ss) = siteText s ++ '\n' :: MT ss := by
  have h1 : (("set /a ans=" ++ s.expr) : String).data =
      's' :: 'e' :: 't' :: ' ' :: '/' :: 'a' :: ' ' :: 'a' :: 'n' :: 's' :: '=' ::s.expr.data := by
    rw [String.data_append]; rfl
  have h2 : ((":" ++ renderNat s.ret) : String).data = ':' :: (renderNat s.ret).data := by
    rw [String.data_append]; rfl
  show joinNL ((siteLines s ++ (ss.map siteLines).flatten) ++ ["goto %ans%"]) = _
  simp only [siteLines]
  rw [show ((["set /a ans=" ++ s.expr, "goto %ans%", ":" ++ renderNat s.ret] ++
      (ss.map siteLines).flatten) ++ ["goto %ans%"]) =
    ("set /a ans=" ++ s.expr) :: "goto %ans%" :: (":" ++ renderNat s.ret) ::
      ((ss.map siteLines).flatten ++ ["goto %ans%"]) from by simp]
  rw [joinNL_cons_ne _ _ (by simp), joinNL_cons_ne _ _ (by simp),
    joinNL_cons_ne _ _ (by simp)]
  show _ ++ '\n' :: (_ ++ '\n' :: (_ ++ '\n' :: MT ss)) = _
  rw [h1, h2]
  simp [siteText]

/-- The main-section text starts with a non-whitespace character. -/
theorem MT_head (ss : List SiteSpec) :
    ∃ d S, MT ss = d :: S ∧ pyIsSpace d = false ∧ d ≠ '\n' := by
  cases ss with
  | nil => exact ⟨'g', _, MT_nil, by decide, by decide⟩
  | cons s ss' =>
    exact ⟨'s', ('e' :: 't' :: ' ' :: '/' :: 'a' :: ' ' :: 'a' :: 'n' :: 's' :: '=' ::
      (s.expr.data ++ '\n' :: 'g' :: 'o' :: 't' :: 'o' :: ' ' :: '%' :: 'a' :: 'n' :: 's' :: '%' :: '\n' :: ':' ::
        (renderNat s.ret).data)) ++ '\n' :: MT ss',
      by rw [MT_cons]; rfl, by decide, by decide⟩

/-- The last character of a block's text. -/
theorem blockText_getLast (b : Nat × String) : (blockText b).getLast? = some '%' := by
  have hsh : blockText b = ((':' :: (renderNat b.1).data) ++ ('\n' :: b.2.data)) ++
      ('\n' :: 's' :: 'e' :: 't' :: ' ' :: '/' :: 'a' :: ' ' :: 'a' :: 'n' :: 's' :: '=' :: '1' :: '\n' ::
        'g' :: 'o' :: 't' :: 'o' :: ' ' :: '%' :: 'a' :: 'n' :: 's' :: '%' ::[]) := by
    simp [blockText]
  rw [hsh, getLast?_append_right _ _ (by simp)]
  rfl

/-- The last character of a site's text is a digit. -/
theorem siteText_getLast (s : SiteSpec) :
    ∃ dg, (siteText s).getLast? = some dg ∧ pyIsDigit dg = true ∧ dg ≠ '\n' := by
  have hsh : siteText s = ('s' :: 'e' :: 't' :: ' ' :: '/' :: 'a' :: ' ' :: 'a' :: 'n' :: 's' :: '=' ::
      (s.expr.data ++ '\n' :: 'g' :: 'o' :: 't' :: 'o' :: ' ' :: '%' :: 'a' :: 'n' :: 's' :: '%' :: '\n' :: ':' ::[])) ++
      (renderNat s.ret).data := by
    simp [siteText]
  obtain ⟨dg, hdg⟩ := Option.isSome_iff_exists.mp
    (List.getLast?_isSome.mpr (renderNat_ne_nil s.ret))
  have hmem : dg ∈ (renderNat s.ret).data := getLast?_mem_self _ dg hdg
  have hfacts := digitChars_facts dg (renderNat_mem s.ret dg hmem)
  refine ⟨dg, ?_, hfacts.1, hfacts.2.2.1⟩
  rw [hsh, getLast?_append_right _ _ (renderNat_ne_nil s.ret)]
  exact hdg

/-! ## Locating the scrambler EOF marker in a synthetic input -/

/-- `dropWhile` stops before an appended element that fails the
predicate. -/
theorem dropWhile_append_last {α : Type} (p : α → Bool) (l : List α) (c : α)
    (hc : p c = false) :
    (l ++ [c]).dropWhile p = l.dropWhile p ++ [c] := by
  induction l with
  | nil => simp [List.dropWhile, hc]
  | cons a t ih =>
    by_cases ha : p a = true
    · simp [List.dropWhile_cons, ha, ih]
    · simp [List.dropWhile_cons, ha]

/-- Stripping a text whose head is not whitespace keeps the head. -/
theorem pyStripL_head_eq (c : Char) (t : List Char) (hns : pyIsSpace c = false) :
    pyStripL (c :: t) = c :: (t.reverse.dropWhile pyIsSpace).reverse := by
  unfold pyStripL
  rw [List.dropWhile_cons, if_neg (by simp [hns]), List.reverse_cons,
    dropWhile_append_last _ _ _ hns, List.reverse_append]
  rfl

/-- A line whose first character is not whitespace and lower-cases to
neither `g` nor `e` is not a scrambler EOF marker. -/
theorem nonmarker_of_head (l : String) (c : Char) (t : List Char) (hdata : l.data = c :: t)
    (hns : pyIsSpace c = false) (hg : c.toLower ≠ 'g') (he : c.toLower ≠ 'e') :
    pyLower (pyStrip l) ≠ "goto :eof" ∧ pyLower (pyStrip l) ≠ "exit /b 0" := by
  have hstrip : (pyStrip l).data = c :: (t.reverse.dropWhile pyIsSpace).reverse := by
    show pyStripL l.data = _
    rw [hdata]
    exact pyStripL_head_eq c t hns
  have hlowdata : (pyLower (pyStrip l)).data =
      c.toLower :: ((t.reverse.dropWhile pyIsSpace).reverse.map Char.toLower) := by
    show ((pyStrip l).data.map Char.toLower) = _
    rw [hstrip]
    rfl
  refine ⟨fun h => ?_, fun h => ?_⟩
  · have hd := congrArg String.data h
    rw [hlowdata] at hd
    have hh : (c.toLower :: ((t.reverse.dropWhile pyIsSpace).reverse.map Char.toLower)).head? =
        (("goto :eof" : String).data).head? := by rw [hd]
    simp only [List.head?_cons, Option.some.injEq] at hh
    exact hg (by simpa using hh)
  · have hd := congrArg String.data h
    rw [hlowdata] at hd
    have hh : (c.toLower :: ((t.reverse.dropWhile pyIsSpace).reverse.map Char.toLower)).head? =
        (("exit /b 0" : String).data).head? := by rw [hd]
    simp only [List.head?_cons, Option.some.injEq] at hh
    exact he (by simpa using hh)

/-- The EOF scan skips a non-marker line. -/
theorem findEofAux_skip (l : String) (rest : List String) (prevLine : Option String) (i : Nat)
    (hne1 : pyLower (pyStrip l) ≠ "goto :eof") (hne2 : pyLower (pyStrip l) ≠ "exit /b 0") :
    findEofAux (l :: rest) prevLine i = findEofAux rest (some l) (i + 1) := by
  simp [findEofAux, hne1, hne2]

/-- The EOF scan finds the marker right after the dispatch sites. -/
theorem findEofAux_sites (sites : List SiteSpec) :
    ∀ (rest : List String) (prev : Option String) (i : Nat),
      findEofAux ((sites.map siteLines).flatten ++ "goto %ans%" :: "goto :eof" :: rest) prev i
        = some (i + 3 * sites.length + 1) := by
  induction sites with
  | nil =>
    intro rest prev i
    have h1 : findEofAux ("goto %ans%" :: "goto :eof" :: rest) prev i
        = findEofAux ("goto :eof" :: rest) (some "goto %ans%") (i + 1) := rfl
    have h2 : findEofAux ("goto :eof" :: rest) (some "goto %ans%") (i + 1) = some (i + 1) := rfl
    simp only [List.map_nil, List.flatten_nil, List.nil_append, h1, h2]
    norm_num
  | cons s ss ih =>
    intro rest prev i
    have hd1 : (("set /a ans=" ++ s.expr) : String).data =
        's' :: ('e' :: 't' :: ' ' :: '/' :: 'a' :: ' ' :: 'a' :: 'n' :: 's' :: '=' ::s.expr.data) := by
      rw [String.data_append]; rfl
    have hd3 : ((":" ++ renderNat s.ret) : String).data = ':' :: (renderNat s.ret).data := by
      rw [String.data_append]; rfl
    have hm1 := nonmarker_of_head _ _ _ hd1 (by decide) (by decide) (by decide)
    have hm3 := nonmarker_of_head _ _ _ hd3 (by decide) (by decide) (by decide)
    have hflat : ((s :: ss).map siteLines).flatten ++ "goto %ans%" :: "goto :eof" :: rest =
        ("set /a ans=" ++ s.expr) :: "goto %ans%" :: (":" ++ renderNat s.ret) ::
          ((ss.map siteLines).flatten ++ "goto %ans%" :: "goto :eof" :: rest) := by
      simp [siteLines]
    rw [hflat, findEofAux_skip _ _ _ _ hm1.1 hm1.2]
    have hstep2 : ∀ (r : List String) (p : Option String) (j : Nat),
        findEofAux ("goto %ans%" :: r) p j = findEofAux r (some "goto %ans%") (j + 1) :=
      fun r p j => rfl
    rw [hstep2, findEofAux_skip _ _ _ _ hm3.1 hm3.2, ih]
    exact congrArg some (by simp [List.length_cons]; omega)

/-- Splitting the synthetic input at the EOF marker. -/
theorem synthInput_split (sites : List SiteSpec) (blocks : List (Nat × String)) :
    (synthInput sites blocks).take (3 * sites.length + 1) =
      (sites.map siteLines).flatten ++ ["goto %ans%"] ∧
    (synthInput sites blocks).drop (3 * sites.length + 2) = (blocks.map blockLines).flatten := by
  have hlen : (sites.map siteLines).flatten.length = 3 * sites.length := by
    induction sites with
    | nil => simp
    | cons s ss ih =>
      simp only [List.map_cons, List.flatten_cons, List.length_append, ih, siteLines]
      simp [List.length_cons]
      omega
  constructor
  · rw [show 3 * sites.length + 1 = (sites.map siteLines).flatten.length + 1 from by omega]
    show (((sites.map siteLines).flatten ++ ("goto %ans%" :: "goto :eof" :: [])) ++
      (blocks.map blockLines).flatten).take _ = _
    rw [List.append_assoc, List.take_append]
    rfl
  · rw [show 3 * sites.length + 2 = (sites.map siteLines).flatten.length + 2 from by omega]
    show (((sites.map siteLines).flatten ++ ("goto %ans%" :: "goto :eof" :: [])) ++
      (blocks.map blockLines).flatten).drop _ = _
    rw [List.append_assoc, List.drop_append]
    rfl

/-- The synthetic EOF index. -/
theorem findEofAux_synth (sites : List SiteSpec) (blocks : List (Nat × String)) :
    findEofAux (synthInput sites blocks) none 0 = some (3 * sites.length + 1) := by
  show findEofAux (((sites.map siteLines).flatten ++ ["goto %ans%", "goto :eof"]) ++
    (blocks.map blockLines).flatten) none 0 = _
  rw [List.append_assoc]
  show findEofAux ((sites.map siteLines).flatten ++
    "goto %ans%" :: "goto :eof" :: (blocks.map blockLines).flatten) none 0 = _
  rw [findEofAux_sites]
  exact congrArg some (by omega)

/-! ## The block-collection loop on a synthetic block table -/

/-- The block pattern starts with `^:`, so it cannot match empty
text. -/
theorem matchAt_block_none_nil (prev : Option Char) :
    matchAt RE_SCRAMBLED_BLOCK prev [] = none := by
  simp [matchAt, RE_SCRAMBLED_BLOCK, mat, rcat, starLoop]

/-- The block pattern is `^`-anchored, so it cannot match just after a
non-newline character. -/
theorem matchAt_block_bol_fail (dp : Char) (hdp : dp ≠ '\n') (s : List Char) :
    matchAt RE_SCRAMBLED_BLOCK (some dp) s = none := by
  simp [matchAt, RE_SCRAMBLED_BLOCK, mat, rcat, hdp]

/-- The jump pattern is `^`-anchored, so it cannot match just after a
non-newline character. -/
theorem matchAt_jump_bol_fail (dp : Char) (hdp : dp ≠ '\n') (s : List Char) :
    matchAt RE_SCRAMBLE_JUMP (some dp) s = none := by
  simp [matchAt, RE_SCRAMBLE_JUMP, mat, rcat, hdp]

/-- `findSplit` advances one character past a failed match position. -/
theorem findSplit_cons_step (r : Regex) (prev : Option Char) (c : Char) (rest : List Char)
    (h : matchAt r prev (c :: rest) = none) :
    findSplit r prev (c :: rest) =
      (findSplit r (some c) rest).map (fun x => (c :: x.1, x.2.1, x.2.2)) := by
  simp [findSplit, h]

/-- `findSplit` at an immediately matching position. -/
theorem findSplit_at_match (r : Regex) (prev : Option Char) (s : List Char)
    (cs : Caps) (rest : List Char) (h : matchAt r prev s = some (cs, rest)) :
    findSplit r prev s = some ([], cs, rest) := by
  cases s with
  | nil => simp [findSplit, h]
  | cons c rest' => simp [findSplit, h]

/-- The previous-character bookkeeping of `finditer` lands on the last
character of the consumed block. -/
theorem prevOfMatch_eq (prev : Option Char) (gap BODY rest : List Char) (c : Char)
    (hB : BODY.getLast? = some c) :
    prevOfMatch prev (gap ++ (BODY ++ rest)) gap rest = some c := by
  unfold prevOfMatch
  rw [List.drop_left]
  rw [show (gap ++ (BODY ++ rest)).length - gap.length - rest.length = BODY.length from by
    simp only [List.length_append]; omega]
  simp only [List.take_left, hB]
  rfl

/-- The block table starts with a colon. -/
theorem TB_head (b : Nat × String) (bs : List (Nat × String)) :
    ∃ S, TB (b :: bs) = ':' :: S :=
  ⟨((renderNat b.1).data ++ '\n' ::
      (b.2.data ++ '\n' :: 's' :: 'e' :: 't' :: ' ' :: '/' :: 'a' :: ' ' :: 'a' :: 'n' :: 's' :: '=' :: '1' :: '\n' ::
        'g' :: 'o' :: 't' :: 'o' :: ' ' :: '%' :: 'a' :: 'n' :: 's' :: '%' ::[])) ++ leadNL bs,
    by rw [TB_cons]; rfl⟩

/-- The code lines recovered from a well-formed statement body. -/
theorem codeLines_stmt (st : String) (h : WfStmt st) :
    (pySplitlines (pyStrip st)).filter (fun ln => pyStrip ln ≠ "") = [st] := by
  obtain ⟨hne, hstrip, hnl⟩ := h
  have hdne : st.data ≠ [] := fun hh => hne (String.ext hh)
  rw [hstrip]
  unfold pySplitlines
  rw [splitNL_single st.data hdne hnl]
  simp only [List.map_cons, List.map_nil]
  have heta : String.mk st.data = st := rfl
  rw [heta]
  simp [hstrip, hne]

/-- One step of the block-collection loop over a synthetic block
table whose text begins at a `finditer` continuation position. -/
theorem collectBlocks_cont (bs : List (Nat × String)) (hwf : ∀ b ∈ bs, WfStmt b.2) :
    ∀ (fuel : Nat) (m : List (String × String)) (dp : Char), bs.length < fuel → dp ≠ '\n' →
      collectBlocksAux fuel (some dp) (leadNL bs) m =
        bs.foldl (fun m b => dinsert m (renderNat b.1) b.2) m := by
  induction bs with
  | nil =>
    intro fuel m dp hf _
    obtain ⟨f, rfl⟩ : ∃ f, fuel = f + 1 := ⟨fuel - 1, by omega⟩
    show collectBlocksAux (f + 1) (some dp) [] m = m
    simp [collectBlocksAux, findSplit, matchAt_block_none_nil]
  | cons b bs' ih =>
    intro fuel m dp hf hdp
    obtain ⟨f, rfl⟩ : ∃ f, fuel = f + 1 := ⟨fuel - 1, by omega⟩
    have hwfb : WfStmt b.2 := hwf b (by simp)
    obtain ⟨hbne, hbstrip, hbnl⟩ := hwfb
    obtain ⟨lc, lcs, hld⟩ : ∃ lc lcs, (renderNat b.1).data = lc :: lcs := by
      cases hld : (renderNat b.1).data with
      | nil => exact absurd hld (renderNat_ne_nil b.1)
      | cons a t => exact ⟨a, t, rfl⟩
    obtain ⟨sc, s', hst⟩ : ∃ sc s', b.2.data = sc :: s' := by
      cases hst : b.2.data with
      | nil => exact absurd (String.ext hst) hbne
      | cons a t => exact ⟨a, t, rfl⟩
    have hlc : pyIsDigit lc = true :=
      (digitChars_facts lc (renderNat_mem b.1 lc (by rw [hld]; simp))).1
    have hlcs : ∀ x ∈ lcs, pyIsDigit x = true := fun x hx =>
      (digitChars_facts x (renderNat_mem b.1 x (by rw [hld]; exact List.mem_cons_of_mem _ hx))).1
    have hsc : pyIsSpace sc = false := by
      apply pyStripL_head b.2.data
      have : pyStripL b.2.data = b.2.data := congrArg String.data hbstrip
      rw [this, hst]
      rfl
    have hsnl : '\n' ∉ sc :: s' := by
      rw [← hst]
      exact hbnl
    have hTB : TB (b :: bs') = ':' :: ((lc :: lcs) ++ '\n' ::
        ((sc :: s') ++ '\n' :: 's' :: 'e' :: 't' :: ' ' :: '/' :: 'a' :: ' ' :: 'a' :: 'n' :: 's' :: '=' :: '1' :: '\n' ::
          'g' :: 'o' :: 't' :: 'o' :: ' ' :: '%' :: 'a' :: 'n' :: 's' :: '%' ::leadNL bs')) := by
      rw [TB_cons]
      unfold blockText
      rw [hld, hst]
      simp [List.append_assoc]
    have hrest : leadNL bs' = [] ∨
        ∃ d S, leadNL bs' = '\n' :: d :: S ∧ pyIsSpace d = false := by
      cases bs' with
      | nil => exact Or.inl (by simp [leadNL])
      | cons x xs =>
        obtain ⟨S, hS⟩ := TB_head x xs
        exact Or.inr ⟨':', S, by simp [leadNL, hS], by decide⟩
    have hmatch := matchAt_block_site lc lcs sc s' (leadNL bs') (some '\n')
      (Or.inr rfl) hlc hlcs hsc hsnl hrest
    rw [← hTB] at hmatch
    have hlead : leadNL (b :: bs') = '\n' :: TB (b :: bs') := by simp [leadNL]
    have hsplit : findSplit RE_SCRAMBLED_BLOCK (some dp) ('\n' :: TB (b :: bs')) =
        some (['\n'], [(2, String.mk (sc :: s')), (1, String.mk (lc :: lcs))], leadNL bs') := by
      rw [findSplit_cons_step _ _ _ _ (matchAt_block_bol_fail dp hdp _),
        findSplit_at_match _ _ _ _ _ hmatch]
      rfl
    have hprevm : prevOfMatch (some dp) ('\n' :: TB (b :: bs')) ['\n'] (leadNL bs') =
        some '%' := by
      have hsh : '\n' :: TB (b :: bs') = ['\n'] ++ (blockText b ++ leadNL bs') := by
        rw [TB_cons]
        rfl
      rw [hsh]
      exact prevOfMatch_eq _ _ _ _ _ (blockText_getLast b)
    have hlabel : String.mk (lc :: lcs) = renderNat b.1 := by rw [← hld]
    have hstmt : String.mk (sc :: s') = b.2 := by rw [← hst]
    have hclb : (pySplitlines (pyStrip b.2)).filter
        (fun ln => pyStrip ln ≠ "") = [b.2] := codeLines_stmt b.2 ⟨hbne, hbstrip, hbnl⟩
    rw [hlead]
    simp only [collectBlocksAux, hsplit, hprevm, hlabel, hstmt]
    rw [show (capGet [(2, b.2), (1, renderNat b.1)] 2).getD "" = b.2 from rfl,
      show (capGet [(2, b.2), (1, renderNat b.1)] 1).getD "" = renderNat b.1 from rfl, hclb]
    simp only []
    rw [hbstrip]
    rw [ih (fun x hx => hwf x (List.mem_cons_of_mem _ hx)) f _ '%'
      (by simp at hf; omega) (by decide)]
    rfl

/-- The block-collection loop recovers the label-to-statement fold over
a synthetic block table. -/
theorem collectBlocks_top (b : Nat × String) (bs : List (Nat × String))
    (hwf : ∀ x ∈ b :: bs, WfStmt x.2) (fuel : Nat) (hf : (b :: bs).length < fuel + 1) :
    collectBlocksAux (fuel + 1) none (TB (b :: bs)) [] =
      (b :: bs).foldl (fun m x => dinsert m (renderNat x.1) x.2) [] := by
  have hwfb : WfStmt b.2 := hwf b (by simp)
  obtain ⟨hbne, hbstrip, hbnl⟩ := hwfb
  obtain ⟨lc, lcs, hld⟩ : ∃ lc lcs, (renderNat b.1).data = lc :: lcs := by
    cases hld : (renderNat b.1).data with
    | nil => exact absurd hld (renderNat_ne_nil b.1)
    | cons a t => exact ⟨a, t, rfl⟩
  obtain ⟨sc, s', hst⟩ : ∃ sc s', b.2.data = sc :: s' := by
    cases hst : b.2.data with
    | nil => exact absurd (String.ext hst) hbne
    | cons a t => exact ⟨a, t, rfl⟩
  have hlc : pyIsDigit lc = true :=
    (digitChars_facts lc (renderNat_mem b.1 lc (by rw [hld]; simp))).1
  have hlcs : ∀ x ∈ lcs, pyIsDigit x = true := fun x hx =>
    (digitChars_facts x (renderNat_mem b.1 x (by rw [hld]; exact List.mem_cons_of_mem _ hx))).1
  have hsc : pyIsSpace sc = false := by
    apply pyStripL_head b.2.data
    have : pyStripL b.2.data = b.2.data := congrArg String.data hbstrip
    rw [this, hst]
    rfl
  have hsnl : '\n' ∉ sc :: s' := by
    rw [← hst]
    exact hbnl
  have hTB : TB (b :: bs) = ':' :: ((lc :: lcs) ++ '\n' ::
      ((sc :: s') ++ '\n' :: 's' :: 'e' :: 't' :: ' ' :: '/' :: 'a' :: ' ' :: 'a' :: 'n' :: 's' :: '=' :: '1' :: '\n' ::
        'g' :: 'o' :: 't' :: 'o' :: ' ' :: '%' :: 'a' :: 'n' :: 's' :: '%' ::leadNL bs)) := by
    rw [TB_cons]
    unfold blockText
    rw [hld, hst]
    simp [List.append_assoc]
  have hrest : leadNL bs = [] ∨
      ∃ d S, leadNL bs = '\n' :: d :: S ∧ pyIsSpace d = false := by
    cases bs with
    | nil => exact Or.inl (by simp [leadNL])
    | cons x xs =>
      obtain ⟨S, hS⟩ := TB_head x xs
      exact Or.inr ⟨':', S, by simp [leadNL, hS], by decide⟩
  have hmatch := matchAt_block_site lc lcs sc s' (leadNL bs) none
    (Or.inl rfl) hlc hlcs hsc hsnl hrest
  rw [← hTB] at hmatch
  have hsplit : findSplit RE_SCRAMBLED_BLOCK none (TB (b :: bs)) =
      some ([], [(2, String.mk (sc :: s')), (1, String.mk (lc :: lcs))], leadNL bs) :=
    findSplit_at_match _ _ _ _ _ hmatch
  have hprevm : prevOfMatch none (TB (b :: bs)) [] (leadNL bs) = some '%' := by
    have hsh : TB (b :: bs) = [] ++ (blockText b ++ leadNL bs) := by
      rw [TB_cons]
      rfl
    rw [hsh]
    exact prevOfMatch_eq _ _ _ _ _ (blockText_getLast b)
  have hlabel : String.mk (lc :: lcs) = renderNat b.1 := by rw [← hld]
  have hstmt : String.mk (sc :: s') = b.2 := by rw [← hst]
  have hclb : (pySplitlines (pyStrip b.2)).filter
      (fun ln => pyStrip ln ≠ "") = [b.2] := codeLines_stmt b.2 ⟨hbne, hbstrip, hbnl⟩
  simp only [collectBlocksAux, hsplit, hprevm, hlabel, hstmt]
  rw [show (capGet [(2, b.2), (1, renderNat b.1)] 2).getD "" = b.2 from rfl,
    show (capGet [(2, b.2), (1, renderNat b.1)] 1).getD "" = renderNat b.1 from rfl, hclb]
  simp only []
  rw [hbstrip]
  rw [collectBlocks_cont bs (fun x hx => hwf x (List.mem_cons_of_mem _ hx)) fuel _ '%'
    (by simp at hf; omega) (by decide)]
  rfl

/-! ## The jump-rewriting loop on a synthetic main section -/

/-- No jump-site match exists in the trailing dispatcher text. -/
theorem findSplit_jump_none_tail (dp : Char) (hdp : dp ≠ '\n') :
    findSplit RE_SCRAMBLE_JUMP (some dp) ('\n' :: MT []) = none := by
  rw [show MT [] = ('g' :: 'o' :: 't' :: 'o' :: ' ' :: '%' :: 'a' :: 'n' :: 's' :: '%' ::[]) from MT_nil]
  rw [findSplit_cons_step _ _ _ _ (matchAt_jump_bol_fail dp hdp _)]
  rw [show findSplit RE_SCRAMBLE_JUMP (some '\n')
    ('g' :: 'o' :: 't' :: 'o' :: ' ' :: '%' :: 'a' :: 'n' :: 's' :: '%' ::[]) = none from by decide]
  rfl

/-- The facts about a well-formed dispatch expression needed by the
jump matcher. -/
theorem wfExpr_shape (e : String) (h : WfExpr e) :
    ∃ ec e', e.data = ec :: e' ∧ pyIsSpace ec = false ∧ '\n' ∉ ec :: e' ∧
      (∀ x, (ec :: e').getLast? = some x → pyIsSpace x = false) := by
  obtain ⟨hne, hstrip, hnl⟩ := h
  obtain ⟨ec, e', hdata⟩ : ∃ ec e', e.data = ec :: e' := by
    cases hdata : e.data with
    | nil => exact absurd (String.ext hdata) hne
    | cons a t => exact ⟨a, t, rfl⟩
  have hsid : pyStripL e.data = e.data := congrArg String.data hstrip
  refine ⟨ec, e', hdata, ?_, hdata ▸ hnl, ?_⟩
  · apply pyStripL_head e.data
    rw [hsid, hdata]
    rfl
  · intro x hx
    apply pyStripL_last e.data
    rw [hsid, hdata]
    exact hx

/-- The jump-rewriting loop on a synthetic main section, starting at a
`finditer` continuation position. -/
theorem rebuild_cont (lmap : List (String × String)) (ss : List SiteSpec)
    (hwf : ∀ s ∈ ss, WfExpr s.expr) :
    ∀ (fuel : Nat) (dp : Char), ss.length < fuel → dp ≠ '\n' →
      rebuildJumps lmap fuel (some dp) ('\n' :: MT ss) = sitePieces lmap ss false := by
  induction ss with
  | nil =>
    intro fuel dp hf hdp
    obtain ⟨f, rfl⟩ : ∃ f, fuel = f + 1 := ⟨fuel - 1, by omega⟩
    simp only [rebuildJumps, findSplit_jump_none_tail dp hdp]
    rw [show sitePieces lmap [] false = ["\ngoto %ans%"] from rfl]
    decide
  | cons s ss' ih =>
    intro fuel dp hf hdp
    obtain ⟨f, rfl⟩ : ∃ f, fuel = f + 1 := ⟨fuel - 1, by omega⟩
    have hwfs := hwf s (by simp)
    obtain ⟨ec, e', hedata, hec, henl, helast⟩ := wfExpr_shape s.expr hwfs
    obtain ⟨rc, rcs, hrd⟩ : ∃ rc rcs, (renderNat s.ret).data = rc :: rcs := by
      cases hrd : (renderNat s.ret).data with
      | nil => exact absurd hrd (renderNat_ne_nil s.ret)
      | cons a t => exact ⟨a, t, rfl⟩
    have hrc : pyIsDigit rc = true :=
      (digitChars_facts rc (renderNat_mem s.ret rc (by rw [hrd]; simp))).1
    have hrcs : ∀ x ∈ rcs, pyIsDigit x = true := fun x hx =>
      (digitChars_facts x (renderNat_mem s.ret x
        (by rw [hrd]; exact List.mem_cons_of_mem _ hx))).1
    obtain ⟨d, S, hdS, hd, hdnl⟩ := MT_head ss'
    have hMT : MT (s :: ss') = 's' :: 'e' :: 't' :: ' ' :: '/' :: 'a' :: ' ' :: 'a' :: 'n' :: 's' :: '=' ::
        ((ec :: e') ++ '\n' :: 'g' :: 'o' :: 't' :: 'o' :: ' ' :: '%' :: 'a' :: 'n' :: 's' :: '%' :: '\n' :: ':' ::
          ((rc :: rcs) ++ '\n' :: d :: S)) := by
      rw [MT_cons]
      unfold siteText
      rw [hedata, hrd, hdS]
      simp [List.append_assoc]
    have hmatch := matchAt_jump_site ec e' rc rcs d S (some '\n')
      (Or.inr rfl) hec henl helast hrc hrcs hd
    rw [← hMT] at hmatch
    rw [show ('\n' :: d :: S) = '\n' :: MT ss' from by rw [hdS]] at hmatch
    have hsplit : findSplit RE_SCRAMBLE_JUMP (some dp) ('\n' :: MT (s :: ss')) =
        some (['\n'], [(2, String.mk (rc :: rcs)), (1, String.mk (ec :: e'))],
          '\n' :: MT ss') := by
      rw [findSplit_cons_step _ _ _ _ (matchAt_jump_bol_fail dp hdp _),
        findSplit_at_match _ _ _ _ _ hmatch]
      rfl
    obtain ⟨dg, hdg, hdgdig, hdgnl⟩ := siteText_getLast s
    have hprevm : prevOfMatch (some dp) ('\n' :: MT (s :: ss')) ['\n'] ('\n' :: MT ss') =
        some dg := by
      have hsh : '\n' :: MT (s :: ss') = ['\n'] ++ (siteText s ++ ('\n' :: MT ss')) := by
        rw [MT_cons]
        rfl
      rw [hsh]
      exact prevOfMatch_eq _ _ _ _ _ hdg
    have hexpr : String.mk (ec :: e') = s.expr := by rw [← hedata]
    have hstripe : pyStrip s.expr = s.expr := hwfs.2.1
    simp only [rebuildJumps, hsplit, hprevm]
    rw [show (capGet [(2, String.mk (rc :: rcs)), (1, String.mk (ec :: e'))] 1).getD "" =
      String.mk (ec :: e') from rfl, hexpr, hstripe]
    rw [ih (fun x hx => hwf x (List.mem_cons_of_mem _ hx)) f dg
      (by simp at hf; omega) hdgnl]
    show (match (safe_eval_batch_math s.expr).map strOfInt with
      | some t =>
        match alistGet lmap t with
        | some code => (String.mk ['\n']) :: code :: sitePieces lmap ss' false
        | none => (String.mk ['\n']) :: sitePieces lmap ss' false
      | none => (String.mk ['\n']) :: sitePieces lmap ss' false) = _
    have hnlstr : String.mk ['\n'] = "\n" := rfl
    show _ = (((if false = true then "" else "\n") :: siteOut lmap s) ++
      sitePieces lmap ss' false)
    rw [if_neg (by decide)]
    unfold siteOut
    cases hX : (safe_eval_batch_math s.expr).map strOfInt with
    | none => simp [hnlstr]
    | some t =>
      cases hY : alistGet lmap t with
      | none => simp [hY, hnlstr]
      | some code => simp [hY, hnlstr]

/-- The jump-rewriting loop on a synthetic main section from the
start of the text. -/
theorem rebuild_top (lmap : List (String × String)) (sites : List SiteSpec)
    (hwf : ∀ s ∈ sites, WfExpr s.expr) (fuel : Nat) (hf : sites.length < fuel) :
    rebuildJumps lmap fuel none (MT sites) = sitePieces lmap sites true := by
  cases sites with
  | nil =>
    obtain ⟨f, rfl⟩ : ∃ f, fuel = f + 1 := ⟨fuel - 1, by omega⟩
    simp only [rebuildJumps,
      show findSplit RE_SCRAMBLE_JUMP none (MT []) = none from by decide]
    rw [show sitePieces lmap [] true = ["goto %ans%"] from rfl]
    decide
  | cons s ss' =>
    obtain ⟨f, rfl⟩ : ∃ f, fuel = f + 1 := ⟨fuel - 1, by omega⟩
    have hwfs := hwf s (by simp)
    obtain ⟨ec, e', hedata, hec, henl, helast⟩ := wfExpr_shape s.expr hwfs
    obtain ⟨rc, rcs, hrd⟩ : ∃ rc rcs, (renderNat s.ret).data = rc :: rcs := by
      cases hrd : (renderNat s.ret).data with
      | nil => exact absurd hrd (renderNat_ne_nil s.ret)
      | cons a t => exact ⟨a, t, rfl⟩
    have hrc : pyIsDigit rc = true :=
      (digitChars_facts rc (renderNat_mem s.ret rc (by rw [hrd]; simp))).1
    have hrcs : ∀ x ∈ rcs, pyIsDigit x = true := fun x hx =>
      (digitChars_facts x (renderNat_mem s.ret x
        (by rw [hrd]; exact List.mem_cons_of_mem _ hx))).1
    obtain ⟨d, S, hdS, hd, hdnl⟩ := MT_head ss'
    have hMT : MT (s :: ss') = 's' :: 'e' :: 't' :: ' ' :: '/' :: 'a' :: ' ' :: 'a' :: 'n' :: 's' :: '=' ::
        ((ec :: e') ++ '\n' :: 'g' :: 'o' :: 't' :: 'o' :: ' ' :: '%' :: 'a' :: 'n' :: 's' :: '%' :: '\n' :: ':' ::
          ((rc :: rcs) ++ '\n' :: d :: S)) := by
      rw [MT_cons]
      unfold siteText
      rw [hedata, hrd, hdS]
      simp [List.append_assoc]
    have hmatch := matchAt_jump_site ec e' rc rcs d S none
      (Or.inl rfl) hec henl helast hrc hrcs hd
    rw [← hMT] at hmatch
    rw [show ('\n' :: d :: S) = '\n' :: MT ss' from by rw [hdS]] at hmatch
    have hsplit : findSplit RE_SCRAMBLE_JUMP none (MT (s :: ss')) =
        some ([], [(2, String.mk (rc :: rcs)), (1, String.mk (ec :: e'))],
          '\n' :: MT ss') :=
      findSplit_at_match _ _ _ _ _ hmatch
    obtain ⟨dg, hdg, hdgdig, hdgnl⟩ := siteText_getLast s
    have hprevm : prevOfMatch none (MT (s :: ss')) [] ('\n' :: MT ss') = some dg := by
      have hsh : MT (s :: ss') = [] ++ (siteText s ++ ('\n' :: MT ss')) := by
        rw [MT_cons]
        rfl
      rw [hsh]
      exact prevOfMatch_eq _ _ _ _ _ hdg
    have hexpr : String.mk (ec :: e') = s.expr := by rw [← hedata]
    have hstripe : pyStrip s.expr = s.expr := hwfs.2.1
    simp only [rebuildJumps, hsplit, hprevm]
    rw [show (capGet [(2, String.mk (rc :: rcs)), (1, String.mk (ec :: e'))] 1).getD "" =
      String.mk (ec :: e') from rfl, hexpr, hstripe]
    rw [rebuild_cont lmap ss' (fun x hx => hwf x (List.mem_cons_of_mem _ hx)) f dg
      (by simp at hf; omega) hdgnl]
    have hnlstr : String.mk ([] : List Char) = "" := rfl
    show _ = (((if true = true then "" else "\n") :: siteOut lmap s) ++
      sitePieces lmap ss' false)
    rw [if_pos rfl]
    unfold siteOut
    cases hX : (safe_eval_batch_math s.expr).map strOfInt with
    | none => simp [hnlstr]
    | some t =>
      cases hY : alistGet lmap t with
      | none => simp [hY, hnlstr]
      | some code => simp [hY, hnlstr]

/-! ## Assembling the scramble reverser on a synthetic input -/

/-- With pairwise-distinct labels, the dict-insertion fold of the
block-collection loop is the plain label-to-statement map. -/
theorem foldl_dinsert_eq_map :
    ∀ (bs : List (Nat × String)) (m : List (String × String)),
      (∀ b ∈ bs, ∀ p ∈ m, p.1 ≠ renderNat b.1) →
      (bs.map (fun b => renderNat b.1)).Nodup →
      bs.foldl (fun m b => dinsert m (renderNat b.1) b.2) m = m ++ blockMapOf bs := by
  intro bs
  induction bs with
  | nil => intro m _ _; simp [blockMapOf]
  | cons b bs' ih =>
    intro m hdisj hnd
    have hfind : (m.find? (·.1 = renderNat b.1)) = none := by
      rw [List.find?_eq_none]
      intro p hp
      simp [hdisj b (by simp) p hp]
    have hdin : dinsert m (renderNat b.1) b.2 = m ++ [(renderNat b.1, b.2)] := by
      unfold dinsert
      rw [hfind]
      simp
    have hnd' : (renderNat b.1 ∉ bs'.map (fun x => renderNat x.1)) ∧
        (bs'.map (fun x => renderNat x.1)).Nodup := by
      rw [List.map_cons] at hnd
      exact List.nodup_cons.mp hnd
    have hdisj' : ∀ x ∈ bs', ∀ p ∈ m ++ [(renderNat b.1, b.2)], p.1 ≠ renderNat x.1 := by
      intro x hx p hp
      rcases List.mem_append.mp hp with h | h
      · exact hdisj x (List.mem_cons_of_mem _ hx) p h
      · have hp1 : p.1 = renderNat b.1 := by
          simp at h
          rw [h]
        rw [hp1]
        intro heq
        exact hnd'.1 (heq ▸ List.mem_map_of_mem _ hx)
    simp only [List.foldl_cons]
    rw [hdin, ih (m ++ [(renderNat b.1, b.2)]) hdisj' hnd'.2]
    simp [blockMapOf]

/-- The block table's text is at least as long as the block list. -/
theorem TB_length_ge (bs : List (Nat × String)) : bs.length ≤ (TB bs).length := by
  induction bs with
  | nil => simp [TB]
  | cons b bs' ih =>
    rw [TB_cons]
    cases bs' with
    | nil => simp [blockText, leadNL]
    | cons x xs =>
      have hlead : leadNL (x :: xs) = '\n' :: TB (x :: xs) := by simp [leadNL]
      simp only [List.length_append, hlead, List.length_cons, blockText] at *
      omega

/-- The main-section text is at least as long as the site list. -/
theorem MT_length_ge (ss : List SiteSpec) : ss.length ≤ (MT ss).length := by
  induction ss with
  | nil => simp
  | cons s ss' ih =>
    rw [MT_cons]
    simp only [List.length_append, List.length_cons]
    omega

/-- The scramble reverser on a synthetic input: the main section is
re-assembled from the per-site pieces, with the label map recovered
from the block table. -/
theorem reverse_scrambling_synth (sites : List SiteSpec) (blocks : List (Nat × String))
    (hwfe : ∀ s ∈ sites, WfExpr s.expr)
    (hwfb : ∀ b ∈ blocks, WfStmt b.2)
    (hnd : (blocks.map (fun b => renderNat b.1)).Nodup)
    (hbne : blocks ≠ []) :
    reverse_scrambling (synthInput sites blocks) =
      (splitNL (joinNL (sitePieces (blockMapOf blocks) sites true))).map (⟨·⟩) := by
  obtain ⟨b, bs, rfl⟩ : ∃ b bs, blocks = b :: bs := by
    cases blocks with
    | nil => exact absurd rfl hbne
    | cons b bs => exact ⟨b, bs, rfl⟩
  obtain ⟨htake, hdrop⟩ := synthInput_split sites (b :: bs)
  unfold reverse_scrambling
  rw [findEofAux_synth]
  simp only []
  rw [show 3 * sites.length + 1 + 1 = 3 * sites.length + 2 from rfl, hdrop, htake]
  have hscr : joinNL ((List.map blockLines (b :: bs)).flatten) = TB (b :: bs) := rfl
  rw [hscr]
  have hcollect : collectBlocksAux ((TB (b :: bs)).length + 1) none (TB (b :: bs)) [] =
      blockMapOf (b :: bs) := by
    rw [collectBlocks_top b bs hwfb ((TB (b :: bs)).length)
      (by have := TB_length_ge (b :: bs); omega)]
    rw [foldl_dinsert_eq_map (b :: bs) [] (by intro x _ p hp; simp at hp) hnd]
    simp
  rw [hcollect]
  have hmapne : blockMapOf (b :: bs) ≠ [] := by simp [blockMapOf]
  rw [if_neg hmapne]
  have hmain : joinNL ((sites.map siteLines).flatten ++ ["goto %ans%"]) = MT sites := rfl
  rw [hmain]
  rw [rebuild_top (blockMapOf (b :: bs)) sites hwfe ((MT sites).length + 1)
    (by have := MT_length_ge sites; omega)]

/-- `splitNL` peels a leading newline. -/
theorem splitNL_nl (y : List Char) : splitNL ('\n' :: y) = [] :: splitNL y := by
  rw [splitNL_cons, if_pos rfl]

/-- The piece list is never empty. -/
theorem sitePieces_ne_nil (lmap : List (String × String)) (sites : List SiteSpec)
    (first : Bool) : sitePieces lmap sites first ≠ [] := by
  cases sites with
  | nil => exact fun h => List.noConfusion h
  | cons a l => exact fun h => List.noConfusion h

/-- A successful association-list lookup returns a stored value. -/
theorem alistGet_mem (m : List (String × String)) (k v : String)
    (h : alistGet m k = some v) : ∃ p ∈ m, p.2 = v := by
  unfold alistGet at h
  cases hf : m.find? (·.1 = k) with
  | none => rw [hf] at h; simp at h
  | some p =>
    rw [hf] at h
    simp at h
    exact ⟨p, List.mem_of_find?_eq_some hf, h⟩

/-- A site's contribution is empty or a single well-formed recovered
statement. -/
theorem siteOut_cases (lmap : List (String × String))
    (hv : ∀ p ∈ lmap, p.2 ≠ "" ∧ '\n' ∉ p.2.data) (s : SiteSpec) :
    siteOut lmap s = [] ∨
      ∃ code, siteOut lmap s = [code] ∧ code ≠ "" ∧ '\n' ∉ code.data := by
  unfold siteOut
  cases hX : (safe_eval_batch_math s.expr).map strOfInt with
  | none => exact Or.inl rfl
  | some t =>
    cases hY : alistGet lmap t with
    | none =>
      left
      simp [hY]
    | some code =>
      obtain ⟨p, hp, hpv⟩ := alistGet_mem lmap t code hY
      right
      exact ⟨code, by simp [hY], hpv ▸ (hv p hp).1, hpv ▸ (hv p hp).2⟩

/-- Splitting the joined piece list yields the reconstructed output
lines. -/
theorem splitJoin_sitePieces (lmap : List (String × String))
    (hv : ∀ p ∈ lmap, p.2 ≠ "" ∧ '\n' ∉ p.2.data) :
    ∀ (sites : List SiteSpec) (first : Bool),
      (splitNL (joinNL (sitePieces lmap sites first))).map (⟨·⟩) =
        siteLinesOut lmap sites first := by
  intro sites
  induction sites with
  | nil =>
    intro first
    cases first
    · rw [show sitePieces lmap [] false = ["\ngoto %ans%"] from rfl,
        show siteLinesOut lmap [] false = ["", "goto %ans%"] from rfl]
      decide
    · rw [show sitePieces lmap [] true = ["goto %ans%"] from rfl,
        show siteLinesOut lmap [] true = ["goto %ans%"] from rfl]
      decide
  | cons s ss ih =>
    intro first
    have hPS := sitePieces_ne_nil lmap ss false
    have hemp : (⟨[]⟩ : String) = "" := rfl
    rcases siteOut_cases lmap hv s with hout | ⟨code, hout, hcne, hcnl⟩
    · have hsp : sitePieces lmap (s :: ss) first =
          (if first = true then "" else "\n") :: sitePieces lmap ss false := by
        show ((if first then "" else "\n") :: siteOut lmap s) ++ _ = _
        rw [hout]
        rfl
      cases first
      · rw [hsp, if_neg (by decide)]
        rw [joinNL_cons_ne _ _ hPS]
        simp only [show ("\n" : String).data = ['\n'] from rfl, List.singleton_append]
        rw [splitNL_nl, splitNL_nl]
        rw [show siteLinesOut lmap (s :: ss) false =
          "" :: "" :: (siteOut lmap s ++ siteLinesOut lmap ss false) from rfl, hout]
        simp only [List.map_cons, hemp, List.nil_append]
        rw [ih false]
      · rw [hsp, if_pos rfl]
        rw [joinNL_cons_ne _ _ hPS]
        simp only [show ("" : String).data = [] from rfl, List.nil_append]
        rw [splitNL_nl]
        rw [show siteLinesOut lmap (s :: ss) true =
          "" :: (siteOut lmap s ++ siteLinesOut lmap ss false) from rfl, hout]
        simp only [List.map_cons, hemp, List.nil_append]
        rw [ih false]
    · have hsp : sitePieces lmap (s :: ss) first =
          (if first = true then "" else "\n") :: code :: sitePieces lmap ss false := by
        show ((if first then "" else "\n") :: siteOut lmap s) ++ _ = _
        rw [hout]
        rfl
      have heta : String.mk code.data = code := rfl
      cases first
      · rw [hsp, if_neg (by decide)]
        rw [joinNL_cons_ne _ _ (by exact fun h => List.noConfusion h),
          joinNL_cons_ne _ _ hPS]
        simp only [show ("\n" : String).data = ['\n'] from rfl, List.singleton_append]
        rw [splitNL_nl, splitNL_nl, splitNL_append_nl code.data hcnl]
        rw [show siteLinesOut lmap (s :: ss) false =
          "" :: "" :: (siteOut lmap s ++ siteLinesOut lmap ss false) from rfl, hout]
        simp only [List.map_cons, hemp, heta, List.cons_append, List.nil_append]
        rw [ih false]
      · rw [hsp, if_pos rfl]
        rw [joinNL_cons_ne _ _ (by exact fun h => List.noConfusion h),
          joinNL_cons_ne _ _ hPS]
        simp only [show ("" : String).data = [] from rfl, List.nil_append]
        rw [splitNL_nl, splitNL_append_nl code.data hcnl]
        rw [show siteLinesOut lmap (s :: ss) true =
          "" :: (siteOut lmap s ++ siteLinesOut lmap ss false) from rfl, hout]
        simp only [List.map_cons, hemp, heta, List.cons_append, List.nil_append]
        rw [ih false]

/-- The reconstruction of a synthetic input, line for line. -/
theorem reverse_scrambling_synth_lines (sites : List SiteSpec) (blocks : List (Nat × String))
    (hwfe : ∀ s ∈ sites, WfExpr s.expr)
    (hwfb : ∀ b ∈ blocks, WfStmt b.2)
    (hnd : (blocks.map (fun b => renderNat b.1)).Nodup)
    (hbne : blocks ≠ []) :
    reverse_scrambling (synthInput sites blocks) =
      siteLinesOut (blockMapOf blocks) sites true := by
  rw [reverse_scrambling_synth sites blocks hwfe hwfb hnd hbne]
  apply splitJoin_sitePieces
  intro p hp
  obtain ⟨b, hb, rfl⟩ := List.mem_map.mp hp
  exact ⟨(hwfb b hb).1, (hwfb b hb).2.2⟩

/-- Every line a site contributes is a stored statement of the map. -/
theorem siteOut_subset (lmap : List (String × String)) (s : SiteSpec) (x : String)
    (hx : x ∈ siteOut lmap s) : ∃ p ∈ lmap, x = p.2 := by
  unfold siteOut at hx
  cases hX : (safe_eval_batch_math s.expr).map strOfInt with
  | none => simp [hX] at hx
  | some t =>
    cases hY : alistGet lmap t with
    | none => simp [hX, hY] at hx
    | some code =>
      simp [hX, hY] at hx
      obtain ⟨p, hp, hpv⟩ := alistGet_mem lmap t code hY
      exact ⟨p, hp, hx.trans hpv.symm⟩

/-- Every reconstructed output line is a blank, the trailing
dispatcher line, or a stored statement of the map. -/
theorem siteLinesOut_mem (lmap : List (String × String)) :
    ∀ (ss : List SiteSpec) (first : Bool) (l : String),
      l ∈ siteLinesOut lmap ss first →
        l = "" ∨ l = "goto %ans%" ∨ ∃ p ∈ lmap, l = p.2 := by
  intro ss
  induction ss with
  | nil =>
    intro first l hl
    cases first
    · rw [show siteLinesOut lmap [] false = ["", "goto %ans%"] from rfl] at hl
      rcases List.mem_cons.mp hl with rfl | hl'
      · exact Or.inl rfl
      · rcases List.mem_cons.mp hl' with rfl | hl''
        · exact Or.inr (Or.inl rfl)
        · cases hl''
    · rw [show siteLinesOut lmap [] true = ["goto %ans%"] from rfl] at hl
      rcases List.mem_cons.mp hl with rfl | hl'
      · exact Or.inr (Or.inl rfl)
      · cases hl'
  | cons s ss ih =>
    intro first l hl
    have hrest : l ∈ siteOut lmap s ++ siteLinesOut lmap ss false →
        l = "" ∨ l = "goto %ans%" ∨ ∃ p ∈ lmap, l = p.2 := by
      intro h
      rcases List.mem_append.mp h with h1 | h2
      · exact Or.inr (Or.inr (siteOut_subset lmap s l h1))
      · exact ih false l h2
    cases first
    · rw [show siteLinesOut lmap (s :: ss) false =
        "" :: "" :: (siteOut lmap s ++ siteLinesOut lmap ss false) from rfl] at hl
      rcases List.mem_cons.mp hl with rfl | hl'
      · exact Or.inl rfl
      · rcases List.mem_cons.mp hl' with rfl | hl''
        · exact Or.inl rfl
        · exact hrest hl''
    · rw [show siteLinesOut lmap (s :: ss) true =
        "" :: (siteOut lmap s ++ siteLinesOut lmap ss false) from rfl] at hl
      rcases List.mem_cons.mp hl with rfl | hl'
      · exact Or.inl rfl
      · exact hrest hl'

/-- Association-list lookup, one step. -/
theorem alistGet_cons (p : String × String) (m : List (String × String)) (k : String) :
    alistGet (p :: m) k = if p.1 = k then some p.2 else alistGet m k := by
  by_cases h : p.1 = k
  · rw [if_pos h]
    unfold alistGet
    rw [List.find?_cons_of_pos _ (by simp [h])]
    rfl
  · rw [if_neg h]
    unfold alistGet
    rw [List.find?_cons_of_neg _ (by simp [h])]

/-- With distinct rendered labels, looking a block's label up in the
block map returns that block's statement. -/
theorem blockMapOf_get (blocks : List (Nat × String))
    (hnd : (blocks.map (fun b => renderNat b.1)).Nodup)
    (b : Nat × String) (hb : b ∈ blocks) :
    alistGet (blockMapOf blocks) (renderNat b.1) = some b.2 := by
  induction blocks with
  | nil => cases hb
  | cons x xs ih =>
    rw [List.map_cons] at hnd
    obtain ⟨hx, hxs⟩ := List.nodup_cons.mp hnd
    rw [show blockMapOf (x :: xs) = (renderNat x.1, x.2) :: blockMapOf xs from rfl,
      alistGet_cons]
    rcases List.mem_cons.mp hb with rfl | hb'
    · rw [if_pos rfl]
    · have hne : renderNat x.1 ≠ renderNat b.1 := by
        intro h
        rw [h] at hx
        exact hx (List.mem_map.mpr ⟨b, hb', rfl⟩)
      rw [if_neg hne]
      exact ih hxs hb'

/-- A site whose expression evaluates to a present label contributes
exactly that block's statement. -/
theorem siteOut_of_eval (blocks : List (Nat × String))
    (hnd : (blocks.map (fun b => renderNat b.1)).Nodup)
    (b : Nat × String) (hb : b ∈ blocks) (s : SiteSpec)
    (he : safe_eval_batch_math s.expr = some ((b.1 : Nat) : Int)) :
    siteOut (blockMapOf blocks) s = [b.2] := by
  unfold siteOut
  rw [he]
  rw [show (some ((b.1 : Nat) : Int)).map strOfInt = some (strOfInt ((b.1 : Nat) : Int))
    from rfl]
  rw [strOfInt_natCast]
  show (match alistGet (blockMapOf blocks) (renderNat b.1) with
    | some code => [code]
    | none => []) = [b.2]
  rw [blockMapOf_get blocks hnd b hb]

/-- A site's contribution is empty or a single line. -/
theorem siteOut_shape (lmap : List (String × String)) (s : SiteSpec) :
    siteOut lmap s = [] ∨ ∃ c, siteOut lmap s = [c] := by
  unfold siteOut
  cases hX : (safe_eval_batch_math s.expr).map strOfInt with
  | none => exact Or.inl rfl
  | some t =>
    cases hY : alistGet lmap t with
    | none => left; simp [hY]
    | some code => right; exact ⟨code, by simp [hY]⟩

/-- Occurrences of a non-blank, non-dispatcher line in the
reconstructed output are exactly the sites contributing it. -/
theorem siteLinesOut_countP (lmap : List (String × String)) (v : String)
    (hv1 : v ≠ "") (hv2 : v ≠ "goto %ans%") :
    ∀ (ss : List SiteSpec) (first : Bool),
      (siteLinesOut lmap ss first).countP (fun l => decide (l = v)) =
        ss.countP (fun s => decide (siteOut lmap s = [v])) := by
  intro ss
  induction ss with
  | nil =>
    intro first
    cases first
    · rw [show siteLinesOut lmap [] false = ["", "goto %ans%"] from rfl]
      simp [List.countP_cons, Ne.symm hv1, Ne.symm hv2]
    · rw [show siteLinesOut lmap [] true = ["goto %ans%"] from rfl]
      simp [List.countP_cons, Ne.symm hv2]
  | cons s ss ih =>
    intro first
    have hout : (siteOut lmap s).countP (fun l => decide (l = v)) =
        if siteOut lmap s = [v] then 1 else 0 := by
      rcases siteOut_shape lmap s with h | ⟨c, h⟩
      · rw [h]; simp
      · rw [h]
        by_cases hc : c = v
        · subst hc; simp [List.countP_cons]
        · simp [List.countP_cons, hc]
    cases first
    · rw [show siteLinesOut lmap (s :: ss) false =
        "" :: "" :: (siteOut lmap s ++ siteLinesOut lmap ss false) from rfl]
      rw [List.countP_cons, List.countP_cons, List.countP_append, hout, ih false,
        List.countP_cons]
      simp [Ne.symm hv1, Nat.add_comm]
    · rw [show siteLinesOut lmap (s :: ss) true =
        "" :: (siteOut lmap s ++ siteLinesOut lmap ss false) from rfl]
      rw [List.countP_cons, List.countP_append, hout, ih false, List.countP_cons]
      simp [Ne.symm hv1, Nat.add_comm]

/-- With distinct rendered labels, exactly one block of the table
carries a given block's label. -/
theorem countP_key_one (blocks : List (Nat × String)) (b0 : Nat × String)
    (hnd : (blocks.map (fun b => renderNat b.1)).Nodup) (hb0 : b0 ∈ blocks) :
    blocks.countP (fun b => decide (renderNat b.1 = renderNat b0.1)) = 1 := by
  induction blocks with
  | nil => cases hb0
  | cons x xs ih =>
    rw [List.map_cons] at hnd
    obtain ⟨hx, hxs⟩ := List.nodup_cons.mp hnd
    rw [List.countP_cons]
    rcases List.mem_cons.mp hb0 with rfl | hb'
    · have h0 : xs.countP (fun b => decide (renderNat b.1 = renderNat b0.1)) = 0 := by
        apply List.countP_eq_zero.mpr
        intro b hb hpb
        simp only [decide_eq_true_eq] at hpb
        rw [← hpb] at hx
        exact hx (List.mem_map.mpr ⟨b, hb, rfl⟩)
      rw [h0]
      simp
    · have hne : renderNat x.1 ≠ renderNat b0.1 := by
        intro h
        rw [h] at hx
        exact hx (List.mem_map.mpr ⟨b0, hb', rfl⟩)
      rw [ih hxs hb']
      simp [hne]

/-- Counting a value among the evaluated site expressions. -/
theorem countP_eval_map (sites : List SiteSpec) (c : Option Int) :
    sites.countP (fun s => decide (safe_eval_batch_math s.expr = c)) =
      (sites.map (fun s => safe_eval_batch_math s.expr)).countP
        (fun x => decide (x = c)) := by
  induction sites with
  | nil => rfl
  | cons s ss ih => simp [List.countP_cons, ih]

/-- Counting a value among the block labels, pulled through the map. -/
theorem countP_blocks_map (blocks : List (Nat × String)) (c : Option Int) :
    (blocks.map (fun b => some ((b.1 : Nat) : Int))).countP (fun x => decide (x = c)) =
      blocks.countP (fun b => decide (some ((b.1 : Nat) : Int) = c)) := by
  induction blocks with
  | nil => rfl
  | cons b bs ih => simp [List.countP_cons, ih]

/-- C2: on a synthetic input whose dispatch-site expressions evaluate,
as a multiset, exactly to the labels of the well-formed relocated
blocks — distinct labels, distinct recovered statements, none equal to
the dispatcher line — the Scramble Reverser's output is the per-site
reconstruction `siteLinesOut`; every dispatch site resolves to the
statement of the unique block carrying its evaluated label, so each
recovered statement stands at the position of its dispatch site, and
each block's statement occurs exactly once among the output lines. -/
theorem c2_scramble_roundtrip (sites : List SiteSpec) (blocks : List (Nat × String))
    (hwfe : ∀ s ∈ sites, WfExpr s.expr)
    (hwfb : ∀ b ∈ blocks, WfStmt b.2)
    (hnd : (blocks.map (fun b => renderNat b.1)).Nodup)
    (hbne : blocks ≠ [])
    (htgt : (sites.map (fun s => safe_eval_batch_math s.expr)).Perm
      (blocks.map (fun b => some ((b.1 : Nat) : Int))))
    (hstnd : (blocks.map Prod.snd).Nodup)
    (hngoto : ∀ b ∈ blocks, b.2 ≠ "goto %ans%") :
    reverse_scrambling (synthInput sites blocks) =
      siteLinesOut (blockMapOf blocks) sites true ∧
    (∀ s ∈ sites, ∃ b ∈ blocks,
      safe_eval_batch_math s.expr = some ((b.1 : Nat) : Int) ∧
      siteOut (blockMapOf blocks) s = [b.2]) ∧
    (∀ b ∈ blocks,
      ((reverse_scrambling (synthInput sites blocks)).filter
        (fun l => decide (l = b.2))).length = 1) := by
  have hmain := reverse_scrambling_synth_lines sites blocks hwfe hwfb hnd hbne
  have heval : ∀ s ∈ sites, ∃ b ∈ blocks,
      safe_eval_batch_math s.expr = some ((b.1 : Nat) : Int) := by
    intro s hs
    have h1 : safe_eval_batch_math s.expr ∈
        sites.map (fun s => safe_eval_batch_math s.expr) :=
      List.mem_map.mpr ⟨s, hs, rfl⟩
    obtain ⟨b, hb, hbe⟩ := List.mem_map.mp (htgt.mem_iff.mp h1)
    exact ⟨b, hb, hbe.symm⟩
  refine ⟨hmain, ?_, ?_⟩
  · intro s hs
    obtain ⟨b, hb, hbe⟩ := heval s hs
    exact ⟨b, hb, hbe, siteOut_of_eval blocks hnd b hb s hbe⟩
  · intro b0 hb0
    have hvne : b0.2 ≠ "" := (hwfb b0 hb0).1
    have hvng := hngoto b0 hb0
    have hpt : ∀ s ∈ sites,
        decide (siteOut (blockMapOf blocks) s = [b0.2]) = true ↔
        decide (safe_eval_batch_math s.expr = some ((b0.1 : Nat) : Int)) = true := by
      intro s hs
      simp only [decide_eq_true_eq]
      constructor
      · intro hso
        obtain ⟨b, hb, hbe⟩ := heval s hs
        have hsb := siteOut_of_eval blocks hnd b hb s hbe
        rw [hso] at hsb
        have hb2 : b.2 = b0.2 := by
          injection hsb with h1 _
          exact h1.symm
        have hbb : b = b0 := List.inj_on_of_nodup_map hstnd hb hb0 hb2
        rw [← hbb]
        exact hbe
      · intro he
        exact siteOut_of_eval blocks hnd b0 hb0 s he
    have hpt2 : ∀ b ∈ blocks,
        decide (some ((b.1 : Nat) : Int) = some ((b0.1 : Nat) : Int)) = true ↔
        decide (renderNat b.1 = renderNat b0.1) = true := by
      intro b hb
      simp only [decide_eq_true_eq, Option.some.injEq, Int.natCast_inj]
      exact ⟨fun h => by rw [h], renderNat_inj b.1 b0.1⟩
    rw [hmain]
    rw [← List.countP_eq_length_filter]
    rw [siteLinesOut_countP (blockMapOf blocks) b0.2 hvne hvng sites true]
    rw [List.countP_congr hpt]
    rw [countP_eval_map sites (some ((b0.1 : Nat) : Int))]
    rw [htgt.countP_eq]
    rw [countP_blocks_map blocks (some ((b0.1 : Nat) : Int))]
    rw [List.countP_congr hpt2]
    exact countP_key_one blocks b0 hnd hb0

/-- Concrete instance of the round trip: two dispatch sites whose
expressions evaluate to the labels two and one, two blocks, and the
output carries each recovered statement at its site's position. -/
theorem c2_scramble_roundtrip_witness :
    reverse_scrambling (synthInput [⟨"2", 11⟩, ⟨"1+1-1", 12⟩]
        [(1, "echo one"), (2, "echo two")]) =
      ["", "echo two", "", "", "echo one", "", "goto %ans%"] :=
  ((c2_scramble_roundtrip [⟨"2", 11⟩, ⟨"1+1-1", 12⟩] [(1, "echo one"), (2, "echo two")]
    (by decide) (by decide) (by decide) (by decide) (by decide) (by decide)
    (by decide)).1).trans (by decide)

/-- A site's opening line is never blank. -/
theorem setline_ne_empty (e : String) : "set /a ans=" ++ e ≠ "" := by
  intro h
  have h2 := congrArg String.data h
  rw [String.data_append,
    show ("set /a ans=" : String).data =
      ['s','e','t',' ','/','a',' ','a','n','s','='] from rfl] at h2
  simp at h2

/-- A site's opening line is never the dispatcher line. -/
theorem setline_ne_goto (e : String) : "set /a ans=" ++ e ≠ "goto %ans%" := by
  intro h
  have h2 := congrArg String.data h
  rw [String.data_append,
    show ("set /a ans=" : String).data =
      ['s','e','t',' ','/','a',' ','a','n','s','='] from rfl,
    show ("goto %ans%" : String).data =
      ['g','o','t','o',' ','%','a','n','s','%'] from rfl] at h2
  simp at h2

/-- A site's return-label line is never blank. -/
theorem retline_ne_empty (n : Nat) : ":" ++ renderNat n ≠ "" := by
  intro h
  have h2 := congrArg String.data h
  rw [String.data_append, show (":" : String).data = [':'] from rfl] at h2
  simp at h2

/-- A site's return-label line is never the dispatcher line. -/
theorem retline_ne_goto (n : Nat) : ":" ++ renderNat n ≠ "goto %ans%" := by
  intro h
  have h2 := congrArg String.data h
  rw [String.data_append, show (":" : String).data = [':'] from rfl,
    show ("goto %ans%" : String).data =
      ['g','o','t','o',' ','%','a','n','s','%'] from rfl] at h2
  simp at h2

/-- C3 (amended): on a synthetic input whose block table yields a
nonempty map of well-formed statements distinct from every site line,
the output is exactly the reconstruction `siteLinesOut`; every output
line is a blank, the trailing dispatcher line, or a recovered block
statement; and no dispatch site's opening or return-label line
survives — in particular a site whose expression fails to evaluate or
whose evaluated label is absent from the map contributes nothing, so
it is deleted apart from the blank separator lines the splice leaves
in place. The original claim fails when the block table yields an
empty map: the reverser then returns the main section unchanged,
keeping every failing site verbatim. -/
theorem c3_failing_site_amended (sites : List SiteSpec) (blocks : List (Nat × String))
    (hwfe : ∀ s ∈ sites, WfExpr s.expr)
    (hwfb : ∀ b ∈ blocks, WfStmt b.2)
    (hnd : (blocks.map (fun b => renderNat b.1)).Nodup)
    (hbne : blocks ≠ [])
    (hdist : ∀ b ∈ blocks, ∀ s ∈ sites,
      b.2 ≠ "set /a ans=" ++ s.expr ∧ b.2 ≠ ":" ++ renderNat s.ret) :
    reverse_scrambling (synthInput sites blocks) =
      siteLinesOut (blockMapOf blocks) sites true ∧
    (∀ l ∈ reverse_scrambling (synthInput sites blocks),
      l = "" ∨ l = "goto %ans%" ∨ ∃ b ∈ blocks, l = b.2) ∧
    (∀ s ∈ sites,
      ("set /a ans=" ++ s.expr) ∉ reverse_scrambling (synthInput sites blocks) ∧
      (":" ++ renderNat s.ret) ∉ reverse_scrambling (synthInput sites blocks)) := by
  have hmain := reverse_scrambling_synth_lines sites blocks hwfe hwfb hnd hbne
  have hmem : ∀ l ∈ reverse_scrambling (synthInput sites blocks),
      l = "" ∨ l = "goto %ans%" ∨ ∃ b ∈ blocks, l = b.2 := by
    intro l hl
    rw [hmain] at hl
    rcases siteLinesOut_mem (blockMapOf blocks) sites true l hl with h | h | ⟨p, hp, hlp⟩
    · exact Or.inl h
    · exact Or.inr (Or.inl h)
    · obtain ⟨b, hb, rfl⟩ := List.mem_map.mp hp
      exact Or.inr (Or.inr ⟨b, hb, hlp⟩)
  refine ⟨hmain, hmem, ?_⟩
  intro s hs
  constructor
  · intro hin
    rcases hmem _ hin with h | h | ⟨b, hb, hlb⟩
    · exact setline_ne_empty s.expr h
    · exact setline_ne_goto s.expr h
    · exact (hdist b hb s hs).1 hlb.symm
  · intro hin
    rcases hmem _ hin with h | h | ⟨b, hb, hlb⟩
    · exact retline_ne_empty s.ret h
    · exact retline_ne_goto s.ret h
    · exact (hdist b hb s hs).2 hlb.symm

/-- Concrete instance of the amended behaviour: the first site's label
two has no block, so only its blank separators remain; the second
site's statement is recovered in place. -/
theorem c3_failing_site_amended_witness :
    reverse_scrambling (synthInput [⟨"2", 9⟩, ⟨"1", 8⟩] [(1, "echo ok")]) =
      ["", "", "", "echo ok", "", "goto %ans%"] :=
  ((c3_failing_site_amended [⟨"2", 9⟩, ⟨"1", 8⟩] [(1, "echo ok")]
    (by decide) (by decide) (by decide) (by decide) (by decide)).1).trans (by decide)

/-- The dispatcher boundary of this input is found at index four, the
single dispatch site's expression evaluates to the label one, that
label has no entry in the (empty) block map, and yet the output keeps
all three site lines verbatim instead of deleting the site. -/
theorem c3_sites_kept_when_no_blocks :
    findEofAux (synthInput [⟨"1", 1⟩] []) none 0 = some 4 ∧
    safe_eval_batch_math "1" = some 1 ∧
    alistGet [] (strOfInt 1) = none ∧
    reverse_scrambling (synthInput [⟨"1", 1⟩] []) =
      ["set /a ans=1", "goto %ans%", ":1", "goto %ans%"] ∧
    "set /a ans=1" ∈ reverse_scrambling (synthInput [⟨"1", 1⟩] []) := by
  decide

end Somali


